import Mathlib

/-!
Proxy registry of the actor framework (libcaf_core/src/proxy_registry.cpp).

A shallow embedding of `caf::proxy_registry`. The registry is embedded as a
value that every member function takes and (when it is not `const`) returns.
The lock `mtx_` guards critical sections and carries no data; the embedding
is the behaviour of one caller running a member function to completion.

* `std::unordered_map<K, V>` is an association list with unique keys, kept in
  insertion order (iteration order of the C++ container is unspecified).
* `strong_actor_ptr` and `actor` are nullable handles: `none` is `nullptr`
  (resp. the default-constructed `actor{}`), `some h` a handle to the actor
  object `h`.
* the factory is a function pointer that may change the actor system it is
  handed (it spawns an actor), so it maps a system to a handle and a system.
-/

namespace caf

/-! ## std::unordered_map -/

/-- Association-list view of `std::unordered_map<K, V>`. -/
abbrev unordered_map (K V : Type) := List (K × V)

/-- What `emplace` hands back: the container after the call, the mapped value
the returned iterator points at (`op.first->second`) and whether the insertion
took place (`op.second`). -/
structure emplace_result (K V : Type) where
  map : unordered_map K V
  value : V
  inserted : Bool

namespace unordered_map

variable {K V : Type} [DecidableEq K]

/-- The member `find(k)`: the mapped value of key `k`, `none` for `end()`. -/
def find : unordered_map K V → K → Option V
  | [], _ => none
  | (k', v) :: m, k => if k' = k then some v else find m k

/-- The member `emplace(k, v)`: inserts only when no element has key `k`. -/
def emplace (m : unordered_map K V) (k : K) (v : V) : emplace_result K V :=
  match find m k with
  | some old => { map := m, value := old, inserted := false }
  | none => { map := m ++ [(k, v)], value := v, inserted := true }

/-- The member `erase(it)` for the iterator `it = find(k)`: removes that one
element. -/
def erase : unordered_map K V → K → unordered_map K V
  | [], _ => []
  | (k', v) :: m, k => if k' = k then m else (k', v) :: erase m k

/-- A write through the iterator `find(k)`: `it->second = v`. -/
def assign : unordered_map K V → K → V → unordered_map K V
  | [], _, _ => []
  | (k', v') :: m, k, v => if k' = k then (k', v) :: m else (k', v') :: assign m k v

/-- The member `size()`. -/
def size (m : unordered_map K V) : Nat := m.length

/-- The member `empty()`. -/
def empty (m : unordered_map K V) : Bool := m.isEmpty

/-- The keys, in iteration order. -/
def keys (m : unordered_map K V) : List K := m.map Prod.fst

/-- The mapped values, in iteration order (`for (auto& kvp : m) kvp.second`). -/
def values (m : unordered_map K V) : List V := m.map Prod.snd

/-- The container invariant of `std::unordered_map`: keys are unique. -/
def unique_keys (m : unordered_map K V) : Prop := (keys m).Nodup

instance (m : unordered_map K V) : Decidable (unique_keys m) := by
  unfold unique_keys; infer_instance

end unordered_map

/-! ## Identities and handles -/

/-- Modelled from the spec: `caf/node_id.hpp` is not part of the sources at
hand. A node id is a numeric tag plus a byte-string fingerprint, comparable
for equality (spec section 3, NodeId). -/
structure node_id where
  process_id : Nat
  host_id : List Nat
  deriving DecidableEq, Repr

/-- The type `actor_id`: a 64-bit identifier, unique within a node. No
arithmetic is done on it. -/
abbrev actor_id := Nat

/-- The type `strong_actor_ptr`: `none` is `nullptr`. -/
abbrev strong_actor_ptr := Option Nat

/-- The handle type `actor`: `none` is the default-constructed `actor{}`. -/
abbrev actor := Option Nat

/-- Modelled from the spec: `caf/error.hpp` and `caf/exit_reason.hpp` are not
part of the sources at hand. An error is an exit reason;
`remote_link_unreachable` is the one the registry names. -/
inductive error where
  | remote_link_unreachable
  | other (code : Nat)
  deriving DecidableEq, Repr

/-! ## The registry -/

/-- The member type `proxy_registry::proxy_map`. -/
abbrev proxy_map := unordered_map actor_id strong_actor_ptr

/-- The member type `proxy_registry::node_state`. -/
structure node_state where
  endpoint : actor
  proxies : proxy_map
  deriving DecidableEq, Repr

/-- The member type `proxy_registry::node_map`. -/
abbrev node_map := unordered_map node_id node_state

/-- The member type `proxy_registry::factory`, a function pointer
`strong_actor_ptr (*)(actor_system&, const node_id&, actor_id, actor)`. The
type `S` is the state of the actor system, which the factory may change. -/
abbrev factory (S : Type) := S → node_id → actor_id → actor → strong_actor_ptr × S

/-- The function `dummy_factory` of the anonymous namespace. -/
def dummy_factory {S : Type} : factory S :=
  fun sys _ _ _ => (none, sys)

/-- The class `proxy_registry`, without its lock. -/
structure proxy_registry (S : Type) where
  system_ : S
  nodes_ : node_map
  factory_ : factory S

namespace proxy_registry

variable {S : Type}

/-- The constructor `proxy_registry(actor_system& sys)`. -/
def create (sys : S) : proxy_registry S :=
  { system_ := sys, nodes_ := [], factory_ := dummy_factory }

/-- The member `init(factory f)`. -/
def init (self : proxy_registry S) (f : factory S) : proxy_registry S :=
  { self with factory_ := f }

/-- The member `count_proxies(node)`. -/
def count_proxies (self : proxy_registry S) (node : node_id) : Nat :=
  match unordered_map.find self.nodes_ node with
  | some st => unordered_map.size st.proxies
  | none => 0

/-- The member `get(node, aid)`. -/
def get (self : proxy_registry S) (node : node_id) (aid : actor_id) : strong_actor_ptr :=
  match unordered_map.find self.nodes_ node with
  | none => none
  | some st =>
    match unordered_map.find st.proxies aid with
    | none => none
    | some p => p

/-- The member `get_or_put(nid, aid)`: the handle it returns and the registry
it leaves behind. -/
def get_or_put (self : proxy_registry S) (nid : node_id) (aid : actor_id) :
    strong_actor_ptr × proxy_registry S :=
  match unordered_map.find self.nodes_ nid with
  | none =>
    let made := self.factory_ self.system_ nid aid none
    let result := made.1
    let tmp : proxy_map := (unordered_map.emplace [] aid result).map
    let op := unordered_map.emplace self.nodes_ nid { endpoint := none, proxies := tmp }
    if !op.inserted then
      let sub_op := unordered_map.emplace op.value.proxies aid result
      let nodes := unordered_map.assign op.map nid { op.value with proxies := sub_op.map }
      if !sub_op.inserted then
        (sub_op.value, { self with system_ := made.2, nodes_ := nodes })
      else
        (result, { self with system_ := made.2, nodes_ := nodes })
    else
      (result, { self with system_ := made.2, nodes_ := op.map })
  | some st =>
    match unordered_map.find st.proxies aid with
    | none =>
      let made := self.factory_ self.system_ nid aid st.endpoint
      let result := made.1
      let op := unordered_map.emplace st.proxies aid result
      let nodes := unordered_map.assign self.nodes_ nid { st with proxies := op.map }
      if !op.inserted then
        (op.value, { self with system_ := made.2, nodes_ := nodes })
      else
        (result, { self with system_ := made.2, nodes_ := nodes })
    | some p => (p, self)

/-- The member `get_all(nid)`. -/
def get_all (self : proxy_registry S) (nid : node_id) : List strong_actor_ptr :=
  match unordered_map.find self.nodes_ nid with
  | some st => unordered_map.values st.proxies
  | none => []

/-- The member `claim(nid, endpoint)`: the proxies it returns and the registry
it leaves behind. `nodes_[nid]` default-constructs the node state when the key
is new. -/
def claim (self : proxy_registry S) (nid : node_id) (endpoint : actor) :
    List strong_actor_ptr × proxy_registry S :=
  let op := unordered_map.emplace self.nodes_ nid { endpoint := none, proxies := [] }
  let node : node_state := { op.value with endpoint := endpoint }
  (unordered_map.values node.proxies,
    { self with nodes_ := unordered_map.assign op.map nid node })

/-- The member `empty()`. -/
def empty (self : proxy_registry S) : Bool :=
  unordered_map.empty self.nodes_

/-- The private member `kill_proxy(ptr, rsn)`: returns at once for a null
pointer, and its body for a non-null one is a comment. -/
def kill_proxy (self : proxy_registry S) (ptr : strong_actor_ptr) (_rsn : error) :
    proxy_registry S :=
  if ptr = none then self else self

/-- The member `erase(nid)`. -/
def erase_node (self : proxy_registry S) (nid : node_id) : proxy_registry S :=
  match unordered_map.find self.nodes_ nid with
  | none => self
  | some st =>
    let killed := (unordered_map.values st.proxies).foldl
      (fun r p => r.kill_proxy p error.remote_link_unreachable) self
    { killed with nodes_ := unordered_map.erase killed.nodes_ nid }

/-- The member `erase(nid, aid, rsn)`. -/
def erase (self : proxy_registry S) (nid : node_id) (aid : actor_id)
    (rsn : error) : proxy_registry S :=
  match unordered_map.find self.nodes_ nid with
  | none => self
  | some st =>
    match unordered_map.find st.proxies aid with
    | none => self
    | some p =>
      let killed := self.kill_proxy p rsn
      let submap := unordered_map.erase st.proxies aid
      if unordered_map.empty submap then
        { killed with nodes_ := unordered_map.erase killed.nodes_ nid }
      else
        { killed with nodes_ := unordered_map.assign killed.nodes_ nid { st with proxies := submap } }

/-- The member `clear()`. -/
def clear (self : proxy_registry S) : proxy_registry S :=
  let killed := (unordered_map.values self.nodes_).foldl
    (fun r st => (unordered_map.values st.proxies).foldl
      (fun r' p => r'.kill_proxy p error.remote_link_unreachable) r) self
  { killed with nodes_ := [] }

/-- The proxy-map slot of the key `(nid, aid)`: `none` when the key is not
resident, `some p` when the proxy map of `nid` maps `aid` to `p`. -/
def stored (self : proxy_registry S) (nid : node_id) (aid : actor_id) :
    Option strong_actor_ptr :=
  match unordered_map.find self.nodes_ nid with
  | none => none
  | some st => unordered_map.find st.proxies aid

/-- The parent `get_or_put(nid, aid)` hands to the factory when it has to
construct a proxy: `actor{}` in the branch `i == nodes_.end()`, and
`i->second.endpoint` otherwise. -/
def parent_for (self : proxy_registry S) (nid : node_id) : actor :=
  match unordered_map.find self.nodes_ nid with
  | none => none
  | some st => st.endpoint

/-- The container invariant of the two map levels: node ids are unique in
`nodes_`, actor ids are unique in every proxy map. -/
def well_formed (self : proxy_registry S) : Prop :=
  unordered_map.unique_keys self.nodes_ ∧
    ∀ e ∈ self.nodes_, unordered_map.unique_keys e.2.proxies

instance (self : proxy_registry S) : Decidable (well_formed self) := by
  unfold well_formed; infer_instance

end proxy_registry

/-! ## Observing factory invocations -/

/-- The arguments of one factory invocation. -/
structure factory_call where
  nid : node_id
  aid : actor_id
  parent : actor
  deriving DecidableEq, Repr

/-- A factory that behaves as `f` and appends the arguments of every
invocation to a log kept beside the actor system (the counterpart of the
counter `testee_instances_created` of the unit test). -/
def recording {S : Type} (f : factory S) : factory (S × List factory_call) :=
  fun sys nid aid parent =>
    ((f sys.1 nid aid parent).1,
      ((f sys.1 nid aid parent).2, sys.2 ++ [{ nid := nid, aid := aid, parent := parent }]))

namespace proxy_registry

variable {S : Type}

/-- The registry `self` with its own factory wrapped by `recording`, the log
starting as `log`. -/
def recorded (self : proxy_registry S) (log : List factory_call) :
    proxy_registry (S × List factory_call) :=
  { system_ := (self.system_, log), nodes_ := self.nodes_,
    factory_ := recording self.factory_ }

end proxy_registry

/-! ## Sequences of member calls -/

/-- One call of a public member function of the registry. -/
inductive operation where
  | count_proxies (node : node_id)
  | get (node : node_id) (aid : actor_id)
  | get_or_put (nid : node_id) (aid : actor_id)
  | get_all (nid : node_id)
  | claim (nid : node_id) (endpoint : actor)
  | empty
  | erase_node (nid : node_id)
  | erase (nid : node_id) (aid : actor_id) (rsn : error)
  | clear
  deriving DecidableEq, Repr

namespace proxy_registry

variable {S : Type}

/-- The registry after one member call. The `const` members leave it as it
is. -/
def apply (self : proxy_registry S) : operation → proxy_registry S
  | .count_proxies _ => self
  | .get _ _ => self
  | .get_or_put nid aid => (self.get_or_put nid aid).2
  | .get_all _ => self
  | .claim nid endpoint => (self.claim nid endpoint).2
  | .empty => self
  | .erase_node nid => self.erase_node nid
  | .erase nid aid rsn => self.erase nid aid rsn
  | .clear => self.clear

/-- The registry after a sequence of member calls, leftmost first. -/
def run (self : proxy_registry S) : List operation → proxy_registry S
  | [] => self
  | op :: ops => run (self.apply op) ops

/-- Whether `nid` keeps a node state after every call of the sequence. -/
def keeps_node (self : proxy_registry S) (nid : node_id) : List operation → Bool
  | [] => true
  | op :: ops =>
    (unordered_map.find (self.apply op).nodes_ nid).isSome &&
      keeps_node (self.apply op) nid ops

end proxy_registry

namespace operation

/-- Whether the call is one of `erase(nid, aid)`, `erase(nid)` and `clear()`,
the calls that take the key `(nid, aid)` out of the registry. -/
def removes_key (nid : node_id) (aid : actor_id) : operation → Bool
  | .erase_node n => decide (n = nid)
  | .erase n a _ => decide (n = nid) && decide (a = aid)
  | .clear => true
  | _ => false

/-- Whether the call is a `claim` on the node `nid`. -/
def claims (nid : node_id) : operation → Bool
  | .claim n _ => decide (n = nid)
  | _ => false

end operation

/-! ## The fixture of the unit test -/

/-- Modelled from the spec: `actor_system::spawn` is not part of the sources
at hand. The actor system of the test fixture, reduced to what the test
factory does to it: the parents of the `testee_actor` instances spawned so
far, in order. Its length is `testee_instances_created`. -/
structure test_system where
  testees : List actor
  deriving DecidableEq, Repr

/-- The function `test_factory` of the unit test: spawns a `testee_actor`
with the given parent and returns a handle to it, which is fresh. -/
def test_factory : factory test_system :=
  fun sys _ _ parent => (some sys.testees.length, { testees := sys.testees ++ [parent] })

/-- The node id `mars` of the fixture. -/
def mars : node_id := { process_id := 1, host_id := List.replicate 20 0x11 }

/-- The node id `mercury` of the fixture. -/
def mercury : node_id := { process_id := 2, host_id := List.replicate 21 0x22 }

/-- The registry of the fixture: constructed, then `init(test_factory)`. -/
def fixture : proxy_registry test_system :=
  (proxy_registry.create { testees := [] }).init test_factory

end caf

/-! ## The actor-address codec -/

namespace caf

/-- Modelled from the spec: the hooks `serialize`, `write` and `read` are
declared in `proxy_registry.hpp` and defined nowhere in the sources at hand,
and neither are the deserializer and the registry of local actors. This is
what the hook `read` needs of its surroundings (spec section 4.3): the id of
the local node, the lookup of the local actor registry, and the decoder of the
byte format, which the spec leaves opaque: `source buf` is the pair
`(ActorId, NodeId)` that `buf` holds, `none` when it holds none. -/
structure deserializer (B : Type) where
  home : node_id
  local_actors : actor_id → strong_actor_ptr
  source : B → Option (actor_id × node_id)

namespace proxy_registry

variable {S : Type}

/-- Modelled from the spec: the hook `read` is declared in
`proxy_registry.hpp` and defined nowhere in the sources at hand. Spec section
4.3: deserialize `(NodeId, ActorId)`; if the node id equals the local node,
look the actor up in the local registry; if it is remote, call
`get_or_put(NodeId, ActorId)` on the registry and return its handle. The
result is `none` when the buffer holds no actor address. -/
def read {B : Type} (self : proxy_registry S) (d : deserializer B) (buf : B) :
    Option (strong_actor_ptr × proxy_registry S) :=
  match d.source buf with
  | none => none
  | some (aid, nid) =>
    if nid = d.home then some (d.local_actors aid, self)
    else some (self.get_or_put nid aid)

/-- The registry of an actor system that was constructed, initialised with
the factory `f` and then went through the member calls `ops`. -/
def started (sys : S) (f : factory S) (ops : List operation) : proxy_registry S :=
  ((create sys).init f).run ops

/-- No proxy map of the registry holds a null handle. -/
def holds_no_null (self : proxy_registry S) : Prop :=
  ∀ e ∈ self.nodes_, ∀ x ∈ e.2.proxies, x.2 ≠ none

end proxy_registry

/-- Modelled from the spec: the binary serializer of the actor system is not
part of the sources at hand and the spec leaves its byte format opaque. A
stand-in for the test: the sink writes the actor id, then the two parts of
the node id, as the unit test does with `sink(actor_id{1}, mars)`. -/
def test_sink (aid : actor_id) (nid : node_id) : List Nat :=
  aid :: nid.process_id :: nid.host_id

/-- Modelled from the spec: the deserializer of the test fixture, reading
what `test_sink` writes. The local node is `earth`, with no local actor. -/
def test_deserializer : deserializer (List Nat) :=
  { home := { process_id := 0, host_id := [] }
    local_actors := fun _ => none
    source := fun buf =>
      match buf with
      | aid :: pid :: host => some (aid, { process_id := pid, host_id := host })
      | _ => none }

end caf

/-! ## The BASP proxy (libcaf_io/src/basp_proxy.cpp)

One call of a member function of `basp_proxy`, run to completion by one
thread. The broker is another actor: what `resume` enqueues to it is collected
in the order of the calls. -/

namespace caf

namespace io

namespace basp

/-- Modelled from the spec: `caf/io/basp/header.hpp` is not part of the
sources at hand. The operation a header stands for; `resume` names
`dispatch_message`, the others serve link, unlink and exit propagation. -/
inductive message_type where
  | dispatch_message
  | other (code : Nat)
  deriving DecidableEq, Repr

/-- Modelled from the spec: `caf/io/basp/header.hpp` is not part of the
sources at hand. The wire header of spec section 6, its fields in the order
of the arguments `resume` gives the constructor; `flags` is the second of
them. `payload_len` is a `uint32_t`, `operation_id` 64 bits wide. -/
structure header where
  kind : message_type
  flags : Nat
  payload_len : Nat
  operation_id : Nat
  source_node : node_id
  dest_node : node_id
  source_actor_id : actor_id
  dest_actor_id : actor_id
  deriving DecidableEq, Repr

end basp

end io

/-- Modelled from the spec: `caf/message_id.hpp` is not part of the sources at
hand. A message id is a 64-bit value, read with `integer_value()`. -/
structure message_id where
  integer_value : Nat
  deriving DecidableEq, Repr

/-- Modelled from the spec: `make_message_id()` without arguments is the
default message id, of value 0. -/
def make_message_id : message_id := { integer_value := 0 }

/-- The member type `basp_proxy::forwarding_stack`. -/
abbrev forwarding_stack := List strong_actor_ptr

/-- Modelled from the spec: `caf/message.hpp` is not part of the sources at
hand. What `resume` asks of a message: whether it consists of a
`(basp::header, std::vector<char>)` pair, a record that is serialized
already, or of anything else, kept as an uninterpreted payload. -/
inductive message where
  | serialized (hdr : io.basp.header) (buf : List Nat)
  | other (payload : List Nat)
  deriving DecidableEq, Repr

/-- Modelled from the spec: `caf/mailbox_element.hpp` is not part of the
sources at hand. The mailbox record of spec section 3. -/
structure mailbox_element where
  sender : strong_actor_ptr
  mid : message_id
  stages : forwarding_stack
  content : message
  deriving DecidableEq, Repr

/-- Modelled from the spec: `caf/actor_control_block.hpp` is not part of the
sources at hand. What `sender->node()` and `sender->id()` read. -/
structure actor_control_block where
  aid : actor_id
  nid : node_id
  deriving DecidableEq, Repr

/-- What a run of a member function can end in: a value, the failure of a
`CAF_ASSERT`, or a loop that was given too few iterations to finish. -/
inductive outcome (α : Type) where
  | ok (value : α)
  | assertion_failed
  | out_of_fuel
  deriving DecidableEq, Repr

namespace intrusive

/-- Modelled from the spec: `caf/intrusive/task_result.hpp` is not part of the
sources at hand. The two results the visitor of `resume` returns. -/
inductive task_result where
  | resume
  | stop_all
  deriving DecidableEq, Repr

/-- Modelled from the spec: `caf/intrusive/new_round_result.hpp` is not part
of the sources at hand. -/
structure new_round_result where
  consumed_items : Nat
  stop_all : Bool
  deriving DecidableEq, Repr

end intrusive

/-- Modelled from the spec: `caf/resumable.hpp` is not part of the sources at
hand. The results `resume` returns. -/
inductive resume_result where
  | resume_later
  | awaiting_message
  | done
  deriving DecidableEq, Repr

namespace io

/-- Modelled from the spec: `caf/intrusive/fifo_inbox.hpp` and
`caf/intrusive/drr_queue.hpp` are not part of the sources at hand. The member
type `basp_proxy::mailbox_type`, a single-consumer mailbox over one
deficit-round-robin queue of normal messages (spec section 4.2): the records
in arrival order, the deficit counter of the queue (`deficit_type`), and
whether the mailbox is blocked (its reader waits) or closed. -/
structure mailbox_type where
  elements : List mailbox_element
  deficit : Nat
  blocked : Bool
  closed : Bool
  deriving DecidableEq, Repr

namespace mailbox_type

/-- Modelled from the spec: the loop of a deficit-round-robin round. Each
record costs one unit of deficit; the visitor `f` is handed the records from
the oldest on while deficit is left, and `stop_all` ends the round after the
record at hand. A visited record is consumed. A queue that runs empty loses
its deficit. The arguments are the queue, the deficit, the count of records
consumed so far and the state the visitor works on. -/
def consume {σ : Type}
    (f : mailbox_element → σ → outcome (intrusive.task_result × σ)) :
    List mailbox_element → Nat → Nat → σ →
      outcome (intrusive.new_round_result × (List mailbox_element × Nat) × σ)
  | [], _, consumed, s =>
    outcome.ok ({ consumed_items := consumed, stop_all := false }, ([], 0), s)
  | x :: rest, 0, consumed, s =>
    outcome.ok ({ consumed_items := consumed, stop_all := false }, (x :: rest, 0), s)
  | x :: rest, d + 1, consumed, s =>
    match f x s with
    | outcome.ok (intrusive.task_result.resume, s') => consume f rest d (consumed + 1) s'
    | outcome.ok (intrusive.task_result.stop_all, s') =>
      outcome.ok ({ consumed_items := consumed + 1, stop_all := true },
        (rest, if rest.isEmpty then 0 else d), s')
    | outcome.assertion_failed => outcome.assertion_failed
    | outcome.out_of_fuel => outcome.out_of_fuel

/-- Modelled from the spec: the member `new_round(quantum, f)`, one
deficit-round-robin round over the mailbox with the given quantum. -/
def new_round {σ : Type} (self : mailbox_type) (quantum : Nat)
    (f : mailbox_element → σ → outcome (intrusive.task_result × σ)) (s : σ) :
    outcome (intrusive.new_round_result × mailbox_type × σ) :=
  if self.elements.isEmpty then
    outcome.ok ({ consumed_items := 0, stop_all := false }, self, s)
  else
    match consume f self.elements (self.deficit + quantum) 0 s with
    | outcome.ok (res, (queue, deficit), s') =>
      outcome.ok (res, { self with elements := queue, deficit := deficit }, s')
    | outcome.assertion_failed => outcome.assertion_failed
    | outcome.out_of_fuel => outcome.out_of_fuel

/-- Modelled from the spec: the member `try_block()`, the attempt to move the
mailbox to the blocked state. It succeeds on a mailbox that is empty and
neither blocked nor closed. -/
def try_block (self : mailbox_type) : Bool × mailbox_type :=
  if self.elements.isEmpty && !self.blocked && !self.closed then
    (true, { self with blocked := true })
  else
    (false, self)

end mailbox_type

/-- Modelled from the spec: `caf/actor_system.hpp` and
`caf/binary_serializer.hpp` are not part of the sources at hand. What the
proxy asks of `home_system()`: the id of the local node, the control blocks
the handles point to, and the binary serializer, `sink(stages, content)`,
which yields the buffer it wrote or `none` for an error. -/
structure home_system where
  node : node_id
  control_block : Nat → actor_control_block
  serialize : forwarding_stack → message → Option (List Nat)

/-- The class `basp_proxy`, without the lock of its broker slot: its own
control block (`ctrl()`), node and actor id (`node()`, `id()`), the mailbox
and the broker. -/
structure basp_proxy where
  ctrl_ : Nat
  node_ : node_id
  id_ : actor_id
  mailbox_ : mailbox_type
  broker_ : actor
  deriving DecidableEq, Repr

/-- What the visitor of `resume` works on: the local `handled_msgs` and the
records enqueued to the broker so far, oldest first. -/
structure resume_state where
  handled_msgs : Nat
  broker_inbox : List mailbox_element
  deriving DecidableEq, Repr

namespace basp_proxy

/-- The constructor `basp_proxy(cfg, dest)`; the configuration gives the
proxy its identity. -/
def create (ctrl : Nat) (node : node_id) (id : actor_id) (dest : actor) : basp_proxy :=
  { ctrl_ := ctrl, node_ := node, id_ := id,
    mailbox_ := { elements := [], deficit := 0, blocked := false, closed := false },
    broker_ := dest }

/-- Modelled from the spec: `eq_impl` of `abstract_actor` is not part of the
sources at hand. The record `broker_->eq_impl(mid, sender, ctx, hdr, buf)`
enqueues to the broker: the pair `(hdr, buf)` with the given message id and
sender and without stages. -/
def eq_impl (mid : message_id) (sender : strong_actor_ptr) (_ctx : Option Nat)
    (hdr : basp.header) (buf : List Nat) : mailbox_element :=
  { sender := sender, mid := mid, stages := [], content := message.serialized hdr buf }

/-- The last statement of the visitor:
`return ++handled_msgs < max_throughput ? resume : stop_all`. -/
def count_handled (max_throughput : Nat) (st : resume_state) :
    intrusive.task_result × resume_state :=
  (if st.handled_msgs + 1 < max_throughput then intrusive.task_result.resume
    else intrusive.task_result.stop_all,
    { st with handled_msgs := st.handled_msgs + 1 })

/-- The header `hdr` the visitor constructs for a record that is not
serialized yet, before `payload_len` is set. -/
def dispatch_header (sys : home_system) (self : basp_proxy) (element : mailbox_element) :
    basp.header :=
  { kind := basp.message_type.dispatch_message
    flags := 0
    payload_len := 0
    operation_id := element.mid.integer_value
    source_node :=
      match element.sender with
      | some s => (sys.control_block s).nid
      | none => sys.node
    dest_node := self.node_
    source_actor_id :=
      match element.sender with
      | some s => (sys.control_block s).aid
      | none => 0
    dest_actor_id := self.id_ }

/-- The visitor `f` of `resume`, applied to one record of the mailbox. -/
def visitor (sys : home_system) (self : basp_proxy) (ctx : Option Nat)
    (max_throughput : Nat) (element : mailbox_element) (st : resume_state) :
    outcome (intrusive.task_result × resume_state) :=
  if self.broker_ = none then outcome.assertion_failed
  else
    match element.content with
    | message.serialized _ _ => outcome.ok (count_handled max_throughput st)
    | message.other _ =>
      match sys.serialize element.stages element.content with
      | none => outcome.ok (intrusive.task_result.stop_all, st)
      | some buf =>
        outcome.ok (count_handled max_throughput
          { st with
            broker_inbox := st.broker_inbox ++
              [eq_impl make_message_id (some self.ctrl_) ctx
                { dispatch_header sys self element with
                  payload_len := buf.length % 2 ^ 32 } buf] })

/-- The `while` loop of `resume` and the statements after it; `fuel` bounds
the number of iterations. -/
def resume_loop (sys : home_system) (ctx : Option Nat) (max_throughput : Nat) :
    Nat → basp_proxy → resume_state → outcome (resume_result × basp_proxy × resume_state)
  | 0, _, _ => outcome.out_of_fuel
  | fuel + 1, self, st =>
    if st.handled_msgs < max_throughput then
      match self.mailbox_.new_round 3 (visitor sys self ctx max_throughput) st with
      | outcome.assertion_failed => outcome.assertion_failed
      | outcome.out_of_fuel => outcome.out_of_fuel
      | outcome.ok (res, mailbox, st') =>
        if res.consumed_items = 0 ∧ mailbox.try_block.1 = true then
          outcome.ok (resume_result.awaiting_message,
            { self with mailbox_ := mailbox.try_block.2 }, st')
        else if self.broker_ = none then
          outcome.ok (resume_result.done, { self with mailbox_ := mailbox }, st')
        else
          resume_loop sys ctx max_throughput fuel { self with mailbox_ := mailbox } st'
    else
      outcome.ok
        (if self.mailbox_.try_block.1 then resume_result.awaiting_message
          else resume_result.resume_later,
          { self with mailbox_ := self.mailbox_.try_block.2 }, st)

/-- The member `resume(ctx, max_throughput)`: its result, the proxy it leaves
behind and the records it enqueued to the broker. Every iteration of the loop
but the last consumes a record, so one iteration more than the mailbox holds
records is enough, unless the loop spins. -/
def resume (sys : home_system) (self : basp_proxy) (ctx : Option Nat)
    (max_throughput : Nat) : outcome (resume_result × basp_proxy × resume_state) :=
  resume_loop sys ctx max_throughput (self.mailbox_.elements.length + 1) self
    { handled_msgs := 0, broker_inbox := [] }

/-- A visitor applied to the records of a mailbox in order, for as long as
`handled_msgs < max_throughput` and the visitor returns: the state it ends in
and the records it did not get to. This is what the rounds of `resume` add up
to. -/
def visit_all (f : mailbox_element → resume_state → outcome (intrusive.task_result × resume_state))
    (max_throughput : Nat) :
    List mailbox_element → resume_state → resume_state × List mailbox_element
  | [], st => (st, [])
  | x :: rest, st =>
    if st.handled_msgs < max_throughput then
      match f x st with
      | outcome.ok (_, st') => visit_all f max_throughput rest st'
      | _ => (st, x :: rest)
    else (st, x :: rest)

/-- The record `rec` is what the visitor enqueues to the broker for the
record `x`: `x` is not serialized yet, its serialization yields some buffer,
and `rec` carries the header made for `x`, with the length of the buffer,
and the buffer. -/
def forwards (sys : home_system) (self : basp_proxy) (ctx : Option Nat)
    (x rec : mailbox_element) : Prop :=
  ∃ payload buf, x.content = message.other payload ∧
    sys.serialize x.stages x.content = some buf ∧
    rec = eq_impl make_message_id (some self.ctrl_) ctx
      { dispatch_header sys self x with payload_len := buf.length % 2 ^ 32 } buf

end basp_proxy

/-! ### A proxy and its surroundings for examples -/

/-- A home system for examples: the local node is `earth`; the control block
of the handle `h` is actor `h` of `mercury`; serialization writes the number
of stages before the payload and fails for a payload that starts with 0. -/
def test_home : home_system :=
  { node := { process_id := 0, host_id := [] }
    control_block := fun h => { aid := h, nid := mercury }
    serialize := fun stages content =>
      match content with
      | message.other (0 :: _) => none
      | message.other payload => some (stages.length :: payload)
      | message.serialized _ buf => some buf }

/-- A home system whose serializer writes 2^32 bytes for every payload. -/
def huge_home : home_system :=
  { node := { process_id := 0, host_id := [] }
    control_block := fun h => { aid := h, nid := mercury }
    serialize := fun _ _ => some (List.replicate (2 ^ 32) 0) }

/-- The proxy of actor 1 of `mars`, its control block at 100 and its broker
at 7, with the given records in its mailbox. -/
def test_proxy (records : List mailbox_element) : basp_proxy :=
  { ctrl_ := 100, node_ := mars, id_ := 1,
    mailbox_ := { elements := records, deficit := 0, blocked := false, closed := false },
    broker_ := some 7 }

/-- An ordinary record with the message id `mid`, sent by the actor behind
the handle 5. -/
def test_record (mid : Nat) (payload : List Nat) : mailbox_element :=
  { sender := some 5, mid := { integer_value := mid }, stages := [],
    content := message.other payload }

/-- What the broker is to receive for `test_record mid payload` from
`test_proxy` in `test_home`. -/
def test_delivery (mid : Nat) (payload : List Nat) : mailbox_element :=
  { sender := some 100, mid := { integer_value := 0 }, stages := [],
    content := message.serialized
      { kind := basp.message_type.dispatch_message, flags := 0,
        payload_len := payload.length + 1, operation_id := mid,
        source_node := mercury, dest_node := mars,
        source_actor_id := 5, dest_actor_id := 1 } (0 :: payload) }

/-- The proxy `test_proxy` after a call of `resume` that emptied and blocked
its mailbox. -/
def test_proxy_blocked : basp_proxy :=
  { ctrl_ := 100, node_ := mars, id_ := 1,
    mailbox_ := { elements := [], deficit := 0, blocked := true, closed := false },
    broker_ := some 7 }

/-- A record that is serialized already. -/
def test_serialized_record : mailbox_element :=
  { sender := none, mid := { integer_value := 3 }, stages := [],
    content := message.serialized
      { kind := basp.message_type.dispatch_message, flags := 0, payload_len := 2,
        operation_id := 3, source_node := mercury, dest_node := mars,
        source_actor_id := 4, dest_actor_id := 1 } [8, 9] }

end io

end caf

/-! ## Registries that were never claimed -/

namespace caf

namespace operation

/-- Whether the call is a `claim`, on any node. -/
def is_claim : operation → Bool
  | .claim _ _ => true
  | _ => false

end operation

end caf

/-! ## The proxy among the other actors

The members of `basp_proxy` that reach beyond its mailbox and broker slot:
`enqueue`, `add_backlink`, `remove_backlink`, `kill_proxy`, `forward_msg` and
the destructor. They act on the state the proxy inherits from its base
classes and on other actors; what they do to those is collected in logs. -/

namespace caf

namespace intrusive

/-- Modelled from the spec: `caf/intrusive/inbox_result.hpp` is not part of
the sources at hand. The three outcomes of a push to a mailbox. -/
inductive inbox_result where
  | success
  | unblocked_reader
  | queue_closed
  deriving DecidableEq, Repr

end intrusive

namespace io

namespace mailbox_type

/-- Modelled from the spec: the member `push_back(ptr)` (spec section 4.2).
A closed mailbox takes nothing and reports `queue_closed`; a blocked one takes
the record, is unblocked and reports `unblocked_reader` (the proxy was idle);
otherwise the record is taken and `success` reported. -/
def push_back (self : mailbox_type) (ptr : mailbox_element) :
    intrusive.inbox_result × mailbox_type :=
  if self.closed then (intrusive.inbox_result.queue_closed, self)
  else if self.blocked then
    (intrusive.inbox_result.unblocked_reader,
      { self with elements := self.elements ++ [ptr], blocked := false })
  else
    (intrusive.inbox_result.success, { self with elements := self.elements ++ [ptr] })

end mailbox_type

/-- Modelled from the spec: the messages `forward_msg` is called with: a
link or unlink notice naming an actor, an `exit_msg` with its source and
reason, or anything else. -/
inductive control_message where
  | link (x : strong_actor_ptr)
  | unlink (x : strong_actor_ptr)
  | exit (source : Nat) (reason : error)
  | other (payload : List Nat)
  deriving DecidableEq, Repr

/-- What an actor finds in its mailbox when it is the broker of a proxy: a
record enqueued by `resume`, the envelope `(forward_atom, sender, stages,
proxy, mid, msg)` of `forward_msg`, or the notice `(delete_atom, node, id)`
of the destructor. The last two are sent without a sender. -/
inductive broker_input where
  | record (element : mailbox_element)
  | forward (sender : strong_actor_ptr) (stages : forwarding_stack)
      (proxy : strong_actor_ptr) (mid : message_id) (msg : control_message)
  | delete (node : node_id) (id : actor_id)
  deriving DecidableEq, Repr

/-- One call of a `sync_request_bouncer`: the reason it was made with, and
the sender and message id it was applied to. -/
structure bounce where
  reason : Option error
  sender : strong_actor_ptr
  mid : message_id
  deriving DecidableEq, Repr

/-- Modelled from the spec: parts of the runtime the proxy calls and that are
not part of the sources at hand, taken as parameters: `message_id::is_request`
(`caf/message_id.hpp`), and the supervision primitives
`monitorable_actor::add_backlink`, `monitorable_actor::remove_backlink` and
`abstract_actor::unlink_from`, which act on the links of the proxy; the first
two report whether they changed them. -/
structure runtime where
  is_request : message_id → Bool
  add_backlink : List Nat → Nat → Bool × List Nat
  remove_backlink : List Nat → Nat → Bool × List Nat
  unlink_from : List Nat → Nat → List Nat

/-- A proxy with the state of its base classes (its links and its exit
reason, `none` while it is alive, and the reference count of its control
block) and with what it did to other actors: the schedulings of the proxy,
each with the execution unit or `none` for the scheduler of the system, the
calls of request bouncers, and what it enqueued to which broker, oldest
first. -/
structure proxy_world where
  proxy : basp_proxy
  links : List Nat
  fail_state : Option error
  ref_count : Nat
  scheduled : List (Option Nat)
  bounced : List bounce
  broker_inbox : List (Nat × broker_input)
  deriving DecidableEq, Repr

namespace proxy_world

/-- A proxy fresh from the constructor `basp_proxy(cfg, dest)`. -/
def create (ctrl : Nat) (node : node_id) (id : actor_id) (dest : actor) : proxy_world :=
  { proxy := basp_proxy.create ctrl node id dest, links := [], fail_state := none,
    ref_count := 1, scheduled := [], bounced := [], broker_inbox := [] }

/-- The member `enqueue(ptr, eu)`. The pointer `ptr` is a record, hence not
null. -/
def enqueue (rt : runtime) (self : proxy_world) (ptr : mailbox_element) (eu : Option Nat) :
    proxy_world :=
  match self.proxy.mailbox_.push_back ptr with
  | (intrusive.inbox_result.unblocked_reader, mailbox) =>
    { self with
      proxy := { self.proxy with mailbox_ := mailbox }
      ref_count := self.ref_count + 1
      scheduled := self.scheduled ++ [eu] }
  | (intrusive.inbox_result.queue_closed, mailbox) =>
    if rt.is_request ptr.mid then
      { self with
        proxy := { self.proxy with mailbox_ := mailbox }
        bounced := self.bounced ++
          [{ reason := self.fail_state, sender := ptr.sender, mid := ptr.mid }] }
    else
      { self with proxy := { self.proxy with mailbox_ := mailbox } }
  | (intrusive.inbox_result.success, mailbox) =>
    { self with proxy := { self.proxy with mailbox_ := mailbox } }

/-- The member `forward_msg(sender, mid, msg, fwd)`; `fwd` is `none` for the
null pointer. -/
def forward_msg (rt : runtime) (self : proxy_world) (sender : strong_actor_ptr)
    (mid : message_id) (msg : control_message) (fwd : Option forwarding_stack) :
    proxy_world :=
  let unlinked : proxy_world :=
    match msg with
    | control_message.exit source _ => { self with links := rt.unlink_from self.links source }
    | _ => self
  match unlinked.proxy.broker_ with
  | some broker =>
    { unlinked with
      broker_inbox := unlinked.broker_inbox ++
        [(broker, broker_input.forward sender
            (match fwd with
              | some stages => stages
              | none => [])
            (some unlinked.proxy.ctrl_) mid msg)] }
  | none => unlinked

/-- The member `add_backlink(x)`; `x` is the control block of the actor. -/
def add_backlink (rt : runtime) (self : proxy_world) (x : Nat) : Bool × proxy_world :=
  if (rt.add_backlink self.links x).1 then
    (true, forward_msg rt { self with links := (rt.add_backlink self.links x).2 }
      (some self.proxy.ctrl_) make_message_id (control_message.link (some x)) none)
  else
    (false, { self with links := (rt.add_backlink self.links x).2 })

/-- The member `remove_backlink(x)`. -/
def remove_backlink (rt : runtime) (self : proxy_world) (x : Nat) : Bool × proxy_world :=
  if (rt.remove_backlink self.links x).1 then
    (true, forward_msg rt { self with links := (rt.remove_backlink self.links x).2 }
      (some self.proxy.ctrl_) make_message_id (control_message.unlink (some x)) none)
  else
    (false, { self with links := (rt.remove_backlink self.links x).2 })

/-- Modelled from the spec: `cleanup(reason, ctx)` of the base class is not
part of the sources at hand. Spec section 4.2: it informs the proxy of its
exit reason and drains the mailbox applying `queue_closed` semantics to each
record, a synchronous request being bounced with the exit reason and any other
record discarded; the mailbox is closed from then on. -/
def cleanup (rt : runtime) (self : proxy_world) (rsn : error) (_ctx : Option Nat) :
    proxy_world :=
  { self with
    fail_state := some rsn
    proxy :=
      { self.proxy with
        mailbox_ := { self.proxy.mailbox_ with elements := [], blocked := false, closed := true } }
    bounced := self.bounced ++
      (self.proxy.mailbox_.elements.filter (fun el => rt.is_request el.mid)).map
        (fun el => { reason := some rsn, sender := el.sender, mid := el.mid }) }

/-- The member `kill_proxy(ctx, rsn)`. -/
def kill_proxy (rt : runtime) (self : proxy_world) (ctx : Option Nat) (rsn : error) :
    outcome proxy_world :=
  if ctx = none then outcome.assertion_failed
  else
    outcome.ok (cleanup rt { self with proxy := { self.proxy with broker_ := none } } rsn ctx)

/-- The member `resume(ctx, max_throughput)` with its effect on the broker:
the records it enqueued arrive in the mailbox of the broker in the slot. -/
def resume (sys : home_system) (self : proxy_world) (ctx : Option Nat)
    (max_throughput : Nat) : outcome (resume_result × proxy_world) :=
  match basp_proxy.resume sys self.proxy ctx max_throughput with
  | outcome.ok (result, proxy, st) =>
    outcome.ok (result,
      { self with
        proxy := proxy
        broker_inbox := self.broker_inbox ++
          (match self.proxy.broker_ with
            | some broker => st.broker_inbox.map (fun el => (broker, broker_input.record el))
            | none => []) })
  | outcome.assertion_failed => outcome.assertion_failed
  | outcome.out_of_fuel => outcome.out_of_fuel

/-- The destructor `~basp_proxy()`:
`anon_send(broker_, make_message(delete_atom::value, node(), id()))`. The
helper `anon_send` of `caf/send.hpp` delivers the message, without a sender,
to the destination; a null handle has no mailbox to deliver to. -/
def destroy (self : proxy_world) : proxy_world :=
  match self.proxy.broker_ with
  | some broker =>
    { self with
      broker_inbox := self.broker_inbox ++
        [(broker, broker_input.delete self.proxy.node_ self.proxy.id_)] }
  | none => self

end proxy_world

/-- One call of a member function of the proxy from outside. -/
inductive proxy_call where
  | enqueue (ptr : mailbox_element) (eu : Option Nat)
  | kill_proxy (ctx : Option Nat) (rsn : error)
  | resume (ctx : Option Nat) (max_throughput : Nat)
  deriving DecidableEq, Repr

namespace proxy_world

/-- The proxy after one call from outside. -/
def call (rt : runtime) (sys : home_system) (self : proxy_world) :
    proxy_call → outcome proxy_world
  | proxy_call.enqueue ptr eu => outcome.ok (self.enqueue rt ptr eu)
  | proxy_call.kill_proxy ctx rsn => self.kill_proxy rt ctx rsn
  | proxy_call.resume ctx max_throughput =>
    match self.resume sys ctx max_throughput with
    | outcome.ok (_, w) => outcome.ok w
    | outcome.assertion_failed => outcome.assertion_failed
    | outcome.out_of_fuel => outcome.out_of_fuel

/-- The proxy after a sequence of calls from outside, leftmost first. -/
def calls (rt : runtime) (sys : home_system) (self : proxy_world) :
    List proxy_call → outcome proxy_world
  | [] => outcome.ok self
  | c :: cs =>
    match self.call rt sys c with
    | outcome.ok w => calls rt sys w cs
    | outcome.assertion_failed => outcome.assertion_failed
    | outcome.out_of_fuel => outcome.out_of_fuel

end proxy_world

/-- A runtime for examples: a message id other than 0 is a request; a
backlink is added unless it is there and removed if it is there. -/
def test_runtime : runtime :=
  { is_request := fun mid => decide (mid.integer_value ≠ 0)
    add_backlink := fun links x => if x ∈ links then (false, links) else (true, links ++ [x])
    remove_backlink := fun links x =>
      if x ∈ links then (true, links.erase x) else (false, links)
    unlink_from := fun links x => links.erase x }

end io

end caf

namespace caf

namespace io

/-- The proxy of the examples after `kill_proxy`: the mailbox is closed and
empty, the broker slot is empty. -/
def test_proxy_killed : basp_proxy :=
  { ctrl_ := 100, node_ := mars, id_ := 1,
    mailbox_ := { elements := [], deficit := 0, blocked := false, closed := true },
    broker_ := none }

end io

end caf

namespace caf

namespace io

namespace proxy_call

/-- Whether the call meets the assertion `ctx != nullptr` of `kill_proxy`;
the other members assert nothing about their arguments. -/
def has_context : proxy_call → Bool
  | proxy_call.kill_proxy none _ => false
  | _ => true

end proxy_call

namespace proxy_world

/-- What `kill_proxy` establishes and every later call keeps: the broker slot
is empty, the mailbox closed and empty, and the proxy has an exit reason. -/
def killed (self : proxy_world) : Prop :=
  self.proxy.broker_ = none ∧ self.proxy.mailbox_.closed = true ∧
    self.proxy.mailbox_.elements = [] ∧ self.proxy.mailbox_.blocked = false ∧
    ∃ reason, self.fail_state = some reason

end proxy_world

/-- The proxy of the examples after `kill_proxy` with the reason
`remote_link_unreachable`, with nothing in the logs. -/
def test_world_killed : proxy_world :=
  { proxy := test_proxy_killed, links := [], fail_state := some error.remote_link_unreachable,
    ref_count := 1, scheduled := [], bounced := [], broker_inbox := [] }

end io

end caf

namespace caf

namespace io

namespace proxy_call

/-- Whether the call is a `kill_proxy`. -/
def is_kill_proxy : proxy_call → Bool
  | proxy_call.kill_proxy _ _ => true
  | _ => false

end proxy_call

/-- The proxy of the examples with the given records in its mailbox and
nothing in the logs. -/
def test_world (records : List mailbox_element) : proxy_world :=
  { proxy := test_proxy records, links := [], fail_state := none,
    ref_count := 1, scheduled := [], bounced := [], broker_inbox := [] }

end io

end caf

/-! # Theorems -/

namespace caf

namespace unordered_map

variable {K V : Type} [DecidableEq K]

theorem find_append_single (m : unordered_map K V) (k k' : K) (v : V) :
    find (m ++ [(k, v)]) k' =
      match find m k' with
      | some x => some x
      | none => if k = k' then some v else none := by
  induction m with
  | nil => simp [find]
  | cons e m ih =>
    obtain ⟨a, b⟩ := e
    by_cases h : a = k'
    · simp [find, h]
    · simp [find, h, ih]

theorem emplace_of_find_none {m : unordered_map K V} {k : K} (v : V)
    (h : find m k = none) :
    emplace m k v = { map := m ++ [(k, v)], value := v, inserted := true } := by
  simp [emplace, h]

theorem emplace_of_find_some {m : unordered_map K V} {k : K} (v : V) {old : V}
    (h : find m k = some old) :
    emplace m k v = { map := m, value := old, inserted := false } := by
  simp [emplace, h]

theorem find_assign_self {m : unordered_map K V} {k : K} {old : V} (v : V)
    (h : find m k = some old) : find (assign m k v) k = some v := by
  induction m with
  | nil => simp [find] at h
  | cons e m ih =>
    obtain ⟨a, b⟩ := e
    by_cases hk : a = k
    · simp [assign, find, hk]
    · simp only [find, hk, if_false] at h
      simp [assign, find, hk, ih h]

theorem find_assign_ne (m : unordered_map K V) {k k' : K} (v : V) (h : k ≠ k') :
    find (assign m k v) k' = find m k' := by
  induction m with
  | nil => simp [assign]
  | cons e m ih =>
    obtain ⟨a, b⟩ := e
    by_cases hk : a = k
    · subst hk
      simp [assign, find, h]
    · by_cases hk' : a = k'
      · subst hk'
        simp [assign, find, hk]
      · simp [assign, find, hk, hk', ih]

theorem assign_of_find_none {m : unordered_map K V} {k : K} (v : V)
    (h : find m k = none) : assign m k v = m := by
  induction m with
  | nil => rfl
  | cons e m ih =>
    obtain ⟨a, b⟩ := e
    by_cases hk : a = k
    · simp [find, hk] at h
    · simp only [find, hk, if_false] at h
      simp [assign, hk, ih h]

theorem keys_assign (m : unordered_map K V) (k : K) (v : V) :
    keys (assign m k v) = keys m := by
  induction m with
  | nil => rfl
  | cons e m ih =>
    obtain ⟨a, b⟩ := e
    by_cases hk : a = k
    · simp [assign, keys, hk]
    · simp only [keys] at ih
      simp [assign, keys, hk, ih]

theorem find_eq_none_iff (m : unordered_map K V) (k : K) :
    find m k = none ↔ k ∉ keys m := by
  induction m with
  | nil => simp [find, keys]
  | cons e m ih =>
    obtain ⟨a, b⟩ := e
    simp only [keys] at ih
    by_cases hk : a = k
    · simp [find, keys, hk]
    · have hk' : ¬ k = a := fun h => hk h.symm
      simp [find, keys, hk, hk', ih]

theorem mem_of_find_eq_some {m : unordered_map K V} {k : K} {v : V}
    (h : find m k = some v) : (k, v) ∈ m := by
  induction m with
  | nil => simp [find] at h
  | cons e m ih =>
    obtain ⟨a, b⟩ := e
    by_cases hk : a = k
    · simp only [find, hk, if_true, Option.some.injEq] at h
      simp [hk, h]
    · simp only [find, hk, if_false] at h
      exact List.mem_cons_of_mem _ (ih h)

theorem find_erase_ne (m : unordered_map K V) {k k' : K} (h : k ≠ k') :
    find (erase m k) k' = find m k' := by
  induction m with
  | nil => simp [erase]
  | cons e m ih =>
    obtain ⟨a, b⟩ := e
    by_cases hk : a = k
    · subst hk
      simp [erase, find, h]
    · by_cases hk' : a = k'
      · subst hk'
        simp [erase, find, hk]
      · simp [erase, find, hk, hk', ih]

theorem find_erase_self {m : unordered_map K V} (k : K) (h : unique_keys m) :
    find (erase m k) k = none := by
  induction m with
  | nil => simp [erase, find]
  | cons e m ih =>
    obtain ⟨a, b⟩ := e
    have hm : unique_keys m := by
      simp only [unique_keys, keys, List.map_cons, List.nodup_cons] at h
      exact h.2
    by_cases hk : a = k
    · subst hk
      simp only [unique_keys, keys, List.map_cons, List.nodup_cons] at h
      simp only [erase, if_true]
      exact (find_eq_none_iff m a).2 h.1
    · simp [erase, find, hk, ih hm]

theorem erase_of_find_none {m : unordered_map K V} {k : K}
    (h : find m k = none) : erase m k = m := by
  induction m with
  | nil => rfl
  | cons e m ih =>
    obtain ⟨a, b⟩ := e
    by_cases hk : a = k
    · simp [find, hk] at h
    · simp only [find, hk, if_false] at h
      simp [erase, hk, ih h]

theorem keys_erase_sublist (m : unordered_map K V) (k : K) :
    (keys (erase m k)).Sublist (keys m) := by
  induction m with
  | nil => simp [erase]
  | cons e m ih =>
    obtain ⟨a, b⟩ := e
    by_cases hk : a = k
    · simp [erase, keys, hk]
    · simp only [keys] at ih
      simp [erase, keys, hk, ih]

theorem unique_keys_erase {m : unordered_map K V} (k : K) (h : unique_keys m) :
    unique_keys (erase m k) :=
  List.Nodup.sublist (keys_erase_sublist m k) h

theorem unique_keys_assign {m : unordered_map K V} (k : K) (v : V)
    (h : unique_keys m) : unique_keys (assign m k v) := by
  unfold unique_keys
  rw [keys_assign]
  exact h

theorem unique_keys_append_single {m : unordered_map K V} {k : K} (v : V)
    (h : unique_keys m) (hk : find m k = none) : unique_keys (m ++ [(k, v)]) := by
  have hnot := (find_eq_none_iff m k).1 hk
  simp only [unique_keys, keys] at h hnot ⊢
  rw [List.map_append, List.nodup_append]
  refine ⟨h, by simp, ?_⟩
  intro x hx hx'
  simp only [List.map_cons, List.map_nil, List.mem_singleton] at hx'
  subst hx'
  exact hnot hx

end unordered_map

namespace proxy_registry

variable {S : Type}

/-! ## What `get_or_put` does in each of its three cases -/

theorem get_or_put_of_stored {r : proxy_registry S} {nid : node_id} {aid : actor_id}
    {p : strong_actor_ptr} (h : r.stored nid aid = some p) :
    r.get_or_put nid aid = (p, r) := by
  unfold stored at h
  unfold get_or_put
  cases hn : unordered_map.find r.nodes_ nid with
  | none => simp [hn] at h
  | some st =>
    simp only [hn] at h
    simp [h]

theorem get_or_put_of_no_node {r : proxy_registry S} {nid : node_id} (aid : actor_id)
    (hn : unordered_map.find r.nodes_ nid = none) :
    r.get_or_put nid aid =
      ((r.factory_ r.system_ nid aid none).1,
        { r with
          system_ := (r.factory_ r.system_ nid aid none).2
          nodes_ := r.nodes_ ++
            [(nid, { endpoint := none,
                     proxies := [(aid, (r.factory_ r.system_ nid aid none).1)] })] }) := by
  unfold get_or_put
  simp only [hn]
  rw [unordered_map.emplace_of_find_none _ hn]
  simp [unordered_map.emplace, unordered_map.find]

theorem get_or_put_of_no_proxy {r : proxy_registry S} {nid : node_id} {aid : actor_id}
    {st : node_state} (hn : unordered_map.find r.nodes_ nid = some st)
    (ha : unordered_map.find st.proxies aid = none) :
    r.get_or_put nid aid =
      ((r.factory_ r.system_ nid aid st.endpoint).1,
        { r with
          system_ := (r.factory_ r.system_ nid aid st.endpoint).2
          nodes_ := unordered_map.assign r.nodes_ nid
            { st with
              proxies := st.proxies ++
                [(aid, (r.factory_ r.system_ nid aid st.endpoint).1)] } }) := by
  unfold get_or_put
  simp only [hn, ha]
  rw [unordered_map.emplace_of_find_none _ ha]
  simp

/-- In every case of a key that is not resident: one factory call with the
parent `parent_for`, whose handle is returned and stored. -/
theorem get_or_put_of_not_stored {r : proxy_registry S} {nid : node_id} {aid : actor_id}
    (h : r.stored nid aid = none) :
    (r.get_or_put nid aid).1 = (r.factory_ r.system_ nid aid (r.parent_for nid)).1 ∧
    (r.get_or_put nid aid).2.system_ =
      (r.factory_ r.system_ nid aid (r.parent_for nid)).2 ∧
    (r.get_or_put nid aid).2.factory_ = r.factory_ ∧
    (r.get_or_put nid aid).2.stored nid aid = some (r.get_or_put nid aid).1 ∧
    (r.get_or_put nid aid).2.count_proxies nid = r.count_proxies nid + 1 ∧
    (r.get_or_put nid aid).2.parent_for nid = r.parent_for nid := by
  unfold stored at h
  cases hn : unordered_map.find r.nodes_ nid with
  | none =>
    rw [get_or_put_of_no_node aid hn]
    simp [parent_for, stored, count_proxies, hn, unordered_map.find_append_single,
      unordered_map.find, unordered_map.size]
  | some st =>
    simp only [hn] at h
    rw [get_or_put_of_no_proxy hn h]
    simp [parent_for, stored, count_proxies, hn, unordered_map.find_assign_self _ hn,
      unordered_map.find_append_single, h, unordered_map.size]

theorem get_eq_of_stored {r : proxy_registry S} {nid : node_id} {aid : actor_id}
    {p : strong_actor_ptr} (h : r.stored nid aid = some p) : r.get nid aid = p := by
  unfold stored at h
  unfold get
  cases hn : unordered_map.find r.nodes_ nid with
  | none => simp [hn] at h
  | some st =>
    simp only [hn] at h
    simp [h]

theorem get_eq_of_not_stored {r : proxy_registry S} {nid : node_id} {aid : actor_id}
    (h : r.stored nid aid = none) : r.get nid aid = none := by
  unfold stored at h
  unfold get
  cases hn : unordered_map.find r.nodes_ nid with
  | none => rfl
  | some st =>
    simp only [hn] at h
    simp [h]

/-! ## Claims about `get_or_put` on one registry state -/

/-- C1: for every registry state and every key `(nid, aid)` that is resident
with the handle `p` stored, `get_or_put(nid, aid)` returns `p` and leaves the
whole registry (node table, actor system, factory) as it was; with the
factory observed, the log of factory invocations does not grow. -/
theorem get_or_put_resident_returns_stored (r : proxy_registry S) (nid : node_id)
    (aid : actor_id) (p : strong_actor_ptr) (h : r.stored nid aid = some p) :
    r.get_or_put nid aid = (p, r) ∧
    r.get nid aid = p ∧
    ∀ log : List factory_call,
      ((r.recorded log).get_or_put nid aid).1 = p ∧
      ((r.recorded log).get_or_put nid aid).2.system_.2 = log := by
  refine ⟨get_or_put_of_stored h, get_eq_of_stored h, ?_⟩
  intro log
  have h' : (r.recorded log).stored nid aid = some p := h
  rw [get_or_put_of_stored h']
  exact ⟨rfl, rfl⟩

/-- C2: for every registry state, every key `(nid, aid)` that is not resident
and every factory returning non-null handles, `get_or_put(nid, aid)` invokes
the factory exactly once, with `nid` and `aid` (the observed log grows by that
one call), returns the handle the factory made, which is non-null, and stores
it under `(nid, aid)`: afterwards `get(nid, aid)` is the returned handle and
`count_proxies(nid)` is one larger than before. -/
theorem get_or_put_absent_constructs (r : proxy_registry S) (nid : node_id)
    (aid : actor_id) (h : r.stored nid aid = none)
    (hf : ∀ sys n a parent, (r.factory_ sys n a parent).1 ≠ none)
    (log : List factory_call) :
    ((r.recorded log).get_or_put nid aid).2.system_.2 =
      log ++ [{ nid := nid, aid := aid, parent := r.parent_for nid }] ∧
    ((r.recorded log).get_or_put nid aid).1 = (r.get_or_put nid aid).1 ∧
    (r.get_or_put nid aid).1 = (r.factory_ r.system_ nid aid (r.parent_for nid)).1 ∧
    (r.get_or_put nid aid).1 ≠ none ∧
    (r.get_or_put nid aid).2.stored nid aid = some (r.get_or_put nid aid).1 ∧
    (r.get_or_put nid aid).2.get nid aid = (r.get_or_put nid aid).1 ∧
    (r.get_or_put nid aid).2.count_proxies nid = r.count_proxies nid + 1 := by
  have h' : (r.recorded log).stored nid aid = none := h
  obtain ⟨e1, e2, _, e4, e5, _⟩ := get_or_put_of_not_stored h
  obtain ⟨o1, o2, _⟩ := get_or_put_of_not_stored h'
  refine ⟨?_, ?_, e1, ?_, e4, get_eq_of_stored e4, e5⟩
  · rw [o2]; rfl
  · rw [o1, e1]; rfl
  · rw [e1]; exact hf _ _ _ _

end proxy_registry

/-- The fixture after `get_or_put(mars, 1)`. -/
theorem get_or_put_resident_returns_stored_witness :
    (fixture.get_or_put mars 1).2.stored mars 1 = some (some 0) ∧
    ((fixture.get_or_put mars 1).2.get_or_put mars 1 =
        (some 0, (fixture.get_or_put mars 1).2) ∧
      (fixture.get_or_put mars 1).2.get mars 1 = some 0 ∧
      ∀ log : List factory_call,
        (((fixture.get_or_put mars 1).2.recorded log).get_or_put mars 1).1 = some 0 ∧
        (((fixture.get_or_put mars 1).2.recorded log).get_or_put mars 1).2.system_.2 = log) :=
  ⟨by decide,
    proxy_registry.get_or_put_resident_returns_stored
      (fixture.get_or_put mars 1).2 mars 1 (some 0) (by decide)⟩

/-- The fresh fixture and the key `(mars, 1)`. -/
theorem get_or_put_absent_constructs_witness :
    fixture.stored mars 1 = none ∧
    ((fixture.recorded []).get_or_put mars 1).2.system_.2 =
      [] ++ [{ nid := mars, aid := 1, parent := fixture.parent_for mars }] ∧
    ((fixture.recorded []).get_or_put mars 1).1 = (fixture.get_or_put mars 1).1 ∧
    (fixture.get_or_put mars 1).1 =
      (fixture.factory_ fixture.system_ mars 1 (fixture.parent_for mars)).1 ∧
    (fixture.get_or_put mars 1).1 ≠ none ∧
    (fixture.get_or_put mars 1).2.stored mars 1 = some (fixture.get_or_put mars 1).1 ∧
    (fixture.get_or_put mars 1).2.get mars 1 = (fixture.get_or_put mars 1).1 ∧
    (fixture.get_or_put mars 1).2.count_proxies mars = fixture.count_proxies mars + 1 :=
  ⟨by decide,
    proxy_registry.get_or_put_absent_constructs fixture mars 1 (by decide)
      (fun _ _ _ _ => Option.some_ne_none _) []⟩

namespace proxy_registry

variable {S : Type}

/-! ## The members that erase -/

theorem kill_proxy_eq (r : proxy_registry S) (p : strong_actor_ptr) (rsn : error) :
    r.kill_proxy p rsn = r := by
  simp [kill_proxy]

theorem foldl_kill_proxy_eq (ps : List strong_actor_ptr) (rsn : error)
    (r : proxy_registry S) :
    ps.foldl (fun r p => r.kill_proxy p rsn) r = r := by
  induction ps generalizing r with
  | nil => rfl
  | cons p ps ih => simp [List.foldl, kill_proxy_eq, ih]

theorem erase_node_eq (r : proxy_registry S) (nid : node_id) :
    r.erase_node nid = { r with nodes_ := unordered_map.erase r.nodes_ nid } := by
  unfold erase_node
  cases hn : unordered_map.find r.nodes_ nid with
  | none => simp [unordered_map.erase_of_find_none hn]
  | some st => simp [foldl_kill_proxy_eq]

theorem clear_eq (r : proxy_registry S) : r.clear = { r with nodes_ := [] } := by
  unfold clear
  have h : ∀ (sts : List node_state) (r : proxy_registry S),
      sts.foldl (fun r st => (unordered_map.values st.proxies).foldl
        (fun r' p => r'.kill_proxy p error.remote_link_unreachable) r) r = r := by
    intro sts
    induction sts with
    | nil => intro r; rfl
    | cons st sts ih => intro r; simp [List.foldl, foldl_kill_proxy_eq, ih]
  simp [h]

theorem erase_of_not_stored {r : proxy_registry S} {nid : node_id} {aid : actor_id}
    (rsn : error) (h : r.stored nid aid = none) : r.erase nid aid rsn = r := by
  unfold stored at h
  unfold erase
  cases hn : unordered_map.find r.nodes_ nid with
  | none => rfl
  | some st =>
    simp only [hn] at h
    simp [h]

theorem erase_of_stored {r : proxy_registry S} {nid : node_id} {aid : actor_id}
    {st : node_state} {p : strong_actor_ptr} (rsn : error)
    (hn : unordered_map.find r.nodes_ nid = some st)
    (ha : unordered_map.find st.proxies aid = some p) :
    r.erase nid aid rsn =
      if unordered_map.empty (unordered_map.erase st.proxies aid) then
        { r with nodes_ := unordered_map.erase r.nodes_ nid }
      else
        { r with
          nodes_ := unordered_map.assign r.nodes_ nid
            { st with proxies := unordered_map.erase st.proxies aid } } := by
  unfold erase
  simp [hn, ha, kill_proxy_eq]

/-! ## The member `claim` -/

theorem claim_of_no_node {r : proxy_registry S} {nid : node_id} (endpoint : actor)
    (hn : unordered_map.find r.nodes_ nid = none) :
    r.claim nid endpoint =
      ([], { r with nodes_ := r.nodes_ ++ [(nid, { endpoint := endpoint, proxies := [] })] }) := by
  unfold claim
  rw [unordered_map.emplace_of_find_none _ hn]
  have h1 : unordered_map.find
      (r.nodes_ ++ [(nid, ({ endpoint := none, proxies := [] } : node_state))]) nid =
      some { endpoint := none, proxies := [] } := by
    simp [unordered_map.find_append_single, hn]
  have h2 : ∀ (m : node_map) (a b : node_state), unordered_map.find m nid = none →
      unordered_map.assign (m ++ [(nid, a)]) nid b = m ++ [(nid, b)] := by
    intro m a b
    induction m with
    | nil => intro _; simp [unordered_map.assign]
    | cons e m ih =>
      obtain ⟨k, v⟩ := e
      intro hm
      by_cases hk : k = nid
      · simp [unordered_map.find, hk] at hm
      · simp only [unordered_map.find, hk, if_false] at hm
        simp [unordered_map.assign, hk, ih hm]
  simp [unordered_map.values, h2 _ _ _ hn]

theorem claim_of_node {r : proxy_registry S} {nid : node_id} {st : node_state}
    (endpoint : actor) (hn : unordered_map.find r.nodes_ nid = some st) :
    r.claim nid endpoint =
      (unordered_map.values st.proxies,
        { r with
          nodes_ := unordered_map.assign r.nodes_ nid { st with endpoint := endpoint } }) := by
  unfold claim
  rw [unordered_map.emplace_of_find_some _ hn]

end proxy_registry

namespace proxy_registry

variable {S : Type}

/-! ## A resident key stays resident -/

theorem stored_eq_some_iff {r : proxy_registry S} {n : node_id} {a : actor_id}
    {p : strong_actor_ptr} :
    r.stored n a = some p ↔
      ∃ st, unordered_map.find r.nodes_ n = some st ∧
        unordered_map.find st.proxies a = some p := by
  unfold stored
  cases hn : unordered_map.find r.nodes_ n with
  | none => simp
  | some st => simp

theorem stored_of_find {r : proxy_registry S} {n : node_id} {st : node_state}
    (a : actor_id) (hn : unordered_map.find r.nodes_ n = some st) :
    r.stored n a = unordered_map.find st.proxies a := by
  simp [stored, hn]

theorem stored_of_find_none {r : proxy_registry S} {n : node_id}
    (a : actor_id) (hn : unordered_map.find r.nodes_ n = none) :
    r.stored n a = none := by
  simp [stored, hn]

theorem stored_get_or_put_of_stored {r : proxy_registry S} {n : node_id} {a : actor_id}
    {p : strong_actor_ptr} (nid : node_id) (aid : actor_id)
    (h : r.stored n a = some p) : (r.get_or_put nid aid).2.stored n a = some p := by
  obtain ⟨st', hn', ha'⟩ := stored_eq_some_iff.1 h
  cases hs : r.stored nid aid with
  | some q => rw [get_or_put_of_stored hs]; exact h
  | none =>
    cases hn : unordered_map.find r.nodes_ nid with
    | none =>
      rw [get_or_put_of_no_node aid hn]
      apply stored_eq_some_iff.2
      refine ⟨st', ?_, ha'⟩
      simp [unordered_map.find_append_single, hn']
    | some st =>
      have ha : unordered_map.find st.proxies aid = none := by
        rw [← stored_of_find aid hn]; exact hs
      rw [get_or_put_of_no_proxy hn ha]
      apply stored_eq_some_iff.2
      by_cases hk : nid = n
      · subst hk
        have hst : st = st' := by rw [hn] at hn'; exact Option.some.inj hn'
        subst hst
        refine ⟨_, unordered_map.find_assign_self _ hn, ?_⟩
        simp [unordered_map.find_append_single, ha']
      · refine ⟨st', ?_, ha'⟩
        simp only []
        rw [unordered_map.find_assign_ne _ _ hk]
        exact hn'

/-- The call `claim` leaves the proxy-map slot of every key as it was. -/
theorem stored_claim (r : proxy_registry S) (nid : node_id) (endpoint : actor)
    (n : node_id) (a : actor_id) :
    (r.claim nid endpoint).2.stored n a = r.stored n a := by
  cases hn : unordered_map.find r.nodes_ nid with
  | none =>
    rw [claim_of_no_node endpoint hn]
    by_cases hk : nid = n
    · subst hk
      simp [stored, unordered_map.find_append_single, hn, unordered_map.find]
    · cases hn' : unordered_map.find r.nodes_ n with
      | none => simp [stored, unordered_map.find_append_single, hn', hk]
      | some st' => simp [stored, unordered_map.find_append_single, hn']
  | some st =>
    rw [claim_of_node endpoint hn]
    by_cases hk : nid = n
    · subst hk
      simp [stored, unordered_map.find_assign_self _ hn, hn]
    · simp [stored, unordered_map.find_assign_ne _ _ hk]

theorem stored_erase_node_of_ne (r : proxy_registry S) {nid n : node_id} (a : actor_id)
    (hk : nid ≠ n) : (r.erase_node nid).stored n a = r.stored n a := by
  rw [erase_node_eq]
  simp [stored, unordered_map.find_erase_ne _ hk]

theorem stored_erase_of_stored {r : proxy_registry S} {n : node_id} {a : actor_id}
    {p : strong_actor_ptr} {nid : node_id} {aid : actor_id} (rsn : error)
    (hne : ¬ (nid = n ∧ aid = a)) (h : r.stored n a = some p) :
    (r.erase nid aid rsn).stored n a = some p := by
  obtain ⟨st', hn', ha'⟩ := stored_eq_some_iff.1 h
  cases hs : r.stored nid aid with
  | none => rw [erase_of_not_stored rsn hs]; exact h
  | some q =>
    obtain ⟨st, hn, ha⟩ := stored_eq_some_iff.1 hs
    rw [erase_of_stored rsn hn ha]
    by_cases hk : nid = n
    · subst hk
      have hst : st = st' := by rw [hn] at hn'; exact Option.some.inj hn'
      subst hst
      have hka : aid ≠ a := fun e => hne ⟨rfl, e⟩
      have hfa : unordered_map.find (unordered_map.erase st.proxies aid) a = some p := by
        rw [unordered_map.find_erase_ne _ hka]; exact ha'
      have hnon : unordered_map.empty (unordered_map.erase st.proxies aid) = false := by
        cases hm : unordered_map.erase st.proxies aid with
        | nil => rw [hm] at hfa; simp [unordered_map.find] at hfa
        | cons e m => rfl
      rw [hnon]
      apply stored_eq_some_iff.2
      exact ⟨_, unordered_map.find_assign_self _ hn, hfa⟩
    · apply stored_eq_some_iff.2
      refine ⟨st', ?_, ha'⟩
      split
      · simp only []
        rw [unordered_map.find_erase_ne _ hk]; exact hn'
      · simp only []
        rw [unordered_map.find_assign_ne _ _ hk]; exact hn'

theorem stored_apply_of_stored {r : proxy_registry S} {n : node_id} {a : actor_id}
    {p : strong_actor_ptr} (op : operation) (hop : op.removes_key n a = false)
    (h : r.stored n a = some p) : (r.apply op).stored n a = some p := by
  cases op with
  | count_proxies node => exact h
  | get node aid => exact h
  | get_or_put nid aid => exact stored_get_or_put_of_stored nid aid h
  | get_all nid => exact h
  | claim nid endpoint => simp only [apply]; rw [stored_claim]; exact h
  | empty => exact h
  | erase_node nid =>
    simp only [operation.removes_key, decide_eq_false_iff_not] at hop
    simp only [apply]
    rw [stored_erase_node_of_ne _ _ hop]; exact h
  | erase nid aid rsn =>
    simp only [operation.removes_key, Bool.and_eq_false_iff, decide_eq_false_iff_not] at hop
    have hne : ¬ (nid = n ∧ aid = a) := by
      rintro ⟨h1, h2⟩
      cases hop with
      | inl h' => exact h' h1
      | inr h' => exact h' h2
    exact stored_erase_of_stored rsn hne h
  | clear => simp [operation.removes_key] at hop

theorem stored_run_of_stored {r : proxy_registry S} {n : node_id} {a : actor_id}
    {p : strong_actor_ptr} (ops : List operation)
    (hops : ∀ op ∈ ops, op.removes_key n a = false)
    (h : r.stored n a = some p) : (r.run ops).stored n a = some p := by
  induction ops generalizing r with
  | nil => exact h
  | cons op ops ih =>
    simp only [run]
    apply ih
    · intro o ho; exact hops o (List.mem_cons_of_mem _ ho)
    · exact stored_apply_of_stored op (hops op (List.mem_cons_self _ _)) h

/-- After `get_or_put(n, a)` the key is resident with the handle returned. -/
theorem stored_after_get_or_put (r : proxy_registry S) (n : node_id) (a : actor_id) :
    (r.get_or_put n a).2.stored n a = some (r.get_or_put n a).1 := by
  cases hs : r.stored n a with
  | some q => rw [get_or_put_of_stored hs]; exact hs
  | none => exact (get_or_put_of_not_stored hs).2.2.2.1

/-- C3: `get_or_put` is idempotent. Let `get_or_put(n, a)` return `p`, and
let any sequence of member calls follow that holds no `erase(n, a)`, no
`erase(n)` and no `clear()`. After that sequence (hence at every point of such
a sequence) `get(n, a)` returns `p`, and `get_or_put(n, a)` returns `p`
without changing the registry. -/
theorem get_or_put_idempotent (r : proxy_registry S) (n : node_id) (a : actor_id)
    (ops : List operation) (hops : ∀ op ∈ ops, op.removes_key n a = false) :
    ((r.get_or_put n a).2.run ops).get n a = (r.get_or_put n a).1 ∧
    (((r.get_or_put n a).2.run ops).get_or_put n a).1 = (r.get_or_put n a).1 ∧
    (((r.get_or_put n a).2.run ops).get_or_put n a).2 = (r.get_or_put n a).2.run ops := by
  have h := stored_run_of_stored ops hops (stored_after_get_or_put r n a)
  refine ⟨get_eq_of_stored h, ?_, ?_⟩
  · rw [get_or_put_of_stored h]
  · rw [get_or_put_of_stored h]

end proxy_registry

/-- The fixture, `get_or_put(mars, 1)`, then a claim, a second proxy, its
erasure, the erasure of another node and a getter. -/
theorem get_or_put_idempotent_witness :
    (∀ op ∈ [operation.claim mars (some 7), operation.get_or_put mars 2,
        operation.erase mars 2 error.remote_link_unreachable,
        operation.erase_node mercury, operation.get mars 1],
      op.removes_key mars 1 = false) ∧
    (((fixture.get_or_put mars 1).2.run
        [operation.claim mars (some 7), operation.get_or_put mars 2,
          operation.erase mars 2 error.remote_link_unreachable,
          operation.erase_node mercury, operation.get mars 1]).get mars 1 =
        (fixture.get_or_put mars 1).1 ∧
      (((fixture.get_or_put mars 1).2.run
        [operation.claim mars (some 7), operation.get_or_put mars 2,
          operation.erase mars 2 error.remote_link_unreachable,
          operation.erase_node mercury, operation.get mars 1]).get_or_put mars 1).1 =
        (fixture.get_or_put mars 1).1 ∧
      (((fixture.get_or_put mars 1).2.run
        [operation.claim mars (some 7), operation.get_or_put mars 2,
          operation.erase mars 2 error.remote_link_unreachable,
          operation.erase_node mercury, operation.get mars 1]).get_or_put mars 1).2 =
        (fixture.get_or_put mars 1).2.run
          [operation.claim mars (some 7), operation.get_or_put mars 2,
            operation.erase mars 2 error.remote_link_unreachable,
            operation.erase_node mercury, operation.get mars 1]) :=
  ⟨by decide, proxy_registry.get_or_put_idempotent fixture mars 1 _ (by decide)⟩

namespace proxy_registry

variable {S : Type}

/-! ## A factory that returns null -/

theorem empty_eq_false_of_stored {r : proxy_registry S} {n : node_id} {a : actor_id}
    {p : strong_actor_ptr} (h : r.stored n a = some p) : r.empty = false := by
  obtain ⟨st, hn, _⟩ := stored_eq_some_iff.1 h
  unfold empty
  cases hm : r.nodes_ with
  | nil => rw [hm] at hn; simp [unordered_map.find] at hn
  | cons e m => rfl

/-- C4, as the code has it: when `get_or_put(nid, aid)` runs with a factory
that returns null on a key that is not resident, it returns null and caches
it. The null handle is stored under `(nid, aid)`: `count_proxies(nid)` is one
larger than before, `empty()` is false, `get(nid, aid)` returns null as it does
for a key that is absent, and a later `get_or_put(nid, aid)` returns the cached
null and changes nothing. -/
theorem get_or_put_null_factory_caches (r : proxy_registry S) (nid : node_id)
    (aid : actor_id) (hf : ∀ sys n a parent, (r.factory_ sys n a parent).1 = none)
    (h : r.stored nid aid = none) :
    (r.get_or_put nid aid).1 = none ∧
    (r.get_or_put nid aid).2.stored nid aid = some none ∧
    (r.get_or_put nid aid).2.count_proxies nid = r.count_proxies nid + 1 ∧
    (r.get_or_put nid aid).2.empty = false ∧
    (r.get_or_put nid aid).2.get nid aid = none ∧
    (r.get_or_put nid aid).2.get_or_put nid aid = (none, (r.get_or_put nid aid).2) := by
  obtain ⟨e1, _, _, e4, e5, _⟩ := get_or_put_of_not_stored h
  have hnull : (r.get_or_put nid aid).1 = none := by rw [e1]; exact hf _ _ _ _
  rw [hnull] at e4
  exact ⟨hnull, e4, e5, empty_eq_false_of_stored e4, get_eq_of_stored e4,
    get_or_put_of_stored e4⟩

end proxy_registry

/-- A registry that was constructed and never initialised holds the default
factory; the key `(mars, 1)` is not resident in it. -/
theorem get_or_put_null_factory_caches_witness :
    (∀ sys n a parent,
      ((proxy_registry.create ({ testees := [] } : test_system)).factory_ sys n a parent).1
        = none) ∧
    (proxy_registry.create ({ testees := [] } : test_system)).stored mars 1 = none ∧
    (((proxy_registry.create ({ testees := [] } : test_system)).get_or_put mars 1).1 = none ∧
      ((proxy_registry.create ({ testees := [] } : test_system)).get_or_put mars 1).2.stored
        mars 1 = some none ∧
      ((proxy_registry.create ({ testees := [] } : test_system)).get_or_put
        mars 1).2.count_proxies mars =
        (proxy_registry.create ({ testees := [] } : test_system)).count_proxies mars + 1 ∧
      ((proxy_registry.create ({ testees := [] } : test_system)).get_or_put mars 1).2.empty
        = false ∧
      ((proxy_registry.create ({ testees := [] } : test_system)).get_or_put mars 1).2.get
        mars 1 = none ∧
      ((proxy_registry.create ({ testees := [] } : test_system)).get_or_put
        mars 1).2.get_or_put mars 1 =
        (none, ((proxy_registry.create ({ testees := [] } : test_system)).get_or_put
          mars 1).2)) :=
  ⟨fun _ _ _ _ => rfl, by decide,
    proxy_registry.get_or_put_null_factory_caches _ mars 1 (fun _ _ _ _ => rfl) (by decide)⟩

/-- C4 fails as stated: on a registry that holds the default factory,
`get_or_put(mars, 1)` returns null and does cache it. The node table gains a
node state for `mars` with the entry `1 ↦ nullptr`, `count_proxies(mars)` goes
from 0 to 1 and `empty()` from true to false. -/
theorem get_or_put_default_factory_changes_registry :
    ((proxy_registry.create ({ testees := [] } : test_system)).get_or_put mars 1).1 = none ∧
    (proxy_registry.create ({ testees := [] } : test_system)).count_proxies mars = 0 ∧
    ((proxy_registry.create ({ testees := [] } : test_system)).get_or_put
      mars 1).2.count_proxies mars = 1 ∧
    (proxy_registry.create ({ testees := [] } : test_system)).empty = true ∧
    ((proxy_registry.create ({ testees := [] } : test_system)).get_or_put mars 1).2.empty
      = false ∧
    ((proxy_registry.create ({ testees := [] } : test_system)).get_or_put mars 1).2.nodes_
      = [(mars, { endpoint := none, proxies := [(1, none)] })] ∧
    ((proxy_registry.create ({ testees := [] } : test_system)).get_or_put mars 1).2.nodes_
      ≠ (proxy_registry.create ({ testees := [] } : test_system)).nodes_ := by
  decide

namespace proxy_registry

variable {S : Type}

/-! ## The getters -/

/-- C5: no getter inserts. For every registry state, node and actor id, a
call of `count_proxies`, `get`, `get_all` or `empty` leaves the registry as it
was, and with the factory observed the log of invocations does not grow over
the four calls. On a fresh registry (constructed, then initialised with any
factory) they report 0, null, an empty sequence and true, and `empty()` is
still true after the four calls. -/
theorem getters_leave_registry (r : proxy_registry S) (node : node_id) (aid : actor_id) :
    r.apply (operation.count_proxies node) = r ∧
    r.apply (operation.get node aid) = r ∧
    r.apply (operation.get_all node) = r ∧
    r.apply operation.empty = r ∧
    (∀ log : List factory_call,
      ((r.recorded log).run [operation.count_proxies node, operation.get node aid,
        operation.get_all node, operation.empty]).system_.2 = log) ∧
    (∀ (sys : S) (f : factory S),
      ((create sys).init f).count_proxies node = 0 ∧
      ((create sys).init f).get node aid = none ∧
      ((create sys).init f).get_all node = [] ∧
      ((create sys).init f).empty = true ∧
      (((create sys).init f).run [operation.count_proxies node, operation.get node aid,
        operation.get_all node, operation.empty]).empty = true) :=
  ⟨rfl, rfl, rfl, rfl, fun _ => rfl, fun _ _ => ⟨rfl, rfl, rfl, rfl, rfl⟩⟩

end proxy_registry

namespace unordered_map

variable {K V : Type} [DecidableEq K]

theorem mem_assign {m : unordered_map K V} {k : K} {v : V} {e : K × V}
    (h : e ∈ assign m k v) : e ∈ m ∨ e = (k, v) := by
  induction m with
  | nil => simp [assign] at h
  | cons x m ih =>
    obtain ⟨a, b⟩ := x
    by_cases hk : a = k
    · subst hk
      simp only [assign, if_true, List.mem_cons] at h
      cases h with
      | inl h => exact Or.inr h
      | inr h => exact Or.inl (List.mem_cons_of_mem _ h)
    · simp only [assign, hk, if_false, List.mem_cons] at h
      cases h with
      | inl h => exact Or.inl (by rw [h]; exact List.mem_cons_self _ _)
      | inr h =>
        cases ih h with
        | inl h' => exact Or.inl (List.mem_cons_of_mem _ h')
        | inr h' => exact Or.inr h'

theorem mem_erase {m : unordered_map K V} {k : K} {e : K × V}
    (h : e ∈ erase m k) : e ∈ m := by
  induction m with
  | nil => simp [erase] at h
  | cons x m ih =>
    obtain ⟨a, b⟩ := x
    by_cases hk : a = k
    · simp only [erase, hk, if_true] at h
      exact List.mem_cons_of_mem _ h
    · simp only [erase, hk, if_false, List.mem_cons] at h
      cases h with
      | inl h => rw [h]; exact List.mem_cons_self _ _
      | inr h => exact List.mem_cons_of_mem _ (ih h)

end unordered_map

namespace proxy_registry

variable {S : Type}

/-! ## The container invariant is kept by every member -/

theorem well_formed_append {m : node_map} {k : node_id} {st : node_state}
    (h : unordered_map.unique_keys m ∧ ∀ e ∈ m, unordered_map.unique_keys e.2.proxies)
    (hk : unordered_map.find m k = none) (hst : unordered_map.unique_keys st.proxies) :
    unordered_map.unique_keys (m ++ [(k, st)]) ∧
      ∀ e ∈ m ++ [(k, st)], unordered_map.unique_keys e.2.proxies := by
  refine ⟨unordered_map.unique_keys_append_single st h.1 hk, ?_⟩
  intro e he
  rw [List.mem_append] at he
  cases he with
  | inl he => exact h.2 e he
  | inr he =>
    rw [List.mem_singleton] at he
    rw [he]; exact hst

theorem well_formed_assign {m : node_map} (k : node_id) {st : node_state}
    (h : unordered_map.unique_keys m ∧ ∀ e ∈ m, unordered_map.unique_keys e.2.proxies)
    (hst : unordered_map.unique_keys st.proxies) :
    unordered_map.unique_keys (unordered_map.assign m k st) ∧
      ∀ e ∈ unordered_map.assign m k st, unordered_map.unique_keys e.2.proxies := by
  refine ⟨unordered_map.unique_keys_assign k st h.1, ?_⟩
  intro e he
  cases unordered_map.mem_assign he with
  | inl he => exact h.2 e he
  | inr he => rw [he]; exact hst

theorem well_formed_erase {m : node_map} (k : node_id)
    (h : unordered_map.unique_keys m ∧ ∀ e ∈ m, unordered_map.unique_keys e.2.proxies) :
    unordered_map.unique_keys (unordered_map.erase m k) ∧
      ∀ e ∈ unordered_map.erase m k, unordered_map.unique_keys e.2.proxies :=
  ⟨unordered_map.unique_keys_erase k h.1, fun e he => h.2 e (unordered_map.mem_erase he)⟩

theorem unique_keys_proxies_of_find {r : proxy_registry S} {n : node_id} {st : node_state}
    (hwf : r.well_formed) (hn : unordered_map.find r.nodes_ n = some st) :
    unordered_map.unique_keys st.proxies :=
  hwf.2 (n, st) (unordered_map.mem_of_find_eq_some hn)

theorem well_formed_get_or_put {r : proxy_registry S} (nid : node_id) (aid : actor_id)
    (hwf : r.well_formed) : (r.get_or_put nid aid).2.well_formed := by
  cases hs : r.stored nid aid with
  | some q => rw [get_or_put_of_stored hs]; exact hwf
  | none =>
    cases hn : unordered_map.find r.nodes_ nid with
    | none =>
      rw [get_or_put_of_no_node aid hn]
      exact well_formed_append hwf hn (by simp [unordered_map.unique_keys, unordered_map.keys])
    | some st =>
      have ha : unordered_map.find st.proxies aid = none := by
        rw [← stored_of_find aid hn]; exact hs
      rw [get_or_put_of_no_proxy hn ha]
      exact well_formed_assign nid hwf
        (unordered_map.unique_keys_append_single _ (unique_keys_proxies_of_find hwf hn) ha)

theorem well_formed_claim {r : proxy_registry S} (nid : node_id) (endpoint : actor)
    (hwf : r.well_formed) : (r.claim nid endpoint).2.well_formed := by
  cases hn : unordered_map.find r.nodes_ nid with
  | none =>
    rw [claim_of_no_node endpoint hn]
    exact well_formed_append hwf hn (by simp [unordered_map.unique_keys, unordered_map.keys])
  | some st =>
    rw [claim_of_node endpoint hn]
    have hst : unordered_map.unique_keys st.proxies := unique_keys_proxies_of_find hwf hn
    exact well_formed_assign nid hwf hst

theorem well_formed_erase_node {r : proxy_registry S} (nid : node_id)
    (hwf : r.well_formed) : (r.erase_node nid).well_formed := by
  rw [erase_node_eq]
  exact well_formed_erase nid hwf

theorem well_formed_erase_proxy {r : proxy_registry S} (nid : node_id) (aid : actor_id)
    (rsn : error) (hwf : r.well_formed) : (r.erase nid aid rsn).well_formed := by
  cases hs : r.stored nid aid with
  | none => rw [erase_of_not_stored rsn hs]; exact hwf
  | some q =>
    obtain ⟨st, hn, ha⟩ := stored_eq_some_iff.1 hs
    rw [erase_of_stored rsn hn ha]
    split
    · exact well_formed_erase nid hwf
    · exact well_formed_assign nid hwf
        (unordered_map.unique_keys_erase aid (unique_keys_proxies_of_find hwf hn))

theorem well_formed_clear (r : proxy_registry S) : r.clear.well_formed := by
  rw [clear_eq]
  simp [well_formed, unordered_map.unique_keys, unordered_map.keys]

theorem well_formed_apply {r : proxy_registry S} (op : operation)
    (hwf : r.well_formed) : (r.apply op).well_formed := by
  cases op with
  | count_proxies node => exact hwf
  | get node aid => exact hwf
  | get_or_put nid aid => exact well_formed_get_or_put nid aid hwf
  | get_all nid => exact hwf
  | claim nid endpoint => exact well_formed_claim nid endpoint hwf
  | empty => exact hwf
  | erase_node nid => exact well_formed_erase_node nid hwf
  | erase nid aid rsn => exact well_formed_erase_proxy nid aid rsn hwf
  | clear => exact well_formed_clear r

theorem well_formed_run {r : proxy_registry S} (ops : List operation)
    (hwf : r.well_formed) : (r.run ops).well_formed := by
  induction ops generalizing r with
  | nil => exact hwf
  | cons op ops ih => exact ih (well_formed_apply op hwf)

theorem well_formed_create (sys : S) : (create sys).well_formed := by
  simp [create, well_formed, unordered_map.unique_keys, unordered_map.keys]

end proxy_registry

namespace proxy_registry

variable {S : Type}

/-! ## The parent handed to the factory -/

theorem parent_for_of_find {r : proxy_registry S} {n : node_id} {st : node_state}
    (hn : unordered_map.find r.nodes_ n = some st) : r.parent_for n = st.endpoint := by
  simp [parent_for, hn]

theorem parent_for_of_find_none {r : proxy_registry S} {n : node_id}
    (hn : unordered_map.find r.nodes_ n = none) : r.parent_for n = none := by
  simp [parent_for, hn]

theorem parent_for_get_or_put (r : proxy_registry S) (nid : node_id) (aid : actor_id)
    (n : node_id) : (r.get_or_put nid aid).2.parent_for n = r.parent_for n := by
  cases hs : r.stored nid aid with
  | some q => rw [get_or_put_of_stored hs]
  | none =>
    cases hn : unordered_map.find r.nodes_ nid with
    | none =>
      rw [get_or_put_of_no_node aid hn]
      cases hn' : unordered_map.find r.nodes_ n with
      | some st' => simp [parent_for, unordered_map.find_append_single, hn']
      | none =>
        by_cases hk : nid = n
        · simp [parent_for, unordered_map.find_append_single, hn', hk]
        · simp [parent_for, unordered_map.find_append_single, hn', hk]
    | some st =>
      have ha : unordered_map.find st.proxies aid = none := by
        rw [← stored_of_find aid hn]; exact hs
      rw [get_or_put_of_no_proxy hn ha]
      by_cases hk : nid = n
      · subst hk
        simp [parent_for, unordered_map.find_assign_self _ hn, hn]
      · simp [parent_for, unordered_map.find_assign_ne _ _ hk]

theorem parent_for_claim_self (r : proxy_registry S) (nid : node_id) (endpoint : actor) :
    (r.claim nid endpoint).2.parent_for nid = endpoint ∧
    (unordered_map.find (r.claim nid endpoint).2.nodes_ nid).isSome = true := by
  cases hn : unordered_map.find r.nodes_ nid with
  | none =>
    rw [claim_of_no_node endpoint hn]
    simp [parent_for, unordered_map.find_append_single, hn]
  | some st =>
    rw [claim_of_node endpoint hn]
    simp [parent_for, unordered_map.find_assign_self _ hn]

theorem find_claim_of_ne (r : proxy_registry S) {nid n : node_id} (endpoint : actor)
    (hk : nid ≠ n) :
    unordered_map.find (r.claim nid endpoint).2.nodes_ n = unordered_map.find r.nodes_ n := by
  cases hn : unordered_map.find r.nodes_ nid with
  | none =>
    rw [claim_of_no_node endpoint hn]
    cases hn' : unordered_map.find r.nodes_ n with
    | some st' => simp [unordered_map.find_append_single, hn']
    | none => simp [unordered_map.find_append_single, hn', hk]
  | some st =>
    rw [claim_of_node endpoint hn]
    simp [unordered_map.find_assign_ne _ _ hk]

/-- A member call other than a claim on `n` either leaves `n` without a node
state or leaves the endpoint of `n` as it was. -/
theorem parent_for_apply {r : proxy_registry S} (hwf : r.well_formed) (n : node_id)
    (op : operation) (hc : op.claims n = false) :
    unordered_map.find (r.apply op).nodes_ n = none ∨
      (r.apply op).parent_for n = r.parent_for n := by
  cases op with
  | count_proxies node => exact Or.inr rfl
  | get node aid => exact Or.inr rfl
  | get_or_put nid aid => exact Or.inr (parent_for_get_or_put r nid aid n)
  | get_all nid => exact Or.inr rfl
  | claim nid endpoint =>
    simp only [operation.claims, decide_eq_false_iff_not] at hc
    right
    simp only [apply, parent_for]
    rw [find_claim_of_ne r endpoint hc]
  | empty => exact Or.inr rfl
  | erase_node nid =>
    simp only [apply]
    rw [erase_node_eq]
    by_cases hk : nid = n
    · subst hk
      exact Or.inl (unordered_map.find_erase_self _ hwf.1)
    · right
      simp [parent_for, unordered_map.find_erase_ne _ hk]
  | erase nid aid rsn =>
    simp only [apply]
    cases hs : r.stored nid aid with
    | none => rw [erase_of_not_stored rsn hs]; exact Or.inr rfl
    | some q =>
      obtain ⟨st, hn, ha⟩ := stored_eq_some_iff.1 hs
      rw [erase_of_stored rsn hn ha]
      by_cases hk : nid = n
      · subst hk
        split
        · exact Or.inl (unordered_map.find_erase_self _ hwf.1)
        · right
          simp [parent_for, unordered_map.find_assign_self _ hn, hn]
      · right
        split
        · simp [parent_for, unordered_map.find_erase_ne _ hk]
        · simp [parent_for, unordered_map.find_assign_ne _ _ hk]
  | clear =>
    simp only [apply]
    rw [clear_eq]
    exact Or.inl rfl

/-! ## Observing the factory over a sequence of calls -/

/-- Observation is transparent: a member call on the observed registry does
to the node table and the actor system what it does unobserved, and the log
grows by the calls of the factory, each with the parent `parent_for`. -/
theorem recorded_apply (r : proxy_registry S) (log : List factory_call) (op : operation) :
    ∃ calls : List factory_call,
      (r.recorded log).apply op = (r.apply op).recorded (log ++ calls) ∧
      ∀ c ∈ calls, c.parent = r.parent_for c.nid := by
  cases op with
  | count_proxies node => exact ⟨[], by simp [apply], by simp⟩
  | get node aid => exact ⟨[], by simp [apply], by simp⟩
  | get_all nid => exact ⟨[], by simp [apply], by simp⟩
  | empty => exact ⟨[], by simp [apply], by simp⟩
  | claim nid endpoint =>
    refine ⟨[], ?_, by simp⟩
    simp only [apply, List.append_nil]
    rfl
  | erase_node nid =>
    refine ⟨[], ?_, by simp⟩
    simp only [apply, List.append_nil]
    rw [erase_node_eq, erase_node_eq]
    rfl
  | clear =>
    refine ⟨[], ?_, by simp⟩
    simp only [apply, List.append_nil]
    rw [clear_eq, clear_eq]
    rfl
  | erase nid aid rsn =>
    refine ⟨[], ?_, by simp⟩
    simp only [apply, List.append_nil]
    cases hs : r.stored nid aid with
    | none =>
      have hs' : (r.recorded log).stored nid aid = none := hs
      rw [erase_of_not_stored rsn hs, erase_of_not_stored rsn hs']
    | some q =>
      obtain ⟨st, hn, ha⟩ := stored_eq_some_iff.1 hs
      have hn' : unordered_map.find (r.recorded log).nodes_ nid = some st := hn
      rw [erase_of_stored rsn hn ha, erase_of_stored rsn hn' ha]
      split <;> rfl
  | get_or_put nid aid =>
    simp only [apply]
    cases hs : r.stored nid aid with
    | some q =>
      have hs' : (r.recorded log).stored nid aid = some q := hs
      refine ⟨[], ?_, by simp⟩
      rw [get_or_put_of_stored hs, get_or_put_of_stored hs', List.append_nil]
    | none =>
      refine ⟨[{ nid := nid, aid := aid, parent := r.parent_for nid }], ?_, by simp⟩
      cases hn : unordered_map.find r.nodes_ nid with
      | none =>
        have hn' : unordered_map.find (r.recorded log).nodes_ nid = none := hn
        rw [get_or_put_of_no_node aid hn, get_or_put_of_no_node aid hn',
          parent_for_of_find_none hn]
        rfl
      | some st =>
        have ha : unordered_map.find st.proxies aid = none := by
          rw [← stored_of_find aid hn]; exact hs
        have hn' : unordered_map.find (r.recorded log).nodes_ nid = some st := hn
        rw [get_or_put_of_no_proxy hn ha, get_or_put_of_no_proxy hn' ha,
          parent_for_of_find hn]
        rfl

/-- Over a sequence of calls without a claim on `n`, every factory call for
`n` has the parent `x` the node started with, provided the node keeps its
node state throughout or `x` is the absent parent. -/
theorem recorded_run_parent {r : proxy_registry S} (hwf : r.well_formed) (n : node_id)
    (x : actor) (ops : List operation) (hc : ∀ op ∈ ops, op.claims n = false)
    (hx : r.parent_for n = x) (hkeep : r.keeps_node n ops = true ∨ x = none)
    (log : List factory_call) :
    ∃ calls : List factory_call,
      (r.recorded log).run ops = (r.run ops).recorded (log ++ calls) ∧
      ∀ c ∈ calls, c.nid = n → c.parent = x := by
  induction ops generalizing r log with
  | nil => exact ⟨[], by simp [run], by simp⟩
  | cons op ops ih =>
    obtain ⟨cs, hcs, hpar⟩ := recorded_apply r log op
    have hop : op.claims n = false := hc op (List.mem_cons_self _ _)
    have hx' : (r.apply op).parent_for n = x := by
      cases parent_for_apply hwf n op hop with
      | inr h => rw [h]; exact hx
      | inl h =>
        cases hkeep with
        | inl hk =>
          simp only [keeps_node, Bool.and_eq_true] at hk
          rw [h] at hk
          simp at hk
        | inr hnone => rw [parent_for_of_find_none h, hnone]
    have hkeep' : (r.apply op).keeps_node n ops = true ∨ x = none := by
      cases hkeep with
      | inl hk =>
        simp only [keeps_node, Bool.and_eq_true] at hk
        exact Or.inl hk.2
      | inr hnone => exact Or.inr hnone
    obtain ⟨cs', hcs', hpar'⟩ := ih (well_formed_apply op hwf)
      (fun o ho => hc o (List.mem_cons_of_mem _ ho)) hx' hkeep' (log ++ cs)
    refine ⟨cs ++ cs', ?_, ?_⟩
    · simp only [run]
      rw [hcs, hcs', List.append_assoc]
    · intro c hmem hcn
      rw [List.mem_append] at hmem
      cases hmem with
      | inl hm => rw [hpar c hm, hcn]; exact hx
      | inr hm => exact hpar' c hm hcn

end proxy_registry

namespace unordered_map

variable {K V : Type} [DecidableEq K]

theorem mem_keys_iff (m : unordered_map K V) (k : K) :
    k ∈ keys m ↔ (find m k).isSome = true := by
  cases h : find m k with
  | none => simpa using (find_eq_none_iff m k).1 h
  | some v =>
    have hne : ¬ find m k = none := by rw [h]; simp
    simpa using fun hk => hne ((find_eq_none_iff m k).2 hk)

theorem values_eq_map_find {W : Type} (m : unordered_map K (Option W))
    (h : unique_keys m) :
    values m = (keys m).map (fun k => match find m k with
      | none => none
      | some p => p) := by
  induction m with
  | nil => rfl
  | cons e m ih =>
    obtain ⟨a, b⟩ := e
    simp only [unique_keys, keys, List.map_cons, List.nodup_cons] at h
    have ih' := ih h.2
    simp only [values, keys] at ih' ⊢
    simp only [List.map_cons, find, if_true]
    rw [ih']
    congr 1
    apply List.map_congr_left
    intro k hk
    have hne : ¬ a = k := by
      intro e
      subst e
      exact h.1 hk
    simp [hne]

end unordered_map

namespace proxy_registry

variable {S : Type}

/-! ## The member `claim` -/

theorem get_eq_stored (r : proxy_registry S) (n : node_id) (a : actor_id) :
    r.get n a = match r.stored n a with
      | none => none
      | some p => p := by
  cases h : r.stored n a with
  | none => exact get_eq_of_not_stored h
  | some p => exact get_eq_of_stored h

theorem find_claim_self (r : proxy_registry S) (nid : node_id) (endpoint : actor) :
    unordered_map.find (r.claim nid endpoint).2.nodes_ nid =
      some { endpoint := endpoint,
             proxies := match unordered_map.find r.nodes_ nid with
               | some st => st.proxies
               | none => [] } := by
  cases hn : unordered_map.find r.nodes_ nid with
  | none =>
    rw [claim_of_no_node endpoint hn]
    simp [unordered_map.find_append_single, hn]
  | some st =>
    rw [claim_of_node endpoint hn]
    simp [unordered_map.find_assign_self _ hn]

theorem find_proxies_claim (r : proxy_registry S) (nid : node_id) (endpoint : actor)
    (n : node_id) :
    (unordered_map.find (r.claim nid endpoint).2.nodes_ n).map node_state.proxies =
      if n = nid then
        some (match unordered_map.find r.nodes_ nid with
          | some st => st.proxies
          | none => [])
      else (unordered_map.find r.nodes_ n).map node_state.proxies := by
  by_cases hk : n = nid
  · subst hk
    simp [find_claim_self]
  · have hk' : nid ≠ n := fun e => hk e.symm
    simp [hk, find_claim_of_ne r endpoint hk']

/-- C6: for every registry state, node and endpoint, `claim(nid, endpoint)`
returns exactly the proxies resident for `nid` before the call: the sequence
`get_all(nid)` had, of length `count_proxies(nid)`, which holds the handle of
each resident actor id of `nid` once and nothing else. It records `endpoint`
in the node state of `nid`, which exists afterwards with the proxy map it had
(an empty one if the node state was absent). The node state of every other
node, every proxy entry of every node, the actor system and the factory stay
as they were. -/
theorem claim_returns_resident_and_records_endpoint (r : proxy_registry S)
    (hwf : r.well_formed) (nid : node_id) (endpoint : actor) :
    (r.claim nid endpoint).1 = r.get_all nid ∧
    (r.claim nid endpoint).1.length = r.count_proxies nid ∧
    (∃ ids : List actor_id, ids.Nodup ∧
      (∀ a, a ∈ ids ↔ (r.stored nid a).isSome = true) ∧
      (r.claim nid endpoint).1 = ids.map (fun a => r.get nid a)) ∧
    unordered_map.find (r.claim nid endpoint).2.nodes_ nid =
      some { endpoint := endpoint,
             proxies := match unordered_map.find r.nodes_ nid with
               | some st => st.proxies
               | none => [] } ∧
    (∀ n, n ≠ nid →
      unordered_map.find (r.claim nid endpoint).2.nodes_ n = unordered_map.find r.nodes_ n) ∧
    (∀ n a, (r.claim nid endpoint).2.stored n a = r.stored n a) ∧
    (∀ n a, (r.claim nid endpoint).2.get n a = r.get n a) ∧
    (∀ n, (r.claim nid endpoint).2.count_proxies n = r.count_proxies n) ∧
    (∀ n, (r.claim nid endpoint).2.get_all n = r.get_all n) ∧
    (r.claim nid endpoint).2.system_ = r.system_ ∧
    (r.claim nid endpoint).2.factory_ = r.factory_ := by
  have hret : (r.claim nid endpoint).1 = r.get_all nid := by
    cases hn : unordered_map.find r.nodes_ nid with
    | none => rw [claim_of_no_node endpoint hn]; simp [get_all, hn]
    | some st => rw [claim_of_node endpoint hn]; simp [get_all, hn]
  have hprox : ∀ n, (unordered_map.find (r.claim nid endpoint).2.nodes_ n).map
      node_state.proxies = (unordered_map.find r.nodes_ n).map node_state.proxies ∨
      (n = nid ∧ unordered_map.find r.nodes_ nid = none ∧
        (unordered_map.find (r.claim nid endpoint).2.nodes_ n).map node_state.proxies
          = some []) := by
    intro n
    rw [find_proxies_claim]
    by_cases hk : n = nid
    · subst hk
      cases hn : unordered_map.find r.nodes_ n with
      | none => right; simp
      | some st => left; simp
    · left; simp [hk]
  refine ⟨hret, ?_, ?_, find_claim_self r nid endpoint, ?_, stored_claim r nid endpoint,
    ?_, ?_, ?_, rfl, rfl⟩
  · rw [hret]
    cases hn : unordered_map.find r.nodes_ nid with
    | none => simp [get_all, count_proxies, hn]
    | some st => simp [get_all, count_proxies, hn, unordered_map.values, unordered_map.size]
  · rw [hret]
    cases hn : unordered_map.find r.nodes_ nid with
    | none =>
      refine ⟨[], List.nodup_nil, ?_, ?_⟩
      · intro a; simp [stored, hn]
      · simp [get_all, hn]
    | some st =>
      refine ⟨unordered_map.keys st.proxies, unique_keys_proxies_of_find hwf hn, ?_, ?_⟩
      · intro a
        rw [stored_of_find a hn]
        exact unordered_map.mem_keys_iff st.proxies a
      · simp only [get_all, hn]
        rw [unordered_map.values_eq_map_find st.proxies (unique_keys_proxies_of_find hwf hn)]
        apply List.map_congr_left
        intro a _
        rw [get_eq_stored, stored_of_find a hn]
        cases unordered_map.find st.proxies a <;> rfl
  · intro n hk
    exact find_claim_of_ne r endpoint (fun e => hk e.symm)
  · intro n a
    rw [get_eq_stored, get_eq_stored, stored_claim]
  · intro n
    cases hprox n with
    | inl h =>
      unfold count_proxies
      cases h1 : unordered_map.find (r.claim nid endpoint).2.nodes_ n with
      | none =>
        cases h2 : unordered_map.find r.nodes_ n with
        | none => rfl
        | some st2 => rw [h1, h2] at h; simp at h
      | some st1 =>
        cases h2 : unordered_map.find r.nodes_ n with
        | none => rw [h1, h2] at h; simp at h
        | some st2 =>
          rw [h1, h2] at h
          simp only [Option.map_some', Option.some.injEq] at h
          simp [h]
    | inr h =>
      obtain ⟨hk, hn, hsome⟩ := h
      subst hk
      unfold count_proxies
      cases h1 : unordered_map.find (r.claim n endpoint).2.nodes_ n with
      | none => rw [h1] at hsome; simp at hsome
      | some st1 =>
        rw [h1] at hsome
        simp only [Option.map_some', Option.some.injEq] at hsome
        simp [hn, hsome, unordered_map.size]
  · intro n
    cases hprox n with
    | inl h =>
      unfold get_all
      cases h1 : unordered_map.find (r.claim nid endpoint).2.nodes_ n with
      | none =>
        cases h2 : unordered_map.find r.nodes_ n with
        | none => rfl
        | some st2 => rw [h1, h2] at h; simp at h
      | some st1 =>
        cases h2 : unordered_map.find r.nodes_ n with
        | none => rw [h1, h2] at h; simp at h
        | some st2 =>
          rw [h1, h2] at h
          simp only [Option.map_some', Option.some.injEq] at h
          simp [h]
    | inr h =>
      obtain ⟨hk, hn, hsome⟩ := h
      subst hk
      unfold get_all
      cases h1 : unordered_map.find (r.claim n endpoint).2.nodes_ n with
      | none => rw [h1] at hsome; simp at hsome
      | some st1 =>
        rw [h1] at hsome
        simp only [Option.map_some', Option.some.injEq] at hsome
        simp [hn, hsome, unordered_map.values]

end proxy_registry

/-- The fixture after `get_or_put(mars, 1)`, claimed by the endpoint 7. -/
theorem claim_returns_resident_and_records_endpoint_witness :
    (fixture.get_or_put mars 1).2.well_formed ∧
    ((fixture.get_or_put mars 1).2.claim mars (some 7)).1 =
      (fixture.get_or_put mars 1).2.get_all mars ∧
    ((fixture.get_or_put mars 1).2.claim mars (some 7)).1 = [some 0] :=
  ⟨by decide,
    (proxy_registry.claim_returns_resident_and_records_endpoint
      (fixture.get_or_put mars 1).2 (by decide) mars (some 7)).1,
    by decide⟩

namespace proxy_registry

variable {S : Type}

/-- C7, as the code has it: after `claim(nid, e)`, over every sequence of
member calls that holds no further claim on `nid` and through which `nid`
keeps its node state (no `erase(nid)`, no `clear()` and no `erase(nid, aid)`
of the last proxy of `nid` takes it away), every proxy that `get_or_put`
constructs for `nid` is made with the parent `e`: the observed log grows by
calls whose parent is `e` whenever their node is `nid`. -/
theorem claim_sets_parent_while_node_state_kept (r : proxy_registry S)
    (hwf : r.well_formed) (nid : node_id) (e : actor) (ops : List operation)
    (hc : ∀ op ∈ ops, op.claims nid = false)
    (hk : (r.claim nid e).2.keeps_node nid ops = true) (log : List factory_call) :
    ∃ calls : List factory_call,
      (((r.recorded log).claim nid e).2.run ops).system_.2 = log ++ calls ∧
      (((r.recorded log).claim nid e).2.run ops).nodes_ =
        ((r.claim nid e).2.run ops).nodes_ ∧
      ∀ c ∈ calls, c.nid = nid → c.parent = e := by
  obtain ⟨calls, hrun, hpar⟩ := recorded_run_parent (well_formed_claim nid e hwf) nid e ops hc
    (parent_for_claim_self r nid e).1 (Or.inl hk) log
  refine ⟨calls, ?_, ?_, hpar⟩
  · have h : ((r.recorded log).claim nid e).2 = (r.claim nid e).2.recorded log := rfl
    rw [h, hrun]
    rfl
  · have h : ((r.recorded log).claim nid e).2 = (r.claim nid e).2.recorded log := rfl
    rw [h, hrun]
    rfl

/-- C8: when `get_or_put(nid, aid)` constructs a proxy (the key is not
resident), the parent it hands to the factory is the endpoint stored in the
node state of `nid` if that node state exists, and the absent parent
otherwise. Hence, from a fresh registry, over every sequence of member calls
without a claim on `nid`, every proxy constructed for `nid` has the absent
parent. -/
theorem get_or_put_parent_is_endpoint (r : proxy_registry S) (nid : node_id)
    (aid : actor_id) (h : r.stored nid aid = none) (log : List factory_call) :
    (∀ st, unordered_map.find r.nodes_ nid = some st →
      ((r.recorded log).get_or_put nid aid).2.system_.2 =
        log ++ [{ nid := nid, aid := aid, parent := st.endpoint }]) ∧
    (unordered_map.find r.nodes_ nid = none →
      ((r.recorded log).get_or_put nid aid).2.system_.2 =
        log ++ [{ nid := nid, aid := aid, parent := none }]) ∧
    (∀ (sys : S) (f : factory S) (ops : List operation),
      (∀ op ∈ ops, op.claims nid = false) →
      ∀ c ∈ ((((create sys).init f).recorded []).run ops).system_.2,
        c.nid = nid → c.parent = none) := by
  have h' : (r.recorded log).stored nid aid = none := h
  have hlog := (get_or_put_of_not_stored h').2.1
  refine ⟨?_, ?_, ?_⟩
  · intro st hn
    rw [hlog]
    have hp : (r.recorded log).parent_for nid = st.endpoint := parent_for_of_find hn
    rw [hp]
    rfl
  · intro hn
    rw [hlog]
    have hp : (r.recorded log).parent_for nid = none := parent_for_of_find_none hn
    rw [hp]
    rfl
  · intro sys f ops hc c hmem hcn
    have hwf : ((create sys).init f).well_formed := well_formed_create sys
    obtain ⟨calls, hrun, hpar⟩ := recorded_run_parent hwf nid none ops hc rfl (Or.inr rfl) []
    rw [hrun] at hmem
    exact hpar c hmem hcn

end proxy_registry

/-- C7 fails as stated: on the fixture, after `get_or_put(mars, 1)` and
`claim(mars, 7)`, the calls `erase(mars, 1)` and `get_or_put(mars, 2)` hold no
claim, yet the proxy constructed for `(mars, 2)` is made with the absent
parent, since `erase(mars, 1)` took the node state of `mars` away together
with its endpoint. -/
theorem claim_parent_lost_after_erase :
    (∀ op ∈ [operation.erase mars 1 error.remote_link_unreachable,
        operation.get_or_put mars 2], op.claims mars = false) ∧
    (((((fixture.get_or_put mars 1).2.recorded []).claim mars (some 7)).2.run
        [operation.erase mars 1 error.remote_link_unreachable,
          operation.get_or_put mars 2]).system_.2 =
      [{ nid := mars, aid := 2, parent := none }]) ∧
    ¬ (∀ c ∈ ((((fixture.get_or_put mars 1).2.recorded []).claim mars (some 7)).2.run
        [operation.erase mars 1 error.remote_link_unreachable,
          operation.get_or_put mars 2]).system_.2,
      c.nid = mars → c.parent = some 7) := by
  decide

/-- The fixture with the proxy `(mars, 1)`, claimed by the endpoint 7; then a
second proxy, the erasure of the first and a third proxy. -/
theorem claim_sets_parent_while_node_state_kept_witness :
    (fixture.get_or_put mars 1).2.well_formed ∧
    (∀ op ∈ [operation.get_or_put mars 2,
        operation.erase mars 1 error.remote_link_unreachable,
        operation.get_or_put mars 3], op.claims mars = false) ∧
    ((fixture.get_or_put mars 1).2.claim mars (some 7)).2.keeps_node mars
      [operation.get_or_put mars 2, operation.erase mars 1 error.remote_link_unreachable,
        operation.get_or_put mars 3] = true ∧
    ∃ calls : List factory_call,
      (((((fixture.get_or_put mars 1).2.recorded []).claim mars (some 7)).2.run
        [operation.get_or_put mars 2, operation.erase mars 1 error.remote_link_unreachable,
          operation.get_or_put mars 3]).system_.2 = [] ++ calls) ∧
      (((((fixture.get_or_put mars 1).2.recorded []).claim mars (some 7)).2.run
        [operation.get_or_put mars 2, operation.erase mars 1 error.remote_link_unreachable,
          operation.get_or_put mars 3]).nodes_ =
        (((fixture.get_or_put mars 1).2.claim mars (some 7)).2.run
          [operation.get_or_put mars 2, operation.erase mars 1 error.remote_link_unreachable,
            operation.get_or_put mars 3]).nodes_) ∧
      ∀ c ∈ calls, c.nid = mars → c.parent = some 7 :=
  ⟨by decide, by decide, by decide,
    proxy_registry.claim_sets_parent_while_node_state_kept (fixture.get_or_put mars 1).2
      (by decide) mars (some 7) _ (by decide) (by decide) []⟩

/-- The fresh fixture and the key `(mars, 1)`: no node state, absent parent. -/
theorem get_or_put_parent_is_endpoint_witness :
    fixture.stored mars 1 = none ∧
    unordered_map.find fixture.nodes_ mars = none ∧
    ((fixture.recorded []).get_or_put mars 1).2.system_.2 =
      [] ++ [{ nid := mars, aid := 1, parent := none }] :=
  ⟨by decide, by decide,
    (proxy_registry.get_or_put_parent_is_endpoint fixture mars 1 (by decide) []).2.1
      (by decide)⟩

namespace unordered_map

theorem empty_eq_true_iff {K V : Type} (m : unordered_map K V) :
    empty m = true ↔ m = [] := by
  cases m <;> simp [empty]

variable {K V : Type} [DecidableEq K]

theorem size_erase_of_find {m : unordered_map K V} {k : K} {v : V}
    (h : find m k = some v) : size (erase m k) + 1 = size m := by
  induction m with
  | nil => simp [find] at h
  | cons e m ih =>
    obtain ⟨a, b⟩ := e
    by_cases hk : a = k
    · simp [erase, size, hk]
    · simp only [find, hk, if_false] at h
      have := ih h
      simp only [size] at this
      simp [erase, size, hk, this]

theorem erase_eq_nil_iff {m : unordered_map K V} {k : K} {v : V}
    (h : find m k = some v) : erase m k = [] ↔ size m = 1 := by
  have hs := size_erase_of_find h
  constructor
  · intro he
    rw [he] at hs
    simpa [size] using hs.symm
  · intro h1
    rw [h1] at hs
    have h0 : (erase m k).length = 0 := by simpa [size] using hs
    exact List.length_eq_zero.1 h0

/-- With unique keys, erasing `k` leaves nothing exactly when no other key is
mapped. -/
theorem erase_eq_nil_iff_no_other {m : unordered_map K V} (k : K) (h : unique_keys m) :
    erase m k = [] ↔ ∀ k', k' ≠ k → find m k' = none := by
  constructor
  · intro he k' hk'
    rw [← find_erase_ne m (fun e => hk' e.symm), he]
    rfl
  · intro hall
    cases he : erase m k with
    | nil => rfl
    | cons e rest =>
      obtain ⟨a, b⟩ := e
      exfalso
      have hfa : find (erase m k) a = some b := by rw [he]; simp [find]
      have hne : a ≠ k := by
        intro e
        subst e
        rw [find_erase_self a h] at hfa
        cases hfa
      rw [find_erase_ne m (fun e => hne e.symm), hall a hne] at hfa
      cases hfa

end unordered_map

namespace proxy_registry

variable {S : Type}

/-! ## The member `erase(nid, aid, rsn)` -/

theorem stored_erase_self {r : proxy_registry S} (hwf : r.well_formed) (nid : node_id)
    (aid : actor_id) (rsn : error) : (r.erase nid aid rsn).stored nid aid = none := by
  cases hs : r.stored nid aid with
  | none => rw [erase_of_not_stored rsn hs]; exact hs
  | some q =>
    obtain ⟨st, hn, ha⟩ := stored_eq_some_iff.1 hs
    rw [erase_of_stored rsn hn ha]
    split
    · exact stored_of_find_none aid (unordered_map.find_erase_self nid hwf.1)
    · have hf : unordered_map.find
          (unordered_map.assign r.nodes_ nid
            { st with proxies := unordered_map.erase st.proxies aid }) nid =
          some { st with proxies := unordered_map.erase st.proxies aid } :=
        unordered_map.find_assign_self _ hn
      simp only [stored, hf]
      exact unordered_map.find_erase_self aid (unique_keys_proxies_of_find hwf hn)

theorem stored_erase_other {r : proxy_registry S} (hwf : r.well_formed) {nid n : node_id}
    {aid a : actor_id} (rsn : error) (hne : ¬ (n = nid ∧ a = aid)) :
    (r.erase nid aid rsn).stored n a = r.stored n a := by
  cases hs : r.stored nid aid with
  | none => rw [erase_of_not_stored rsn hs]
  | some q =>
    obtain ⟨st, hn, ha⟩ := stored_eq_some_iff.1 hs
    rw [erase_of_stored rsn hn ha]
    by_cases hk : nid = n
    · subst hk
      have hka : aid ≠ a := fun e => hne ⟨rfl, e.symm⟩
      rw [stored_of_find a hn]
      split
      · rename_i hempty
        rw [unordered_map.empty_eq_true_iff] at hempty
        rw [stored_of_find_none a (unordered_map.find_erase_self nid hwf.1),
          ← unordered_map.find_erase_ne st.proxies hka, hempty]
        rfl
      · have hf : unordered_map.find
            (unordered_map.assign r.nodes_ nid
              { st with proxies := unordered_map.erase st.proxies aid }) nid =
            some { st with proxies := unordered_map.erase st.proxies aid } :=
          unordered_map.find_assign_self _ hn
        simp only [stored, hf]
        exact unordered_map.find_erase_ne _ hka
    · split
      · simp [stored, unordered_map.find_erase_ne _ hk]
      · simp [stored, unordered_map.find_assign_ne _ _ hk]

theorem find_erase_proxy_of_ne (r : proxy_registry S) {nid n : node_id} (aid : actor_id)
    (rsn : error) (hk : nid ≠ n) :
    unordered_map.find (r.erase nid aid rsn).nodes_ n = unordered_map.find r.nodes_ n := by
  cases hs : r.stored nid aid with
  | none => rw [erase_of_not_stored rsn hs]
  | some q =>
    obtain ⟨st, hn, ha⟩ := stored_eq_some_iff.1 hs
    rw [erase_of_stored rsn hn ha]
    split
    · simp [unordered_map.find_erase_ne _ hk]
    · simp [unordered_map.find_assign_ne _ _ hk]

theorem count_proxies_of_find {r : proxy_registry S} {n : node_id} {st : node_state}
    (hn : unordered_map.find r.nodes_ n = some st) :
    r.count_proxies n = unordered_map.size st.proxies := by
  simp [count_proxies, hn]

/-- What `erase(nid, aid, rsn)` leaves of the node state of `nid` when the
key is resident: nothing if `aid` was its only proxy, else the same endpoint
and the proxy map without `aid`. -/
theorem find_erase_proxy_self {r : proxy_registry S} (hwf : r.well_formed) {nid : node_id}
    {aid : actor_id} {st : node_state} {p : strong_actor_ptr} (rsn : error)
    (hn : unordered_map.find r.nodes_ nid = some st)
    (ha : unordered_map.find st.proxies aid = some p) :
    unordered_map.find (r.erase nid aid rsn).nodes_ nid =
      if r.count_proxies nid = 1 then none
      else some { st with proxies := unordered_map.erase st.proxies aid } := by
  rw [erase_of_stored rsn hn ha, count_proxies_of_find hn]
  by_cases h1 : unordered_map.size st.proxies = 1
  · have he : unordered_map.erase st.proxies aid = [] :=
      (unordered_map.erase_eq_nil_iff ha).2 h1
    simp [h1, he, unordered_map.empty, unordered_map.find_erase_self nid hwf.1]
  · have he : ¬ unordered_map.erase st.proxies aid = [] :=
      fun e => h1 ((unordered_map.erase_eq_nil_iff ha).1 e)
    have hemp : unordered_map.empty (unordered_map.erase st.proxies aid) = false := by
      cases hm : unordered_map.erase st.proxies aid with
      | nil => exact absurd hm he
      | cons x m => rfl
    simp [h1, hemp, unordered_map.find_assign_self _ hn]

/-- C9: `erase(nid, aid, rsn)` removes exactly the one proxy. Afterwards
`(nid, aid)` is not resident and `get(nid, aid)` is null; the slot and the
`get` of every other key are as before; the node state of every other node is
as before; the node state of `nid` is removed exactly when the key was
resident and was the only proxy of `nid` (the proxy map became empty through
this removal), and otherwise stays, with its endpoint; the actor system and
the factory are untouched; and if `(nid, aid)` was not resident the whole
registry is unchanged. -/
theorem erase_removes_exactly_one_proxy (r : proxy_registry S) (hwf : r.well_formed)
    (nid : node_id) (aid : actor_id) (rsn : error) :
    (r.erase nid aid rsn).stored nid aid = none ∧
    (r.erase nid aid rsn).get nid aid = none ∧
    (∀ n a, ¬ (n = nid ∧ a = aid) →
      (r.erase nid aid rsn).stored n a = r.stored n a ∧
      (r.erase nid aid rsn).get n a = r.get n a) ∧
    (∀ n, n ≠ nid →
      unordered_map.find (r.erase nid aid rsn).nodes_ n = unordered_map.find r.nodes_ n) ∧
    (((unordered_map.find r.nodes_ nid).isSome = true ∧
        unordered_map.find (r.erase nid aid rsn).nodes_ nid = none) ↔
      ((r.stored nid aid).isSome = true ∧ r.count_proxies nid = 1)) ∧
    (∀ st, unordered_map.find r.nodes_ nid = some st →
      ¬ ((r.stored nid aid).isSome = true ∧ r.count_proxies nid = 1) →
      (r.erase nid aid rsn).parent_for nid = st.endpoint ∧
      (r.erase nid aid rsn).count_proxies nid =
        r.count_proxies nid - (if (r.stored nid aid).isSome then 1 else 0)) ∧
    (r.erase nid aid rsn).system_ = r.system_ ∧
    (r.erase nid aid rsn).factory_ = r.factory_ ∧
    (r.stored nid aid = none → r.erase nid aid rsn = r) := by
  have hself := stored_erase_self hwf nid aid rsn
  refine ⟨hself, get_eq_of_not_stored hself, ?_, ?_, ?_, ?_, ?_, ?_,
    erase_of_not_stored rsn⟩
  · intro n a hne
    have h := stored_erase_other hwf rsn hne
    exact ⟨h, by rw [get_eq_stored, get_eq_stored, h]⟩
  · intro n hk
    exact find_erase_proxy_of_ne r aid rsn (fun e => hk e.symm)
  · cases hs : r.stored nid aid with
    | none =>
      rw [erase_of_not_stored rsn hs]
      constructor
      · rintro ⟨h1, h2⟩
        rw [h2] at h1
        simp at h1
      · rintro ⟨h1, _⟩
        simp at h1
    | some q =>
      obtain ⟨st, hn, ha⟩ := stored_eq_some_iff.1 hs
      rw [find_erase_proxy_self hwf rsn hn ha, hn]
      by_cases h1 : r.count_proxies nid = 1 <;> simp [h1]
  · intro st hn hnot
    cases hs : r.stored nid aid with
    | none =>
      rw [erase_of_not_stored rsn hs]
      exact ⟨parent_for_of_find hn, by simp⟩
    | some q =>
      have ha : unordered_map.find st.proxies aid = some q := by
        rw [← stored_of_find aid hn]; exact hs
      have h1 : ¬ r.count_proxies nid = 1 := fun e => hnot ⟨by rw [hs]; rfl, e⟩
      have hf := find_erase_proxy_self hwf rsn hn ha
      rw [if_neg h1] at hf
      have hp : (r.erase nid aid rsn).parent_for nid =
          ({ st with proxies := unordered_map.erase st.proxies aid } : node_state).endpoint :=
        parent_for_of_find hf
      refine ⟨hp, ?_⟩
      rw [count_proxies_of_find hf, count_proxies_of_find hn]
      have := unordered_map.size_erase_of_find ha
      simp only [Option.isSome_some, if_true]
      omega
  · cases hs : r.stored nid aid with
    | none => rw [erase_of_not_stored rsn hs]
    | some q =>
      obtain ⟨st, hn, ha⟩ := stored_eq_some_iff.1 hs
      rw [erase_of_stored rsn hn ha]
      split <;> rfl
  · cases hs : r.stored nid aid with
    | none => rw [erase_of_not_stored rsn hs]
    | some q =>
      obtain ⟨st, hn, ha⟩ := stored_eq_some_iff.1 hs
      rw [erase_of_stored rsn hn ha]
      split <;> rfl

/-- C10: for every registry state in which `a` is resident for `n` and is
the only proxy of `n`, after `erase(n, a)` the member `empty()` returns true
if and only if no other node has a node state. -/
theorem empty_after_erase_of_only_proxy (r : proxy_registry S) (hwf : r.well_formed)
    (n : node_id) (a : actor_id) (rsn : error)
    (hres : (r.stored n a).isSome = true) (hone : r.count_proxies n = 1) :
    (r.erase n a rsn).empty = true ↔
      ∀ n', n' ≠ n → unordered_map.find r.nodes_ n' = none := by
  cases hs : r.stored n a with
  | none => rw [hs] at hres; simp at hres
  | some q =>
    obtain ⟨st, hn, ha⟩ := stored_eq_some_iff.1 hs
    have he : unordered_map.erase st.proxies a = [] := by
      rw [unordered_map.erase_eq_nil_iff ha, ← count_proxies_of_find hn]
      exact hone
    rw [erase_of_stored rsn hn ha, he]
    simp only [unordered_map.empty, List.isEmpty_nil, if_true, empty]
    rw [← unordered_map.erase_eq_nil_iff_no_other n hwf.1]
    exact unordered_map.empty_eq_true_iff _

end proxy_registry

/-- The fixture with the proxies `(mars, 1)` and `(mars, 2)`; `(mars, 1)` is
erased. -/
theorem erase_removes_exactly_one_proxy_witness :
    ((fixture.get_or_put mars 1).2.get_or_put mars 2).2.well_formed ∧
    (((fixture.get_or_put mars 1).2.get_or_put mars 2).2.erase mars 1
      error.remote_link_unreachable).stored mars 1 = none ∧
    (((fixture.get_or_put mars 1).2.get_or_put mars 2).2.erase mars 1
      error.remote_link_unreachable).get mars 1 = none ∧
    (((fixture.get_or_put mars 1).2.get_or_put mars 2).2.erase mars 1
      error.remote_link_unreachable).get mars 2 = some 1 :=
  ⟨by decide,
    (proxy_registry.erase_removes_exactly_one_proxy
      ((fixture.get_or_put mars 1).2.get_or_put mars 2).2 (by decide) mars 1
      error.remote_link_unreachable).1,
    (proxy_registry.erase_removes_exactly_one_proxy
      ((fixture.get_or_put mars 1).2.get_or_put mars 2).2 (by decide) mars 1
      error.remote_link_unreachable).2.1,
    by decide⟩

/-- The fixture with the one proxy `(mars, 1)`, as in the unit test. -/
theorem empty_after_erase_of_only_proxy_witness :
    (fixture.get_or_put mars 1).2.well_formed ∧
    ((fixture.get_or_put mars 1).2.stored mars 1).isSome = true ∧
    (fixture.get_or_put mars 1).2.count_proxies mars = 1 ∧
    (((fixture.get_or_put mars 1).2.erase mars 1 error.remote_link_unreachable).empty = true ↔
      ∀ n', n' ≠ mars → unordered_map.find (fixture.get_or_put mars 1).2.nodes_ n' = none) ∧
    ((fixture.get_or_put mars 1).2.erase mars 1 error.remote_link_unreachable).empty = true :=
  ⟨by decide, by decide, by decide,
    proxy_registry.empty_after_erase_of_only_proxy (fixture.get_or_put mars 1).2
      (by decide) mars 1 error.remote_link_unreachable (by decide) (by decide),
    by decide⟩

namespace proxy_registry

variable {S : Type}

/-! ## The members `erase(nid)` and `clear()` -/

/-- C11: `erase(nid)` removes the whole node state of `nid`. Afterwards `nid`
has no node state, `count_proxies(nid)` is 0, `get(nid, a)` is null and no key
`(nid, a)` is resident for any `a`, and `get_all(nid)` is empty; the node
state (endpoint and proxies) of every other node, the actor system and the
factory are as before; and if `nid` had no node state the registry is
unchanged. -/
theorem erase_node_removes_node_state (r : proxy_registry S) (hwf : r.well_formed)
    (nid : node_id) :
    unordered_map.find (r.erase_node nid).nodes_ nid = none ∧
    (r.erase_node nid).count_proxies nid = 0 ∧
    (∀ a, (r.erase_node nid).get nid a = none) ∧
    (∀ a, (r.erase_node nid).stored nid a = none) ∧
    (r.erase_node nid).get_all nid = [] ∧
    (∀ n, n ≠ nid →
      unordered_map.find (r.erase_node nid).nodes_ n = unordered_map.find r.nodes_ n) ∧
    (∀ n a, n ≠ nid → (r.erase_node nid).get n a = r.get n a) ∧
    (r.erase_node nid).system_ = r.system_ ∧
    (r.erase_node nid).factory_ = r.factory_ ∧
    (unordered_map.find r.nodes_ nid = none → r.erase_node nid = r) := by
  have hf : unordered_map.find (r.erase_node nid).nodes_ nid = none := by
    rw [erase_node_eq]
    exact unordered_map.find_erase_self nid hwf.1
  refine ⟨hf, ?_, ?_, ?_, ?_, ?_, ?_, ?_, ?_, ?_⟩
  · simp [count_proxies, hf]
  · intro a
    exact get_eq_of_not_stored (stored_of_find_none a hf)
  · intro a
    exact stored_of_find_none a hf
  · simp [get_all, hf]
  · intro n hk
    rw [erase_node_eq]
    exact unordered_map.find_erase_ne _ (fun e => hk e.symm)
  · intro n a hk
    rw [get_eq_stored, get_eq_stored, stored_erase_node_of_ne r a (fun e => hk e.symm)]
  · rw [erase_node_eq]
  · rw [erase_node_eq]
  · intro hn
    rw [erase_node_eq, unordered_map.erase_of_find_none hn]

/-- C12: for every registry state, after `clear()` the node table is empty:
`empty()` returns true, and for every node `n` and actor id `a`
`count_proxies(n)` is 0, `get(n, a)` is null, no key is resident and
`get_all(n)` is empty. -/
theorem clear_empties_registry (r : proxy_registry S) :
    r.clear.empty = true ∧
    r.clear.nodes_ = [] ∧
    (∀ n, r.clear.count_proxies n = 0) ∧
    (∀ n a, r.clear.get n a = none) ∧
    (∀ n a, r.clear.stored n a = none) ∧
    (∀ n, r.clear.get_all n = []) := by
  rw [clear_eq]
  exact ⟨rfl, rfl, fun _ => rfl, fun _ _ => rfl, fun _ _ => rfl, fun _ => rfl⟩

end proxy_registry

/-- The fixture with the proxies `(mars, 1)`, `(mars, 2)` and `(mercury, 1)`;
the node `mars` is erased. -/
theorem erase_node_removes_node_state_witness :
    (((fixture.get_or_put mars 1).2.get_or_put mars 2).2.get_or_put mercury 1).2.well_formed ∧
    unordered_map.find
      ((((fixture.get_or_put mars 1).2.get_or_put mars 2).2.get_or_put
        mercury 1).2.erase_node mars).nodes_ mars = none ∧
    ((((fixture.get_or_put mars 1).2.get_or_put mars 2).2.get_or_put
      mercury 1).2.erase_node mars).count_proxies mars = 0 ∧
    ((((fixture.get_or_put mars 1).2.get_or_put mars 2).2.get_or_put
      mercury 1).2.erase_node mars).get mercury 1 = some 2 :=
  ⟨by decide,
    (proxy_registry.erase_node_removes_node_state
      (((fixture.get_or_put mars 1).2.get_or_put mars 2).2.get_or_put mercury 1).2
      (by decide) mars).1,
    (proxy_registry.erase_node_removes_node_state
      (((fixture.get_or_put mars 1).2.get_or_put mars 2).2.get_or_put mercury 1).2
      (by decide) mars).2.1,
    by decide⟩

/-- C13 fails on the code: the private `kill_proxy` of the registry returns
without doing anything, so `erase(nid)`, `erase(nid, aid, rsn)` and `clear()`
take proxies out of the node table and tell them nothing. For every registry
each of the three calls leaves the actor system, where the proxies live,
exactly as it was. On the fixture the proxy `(mars, 1)` is removed by each of
the three calls and the actor system after the call is the one before it. -/
theorem erase_and_clear_notify_no_proxy :
    (∀ (S : Type) (r : proxy_registry S) (nid : node_id) (aid : actor_id) (rsn : error)
        (p : strong_actor_ptr),
      r.kill_proxy p rsn = r ∧
      (r.erase nid aid rsn).system_ = r.system_ ∧
      (r.erase_node nid).system_ = r.system_ ∧
      r.clear.system_ = r.system_) ∧
    (fixture.get_or_put mars 1).2.get mars 1 = some 0 ∧
    ((fixture.get_or_put mars 1).2.erase mars 1 error.remote_link_unreachable).get mars 1
      = none ∧
    ((fixture.get_or_put mars 1).2.erase mars 1 error.remote_link_unreachable).system_
      = (fixture.get_or_put mars 1).2.system_ ∧
    ((fixture.get_or_put mars 1).2.erase_node mars).get mars 1 = none ∧
    ((fixture.get_or_put mars 1).2.erase_node mars).system_
      = (fixture.get_or_put mars 1).2.system_ ∧
    (fixture.get_or_put mars 1).2.clear.get mars 1 = none ∧
    (fixture.get_or_put mars 1).2.clear.system_ = (fixture.get_or_put mars 1).2.system_ := by
  refine ⟨?_, by decide, by decide, by decide, by decide, by decide, by decide, by decide⟩
  intro S r nid aid rsn p
  refine ⟨proxy_registry.kill_proxy_eq r p rsn, ?_, ?_, ?_⟩
  · cases hs : r.stored nid aid with
    | none => rw [proxy_registry.erase_of_not_stored rsn hs]
    | some q =>
      obtain ⟨st, hn, ha⟩ := proxy_registry.stored_eq_some_iff.1 hs
      rw [proxy_registry.erase_of_stored rsn hn ha]
      split <;> rfl
  · rw [proxy_registry.erase_node_eq]
  · rw [proxy_registry.clear_eq]

namespace proxy_registry

variable {S : Type}

/-! ## Deserializing an actor address -/

theorem factory_apply (r : proxy_registry S) (op : operation) :
    (r.apply op).factory_ = r.factory_ := by
  cases op with
  | count_proxies node => rfl
  | get node aid => rfl
  | get_all nid => rfl
  | empty => rfl
  | claim nid endpoint => rfl
  | erase_node nid => simp only [apply]; rw [erase_node_eq]
  | clear => simp only [apply]; rw [clear_eq]
  | erase nid aid rsn =>
    simp only [apply]
    cases hs : r.stored nid aid with
    | none => rw [erase_of_not_stored rsn hs]
    | some q =>
      obtain ⟨st, hn, ha⟩ := stored_eq_some_iff.1 hs
      rw [erase_of_stored rsn hn ha]
      split <;> rfl
  | get_or_put nid aid =>
    simp only [apply]
    cases hs : r.stored nid aid with
    | none => exact (get_or_put_of_not_stored hs).2.2.1
    | some q => rw [get_or_put_of_stored hs]

theorem factory_run (r : proxy_registry S) (ops : List operation) :
    (r.run ops).factory_ = r.factory_ := by
  induction ops generalizing r with
  | nil => rfl
  | cons op ops ih => simp only [run]; rw [ih, factory_apply]

theorem holds_no_null_apply {r : proxy_registry S}
    (hf : ∀ sys n a parent, (r.factory_ sys n a parent).1 ≠ none) (op : operation)
    (h : r.holds_no_null) : (r.apply op).holds_no_null := by
  cases op with
  | count_proxies node => exact h
  | get node aid => exact h
  | get_all nid => exact h
  | empty => exact h
  | clear =>
    simp only [apply]
    rw [clear_eq]
    intro e he
    simp at he
  | erase_node nid =>
    simp only [apply]
    rw [erase_node_eq]
    intro e he
    exact h e (unordered_map.mem_erase he)
  | claim nid endpoint =>
    simp only [apply]
    cases hn : unordered_map.find r.nodes_ nid with
    | none =>
      rw [claim_of_no_node endpoint hn]
      intro e he x hx
      simp only [List.mem_append, List.mem_singleton] at he
      cases he with
      | inl he => exact h e he x hx
      | inr he => rw [he] at hx; simp at hx
    | some st =>
      rw [claim_of_node endpoint hn]
      intro e he x hx
      cases unordered_map.mem_assign he with
      | inl he => exact h e he x hx
      | inr he =>
        rw [he] at hx
        exact h (nid, st) (unordered_map.mem_of_find_eq_some hn) x hx
  | erase nid aid rsn =>
    simp only [apply]
    cases hs : r.stored nid aid with
    | none => rw [erase_of_not_stored rsn hs]; exact h
    | some q =>
      obtain ⟨st, hn, ha⟩ := stored_eq_some_iff.1 hs
      rw [erase_of_stored rsn hn ha]
      split
      · intro e he
        exact h e (unordered_map.mem_erase he)
      · intro e he x hx
        cases unordered_map.mem_assign he with
        | inl he => exact h e he x hx
        | inr he =>
          rw [he] at hx
          exact h (nid, st) (unordered_map.mem_of_find_eq_some hn) x
            (unordered_map.mem_erase hx)
  | get_or_put nid aid =>
    simp only [apply]
    cases hs : r.stored nid aid with
    | some q => rw [get_or_put_of_stored hs]; exact h
    | none =>
      cases hn : unordered_map.find r.nodes_ nid with
      | none =>
        rw [get_or_put_of_no_node aid hn]
        intro e he x hx
        simp only [List.mem_append, List.mem_singleton] at he
        cases he with
        | inl he => exact h e he x hx
        | inr he =>
          rw [he] at hx
          simp only [List.mem_singleton] at hx
          rw [hx]
          exact hf _ _ _ _
      | some st =>
        have ha : unordered_map.find st.proxies aid = none := by
          rw [← stored_of_find aid hn]; exact hs
        rw [get_or_put_of_no_proxy hn ha]
        intro e he x hx
        cases unordered_map.mem_assign he with
        | inl he => exact h e he x hx
        | inr he =>
          rw [he] at hx
          simp only [List.mem_append, List.mem_singleton] at hx
          cases hx with
          | inl hx => exact h (nid, st) (unordered_map.mem_of_find_eq_some hn) x hx
          | inr hx => rw [hx]; exact hf _ _ _ _

theorem holds_no_null_run {r : proxy_registry S}
    (hf : ∀ sys n a parent, (r.factory_ sys n a parent).1 ≠ none) (ops : List operation)
    (h : r.holds_no_null) : (r.run ops).holds_no_null := by
  induction ops generalizing r with
  | nil => exact h
  | cons op ops ih =>
    simp only [run]
    apply ih
    · rw [factory_apply]; exact hf
    · exact holds_no_null_apply hf op h

theorem holds_no_null_started (sys : S) {f : factory S}
    (hf : ∀ s n a parent, (f s n a parent).1 ≠ none) (ops : List operation) :
    (started sys f ops).holds_no_null := by
  have hf' : ∀ s n a parent, (((create sys).init f).factory_ s n a parent).1 ≠ none := hf
  apply holds_no_null_run hf'
  intro e he
  simp [create, init] at he

theorem ne_none_of_stored {r : proxy_registry S} (h : r.holds_no_null) {n : node_id}
    {a : actor_id} {p : strong_actor_ptr} (hs : r.stored n a = some p) : p ≠ none := by
  obtain ⟨st, hn, ha⟩ := stored_eq_some_iff.1 hs
  exact h (n, st) (unordered_map.mem_of_find_eq_some hn) (a, p)
    (unordered_map.mem_of_find_eq_some ha)

theorem count_proxies_pos_of_stored {r : proxy_registry S} {n : node_id} {a : actor_id}
    {p : strong_actor_ptr} (hs : r.stored n a = some p) : 0 < r.count_proxies n := by
  obtain ⟨st, hn, ha⟩ := stored_eq_some_iff.1 hs
  rw [count_proxies_of_find hn]
  have := unordered_map.mem_of_find_eq_some ha
  exact List.length_pos_of_mem this

theorem read_of_remote {B : Type} (r : proxy_registry S) (d : deserializer B) {buf : B}
    {n : node_id} {a : actor_id} (hsrc : d.source buf = some (a, n)) (hremote : n ≠ d.home) :
    r.read d buf = some (r.get_or_put n a) := by
  simp [read, hsrc, hremote]

/-- C15: round trip of a remote actor address, on the codec as the spec
describes it. Take the registry of a system initialised with a factory that
returns non-null handles, after any member calls, and a serializer whose
output the deserializer reads back. For every remote node `n` and actor id
`a`, deserializing the serialized `(a, n)` as an actor handle yields what
`get_or_put(n, a)` yields: a non-null handle, interned in the registry
(`get(n, a)` returns it afterwards and `count_proxies(n)` counts it). When the
key was not resident before, the factory is invoked exactly once, for
`(n, a)`, and `count_proxies(n)` grows by one; when it was resident the
factory is not invoked. -/
theorem read_remote_address_interns {B : Type} (sys : S) (f : factory S)
    (hf : ∀ s n a parent, (f s n a parent).1 ≠ none) (ops : List operation)
    (d : deserializer B) (sink : actor_id → node_id → B)
    (hrt : ∀ a n, d.source (sink a n) = some (a, n))
    (n : node_id) (a : actor_id) (hremote : n ≠ d.home) :
    (started sys f ops).read d (sink a n) = some ((started sys f ops).get_or_put n a) ∧
    ((started sys f ops).get_or_put n a).1 ≠ none ∧
    ((started sys f ops).get_or_put n a).2.get n a =
      ((started sys f ops).get_or_put n a).1 ∧
    0 < ((started sys f ops).get_or_put n a).2.count_proxies n ∧
    ((started sys f ops).stored n a = none →
      ((started sys f ops).get_or_put n a).2.count_proxies n =
        (started sys f ops).count_proxies n + 1 ∧
      ∀ log : List factory_call,
        (((started sys f ops).recorded log).read d (sink a n)).map
            (fun out => (out.1, out.2.system_.2)) =
          some (((started sys f ops).get_or_put n a).1,
            log ++ [{ nid := n, aid := a, parent := (started sys f ops).parent_for n }])) ∧
    (∀ p, (started sys f ops).stored n a = some p →
      ∀ log : List factory_call,
        (((started sys f ops).recorded log).read d (sink a n)).map
            (fun out => (out.1, out.2.system_.2)) = some (p, log)) := by
  have hfac : (started sys f ops).factory_ = f := factory_run _ ops
  have hnn := holds_no_null_started sys hf ops
  have hstored := stored_after_get_or_put (started sys f ops) n a
  have hnn' : ((started sys f ops).get_or_put n a).2.holds_no_null := by
    have hf' : ∀ s n a parent, ((started sys f ops).factory_ s n a parent).1 ≠ none := by
      rw [hfac]; exact hf
    exact holds_no_null_apply hf' (operation.get_or_put n a) hnn
  refine ⟨read_of_remote _ d (hrt a n) hremote, ne_none_of_stored hnn' hstored,
    get_eq_of_stored hstored, count_proxies_pos_of_stored hstored, ?_, ?_⟩
  · intro hs
    refine ⟨(get_or_put_of_not_stored hs).2.2.2.2.1, ?_⟩
    intro log
    rw [read_of_remote _ d (hrt a n) hremote]
    have hs' : ((started sys f ops).recorded log).stored n a = none := hs
    obtain ⟨o1, o2, _⟩ := get_or_put_of_not_stored hs'
    obtain ⟨e1, _⟩ := get_or_put_of_not_stored hs
    simp only [Option.map_some', Option.some.injEq, Prod.mk.injEq]
    refine ⟨?_, ?_⟩
    · rw [o1, e1]; rfl
    · rw [o2]; rfl
  · intro p hs log
    rw [read_of_remote _ d (hrt a n) hremote]
    have hs' : ((started sys f ops).recorded log).stored n a = some p := hs
    rw [get_or_put_of_stored hs']
    rfl

end proxy_registry

/-- The deserialization test: the fresh fixture, the address `(1, mars)`. -/
theorem read_remote_address_interns_witness :
    (∀ s n a parent, (test_factory s n a parent).1 ≠ none) ∧
    (∀ a n, test_deserializer.source (test_sink a n) = some (a, n)) ∧
    mars ≠ test_deserializer.home ∧
    (proxy_registry.started { testees := [] } test_factory []).read test_deserializer
        (test_sink 1 mars) =
      some ((proxy_registry.started { testees := [] } test_factory []).get_or_put mars 1) ∧
    ((proxy_registry.started { testees := [] } test_factory []).get_or_put mars 1).1
      ≠ none ∧
    ((proxy_registry.started { testees := [] } test_factory []).get_or_put mars 1).2.get
        mars 1 =
      ((proxy_registry.started { testees := [] } test_factory []).get_or_put mars 1).1 ∧
    ((proxy_registry.started { testees := [] } test_factory []).get_or_put
      mars 1).2.count_proxies mars = 1 ∧
    ((proxy_registry.started { testees := [] } test_factory []).get_or_put
      mars 1).2.system_.testees.length = 1 :=
  by
  have hsrc : ∀ a n, test_deserializer.source (test_sink a n) = some (a, n) :=
    fun _ _ => rfl
  have h := proxy_registry.read_remote_address_interns ({ testees := [] } : test_system)
    test_factory (fun _ _ _ _ => Option.some_ne_none _) [] test_deserializer test_sink
    hsrc mars 1 (by decide)
  exact ⟨fun _ _ _ _ => Option.some_ne_none _, hsrc, by decide, h.1, h.2.1, h.2.2.1,
    by decide, by decide⟩

end caf

namespace caf

namespace io

namespace mailbox_type

/-! ## The mailbox -/

theorem try_block_elements (mb : mailbox_type) :
    mb.try_block.2.elements = mb.elements ∧ mb.try_block.2.closed = mb.closed ∧
      mb.try_block.2.deficit = mb.deficit := by
  unfold try_block
  split <;> exact ⟨rfl, rfl, rfl⟩

theorem elements_of_try_block {mb : mailbox_type} (h : mb.try_block.1 = true) :
    mb.elements = [] := by
  unfold try_block at h
  split at h
  · rename_i hc
    simp only [Bool.and_eq_true, List.isEmpty_iff] at hc
    exact hc.1.1
  · cases h

theorem try_block_of_open {mb : mailbox_type} (he : mb.elements = [])
    (hb : mb.blocked = false) (hc : mb.closed = false) :
    mb.try_block.1 = true ∧ mb.try_block.2.blocked = true := by
  simp [try_block, he, hb, hc]

theorem try_block_of_nonempty {mb : mailbox_type} (he : mb.elements ≠ []) :
    mb.try_block = (false, mb) := by
  unfold try_block
  cases hq : mb.elements with
  | nil => exact absurd hq he
  | cons x rest => simp

variable {σ : Type}

/-- A round that returns has consumed a prefix of the queue; what it counts
as consumed is what it took. -/
theorem consume_length (f : mailbox_element → σ → outcome (intrusive.task_result × σ))
    (q : List mailbox_element) (d c : Nat) (s : σ) {res : intrusive.new_round_result}
    {q' : List mailbox_element} {d' : Nat} {s' : σ}
    (h : consume f q d c s = outcome.ok (res, (q', d'), s')) :
    res.consumed_items + q'.length = c + q.length ∧ c ≤ res.consumed_items := by
  induction q generalizing d c s with
  | nil =>
    simp only [consume, outcome.ok.injEq, Prod.mk.injEq] at h
    obtain ⟨h1, ⟨h2, _⟩, _⟩ := h
    subst h1 h2
    exact ⟨rfl, Nat.le_refl _⟩
  | cons x rest ih =>
    cases d with
    | zero =>
      simp only [consume, outcome.ok.injEq, Prod.mk.injEq] at h
      obtain ⟨h1, ⟨h2, _⟩, _⟩ := h
      subst h1 h2
      exact ⟨rfl, Nat.le_refl _⟩
    | succ d =>
      simp only [consume] at h
      split at h
      · have := ih d (c + 1) _ h
        simp only [List.length_cons]
        omega
      · simp only [outcome.ok.injEq, Prod.mk.injEq] at h
        obtain ⟨h1, ⟨h2, _⟩, _⟩ := h
        subst h1 h2
        simp only [List.length_cons]
        omega
      · cases h
      · cases h

/-- With a visitor that always returns, a round returns, and it consumes a
record when the queue holds one and there is deficit. -/
theorem consume_returns (f : mailbox_element → σ → outcome (intrusive.task_result × σ))
    (hf : ∀ x s, ∃ t s', f x s = outcome.ok (t, s'))
    (q : List mailbox_element) (d c : Nat) (s : σ) :
    ∃ res q' d' s', consume f q d c s = outcome.ok (res, (q', d'), s') ∧
      (q ≠ [] → 0 < d → q'.length < q.length) := by
  induction q generalizing d c s with
  | nil => exact ⟨_, _, _, _, rfl, fun h => absurd rfl h⟩
  | cons x rest ih =>
    cases d with
    | zero => exact ⟨_, _, _, _, rfl, fun _ h => absurd h (Nat.lt_irrefl 0)⟩
    | succ d =>
      obtain ⟨t, s1, hv⟩ := hf x s
      cases t with
      | resume =>
        obtain ⟨res, q', d', s', hc, _⟩ := ih d (c + 1) s1
        refine ⟨res, q', d', s', ?_, ?_⟩
        · simp only [consume, hv]
          exact hc
        · intro _ _
          have := consume_length f rest d (c + 1) s1 hc
          simp only [List.length_cons]
          omega
      | stop_all =>
        refine ⟨{ consumed_items := c + 1, stop_all := true }, rest,
          if rest.isEmpty then 0 else d, s1, ?_, ?_⟩
        · simp only [consume, hv]
        · intro _ _
          simp

theorem new_round_flags (f : mailbox_element → σ → outcome (intrusive.task_result × σ))
    (mb : mailbox_type) (quantum : Nat) (s : σ) {res : intrusive.new_round_result}
    {mb' : mailbox_type} {s' : σ}
    (h : mb.new_round quantum f s = outcome.ok (res, mb', s')) :
    mb'.blocked = mb.blocked ∧ mb'.closed = mb.closed ∧
      res.consumed_items + mb'.elements.length = mb.elements.length := by
  unfold new_round at h
  split at h
  · rename_i he
    simp only [outcome.ok.injEq, Prod.mk.injEq] at h
    obtain ⟨h1, h2, _⟩ := h
    subst h1 h2
    simp
  · split at h
    · rename_i res0 queue deficit s0 hc
      simp only [outcome.ok.injEq, Prod.mk.injEq] at h
      obtain ⟨h1, h2, _⟩ := h
      have := consume_length f _ _ _ _ hc
      subst h1 h2
      refine ⟨rfl, rfl, ?_⟩
      show res0.consumed_items + queue.length = mb.elements.length
      omega
    · cases h
    · cases h

theorem new_round_returns (f : mailbox_element → σ → outcome (intrusive.task_result × σ))
    (hf : ∀ x s, ∃ t s', f x s = outcome.ok (t, s'))
    (mb : mailbox_type) (quantum : Nat) (hq : 0 < quantum) (s : σ) :
    ∃ res mb' s', mb.new_round quantum f s = outcome.ok (res, mb', s') ∧
      (mb.elements ≠ [] → mb'.elements.length < mb.elements.length) := by
  unfold new_round
  cases he : mb.elements with
  | nil =>
    exact ⟨{ consumed_items := 0, stop_all := false }, mb, s, by simp, fun h => absurd rfl h⟩
  | cons x rest =>
    obtain ⟨res, q', d', s', hc, hlt⟩ :=
      consume_returns f hf (x :: rest) (mb.deficit + quantum) 0 s
    refine ⟨res, { mb with elements := q', deficit := d' }, s', ?_, ?_⟩
    · simp [hc]
    · intro _
      exact hlt (by simp) (by omega)

end mailbox_type

end io

end caf

namespace caf

namespace io

namespace basp_proxy

/-! ## The visitor of `resume` -/

theorem visitor_of_no_broker (sys : home_system) {self : basp_proxy} (ctx : Option Nat)
    (max_throughput : Nat) (x : mailbox_element) (st : resume_state)
    (hb : self.broker_ = none) :
    visitor sys self ctx max_throughput x st = outcome.assertion_failed := by
  simp [visitor, hb]

theorem visitor_of_serialized (sys : home_system) {self : basp_proxy} (ctx : Option Nat)
    (max_throughput : Nat) {x : mailbox_element} (st : resume_state)
    (hb : self.broker_ ≠ none) {hdr : basp.header} {buf : List Nat}
    (hx : x.content = message.serialized hdr buf) :
    visitor sys self ctx max_throughput x st =
      outcome.ok (count_handled max_throughput st) := by
  simp [visitor, hb, hx]

theorem visitor_of_failure (sys : home_system) {self : basp_proxy} (ctx : Option Nat)
    (max_throughput : Nat) {x : mailbox_element} (st : resume_state)
    (hb : self.broker_ ≠ none) {payload : List Nat} (hx : x.content = message.other payload)
    (hs : sys.serialize x.stages x.content = none) :
    visitor sys self ctx max_throughput x st =
      outcome.ok (intrusive.task_result.stop_all, st) := by
  unfold visitor
  rw [if_neg hb]
  split
  · rename_i h; rw [hx] at h; cases h
  · rw [hs]

theorem visitor_of_buffer (sys : home_system) {self : basp_proxy} (ctx : Option Nat)
    (max_throughput : Nat) {x : mailbox_element} (st : resume_state)
    (hb : self.broker_ ≠ none) {payload : List Nat} (hx : x.content = message.other payload)
    {buf : List Nat} (hs : sys.serialize x.stages x.content = some buf) :
    visitor sys self ctx max_throughput x st =
      outcome.ok (count_handled max_throughput
        { st with
          broker_inbox := st.broker_inbox ++
            [eq_impl make_message_id (some self.ctrl_) ctx
              { dispatch_header sys self x with payload_len := buf.length % 2 ^ 32 } buf] }) := by
  unfold visitor
  rw [if_neg hb]
  split
  · rename_i h; rw [hx] at h; cases h
  · rw [hs]

/-- The three things the visitor does to a record when the broker is
present. -/
theorem visitor_cases (sys : home_system) {self : basp_proxy} (ctx : Option Nat)
    (max_throughput : Nat) (x : mailbox_element) (st : resume_state)
    (hb : self.broker_ ≠ none) :
    (∃ hdr buf, x.content = message.serialized hdr buf ∧
      visitor sys self ctx max_throughput x st =
        outcome.ok (count_handled max_throughput st)) ∨
    (∃ payload, x.content = message.other payload ∧
      sys.serialize x.stages x.content = none ∧
      visitor sys self ctx max_throughput x st =
        outcome.ok (intrusive.task_result.stop_all, st)) ∨
    (∃ payload buf, x.content = message.other payload ∧
      sys.serialize x.stages x.content = some buf ∧
      visitor sys self ctx max_throughput x st =
        outcome.ok (count_handled max_throughput
          { st with
            broker_inbox := st.broker_inbox ++
              [eq_impl make_message_id (some self.ctrl_) ctx
                { dispatch_header sys self x with
                  payload_len := buf.length % 2 ^ 32 } buf] })) := by
  cases hx : x.content with
  | serialized hdr buf =>
    exact Or.inl ⟨hdr, buf, rfl, visitor_of_serialized sys ctx max_throughput st hb hx⟩
  | other payload =>
    cases hs : sys.serialize x.stages x.content with
    | none =>
      exact Or.inr (Or.inl ⟨payload, rfl, by rw [← hx]; exact hs,
        visitor_of_failure sys ctx max_throughput st hb hx hs⟩)
    | some buf =>
      exact Or.inr (Or.inr ⟨payload, buf, rfl, by rw [← hx]; exact hs,
        visitor_of_buffer sys ctx max_throughput st hb hx hs⟩)

theorem visitor_returns (sys : home_system) {self : basp_proxy} (ctx : Option Nat)
    (max_throughput : Nat) (hb : self.broker_ ≠ none) (x : mailbox_element)
    (st : resume_state) :
    ∃ t st', visitor sys self ctx max_throughput x st = outcome.ok (t, st') := by
  rcases visitor_cases sys ctx max_throughput x st hb with
    ⟨_, _, _, h⟩ | ⟨_, _, _, h⟩ | ⟨_, _, _, _, h⟩
  · exact ⟨_, _, h⟩
  · exact ⟨_, _, h⟩
  · exact ⟨_, _, h⟩

theorem broker_of_visitor_ok {sys : home_system} {self : basp_proxy} {ctx : Option Nat}
    {max_throughput : Nat} {x : mailbox_element} {st : resume_state}
    {out : intrusive.task_result × resume_state}
    (h : visitor sys self ctx max_throughput x st = outcome.ok out) :
    self.broker_ ≠ none := by
  intro hb
  rw [visitor_of_no_broker sys ctx max_throughput x st hb] at h
  cases h

theorem count_handled_resume {max_throughput : Nat} {st st' : resume_state}
    (h : count_handled max_throughput st = (intrusive.task_result.resume, st')) :
    st'.handled_msgs < max_throughput := by
  unfold count_handled at h
  split at h
  · rename_i hlt
    simp only [Prod.mk.injEq, true_and] at h
    rw [← h]
    exact hlt
  · simp at h

/-- A visitor that says `resume` has not used up the throughput. -/
theorem visitor_resume {sys : home_system} {self : basp_proxy} {ctx : Option Nat}
    {max_throughput : Nat} {x : mailbox_element} {st st' : resume_state}
    (h : visitor sys self ctx max_throughput x st =
      outcome.ok (intrusive.task_result.resume, st')) :
    st'.handled_msgs < max_throughput := by
  have hb := broker_of_visitor_ok h
  rcases visitor_cases sys ctx max_throughput x st hb with
    ⟨_, _, _, hv⟩ | ⟨_, _, _, hv⟩ | ⟨_, _, _, _, hv⟩
  · rw [hv] at h
    exact count_handled_resume (outcome.ok.inj h)
  · rw [hv] at h
    have := outcome.ok.inj h
    simp at this
  · rw [hv] at h
    exact count_handled_resume (outcome.ok.inj h)

/-! ## The rounds of `resume` add up to `visit_all` -/

theorem visit_all_of_handled
    (f : mailbox_element → resume_state → outcome (intrusive.task_result × resume_state))
    {max_throughput : Nat} (q : List mailbox_element) {st : resume_state}
    (h : ¬ st.handled_msgs < max_throughput) : visit_all f max_throughput q st = (st, q) := by
  cases q with
  | nil => rfl
  | cons x rest => simp [visit_all, h]

theorem visit_all_single
    {f : mailbox_element → resume_state → outcome (intrusive.task_result × resume_state)}
    {max_throughput : Nat} {x : mailbox_element} {st : resume_state}
    {out : intrusive.task_result × resume_state} (hlt : st.handled_msgs < max_throughput)
    (h : f x st = outcome.ok out) :
    visit_all f max_throughput [x] st = (out.2, []) := by
  obtain ⟨t, st'⟩ := out
  simp [visit_all, hlt, h]

theorem visit_all_of_no_broker (sys : home_system) {self : basp_proxy} (ctx : Option Nat)
    (max_throughput : Nat) (q : List mailbox_element) (st : resume_state)
    (hb : self.broker_ = none) :
    visit_all (visitor sys self ctx max_throughput) max_throughput q st = (st, q) := by
  cases q with
  | nil => rfl
  | cons x rest =>
    simp only [visit_all, visitor_of_no_broker sys ctx max_throughput x st hb]
    split <;> rfl

theorem visit_all_consume
    (f : mailbox_element → resume_state → outcome (intrusive.task_result × resume_state))
    (max_throughput : Nat)
    (hf : ∀ x st st', f x st = outcome.ok (intrusive.task_result.resume, st') →
      st'.handled_msgs < max_throughput)
    (q : List mailbox_element) (d c : Nat) (st : resume_state)
    {res : intrusive.new_round_result} {q' : List mailbox_element} {d' : Nat}
    {st' : resume_state} (hlt : st.handled_msgs < max_throughput)
    (h : mailbox_type.consume f q d c st = outcome.ok (res, (q', d'), st')) :
    visit_all f max_throughput q st = visit_all f max_throughput q' st' := by
  induction q generalizing d c st with
  | nil =>
    simp only [mailbox_type.consume, outcome.ok.injEq, Prod.mk.injEq] at h
    obtain ⟨_, ⟨h2, _⟩, h3⟩ := h
    subst h2 h3
    rfl
  | cons x rest ih =>
    cases d with
    | zero =>
      simp only [mailbox_type.consume, outcome.ok.injEq, Prod.mk.injEq] at h
      obtain ⟨_, ⟨h2, _⟩, h3⟩ := h
      subst h2 h3
      rfl
    | succ d =>
      simp only [mailbox_type.consume] at h
      split at h
      · rename_i s1 hv
        have := ih d (c + 1) s1 (hf x st s1 hv) h
        simp only [visit_all, hlt, if_true, hv]
        exact this
      · rename_i s1 hv
        simp only [outcome.ok.injEq, Prod.mk.injEq] at h
        obtain ⟨_, ⟨h2, _⟩, h3⟩ := h
        subst h2 h3
        simp only [visit_all, hlt, if_true, hv]
      · cases h
      · cases h

theorem visit_all_new_round
    (f : mailbox_element → resume_state → outcome (intrusive.task_result × resume_state))
    (max_throughput : Nat)
    (hf : ∀ x st st', f x st = outcome.ok (intrusive.task_result.resume, st') →
      st'.handled_msgs < max_throughput)
    (mb : mailbox_type) (quantum : Nat) (st : resume_state)
    {res : intrusive.new_round_result} {mb' : mailbox_type} {st' : resume_state}
    (hlt : st.handled_msgs < max_throughput)
    (h : mb.new_round quantum f st = outcome.ok (res, mb', st')) :
    visit_all f max_throughput mb.elements st = visit_all f max_throughput mb'.elements st' := by
  unfold mailbox_type.new_round at h
  split at h
  · simp only [outcome.ok.injEq, Prod.mk.injEq] at h
    obtain ⟨_, h2, h3⟩ := h
    subst h2 h3
    rfl
  · split at h
    · rename_i res0 queue deficit s0 hc
      simp only [outcome.ok.injEq, Prod.mk.injEq] at h
      obtain ⟨_, h2, h3⟩ := h
      subst h2 h3
      exact visit_all_consume f max_throughput hf _ _ _ _ hlt hc
    · cases h
    · cases h

end basp_proxy

end io

end caf

namespace caf

namespace io

namespace basp_proxy

/-! ## The loop of `resume` -/

/-- When the loop returns, it has applied the visitor to the records of the
mailbox in order for as long as `handled_msgs < max_throughput`; it leaves the
records it did not get to, and nothing of the proxy but the mailbox changes. -/
theorem resume_loop_visit_all (sys : home_system) (ctx : Option Nat) (max_throughput : Nat)
    (fuel : Nat) (self : basp_proxy) (st : resume_state) {r : resume_result}
    {self' : basp_proxy} {st' : resume_state}
    (h : resume_loop sys ctx max_throughput fuel self st = outcome.ok (r, self', st')) :
    visit_all (visitor sys self ctx max_throughput) max_throughput self.mailbox_.elements st =
      (st', self'.mailbox_.elements) ∧
    self'.broker_ = self.broker_ ∧ self'.ctrl_ = self.ctrl_ ∧ self'.node_ = self.node_ ∧
    self'.id_ = self.id_ ∧ self'.mailbox_.closed = self.mailbox_.closed := by
  induction fuel generalizing self st with
  | zero => simp [resume_loop] at h
  | succ fuel ih =>
    unfold resume_loop at h
    split at h
    · rename_i hlt
      split at h
      · cases h
      · cases h
      · rename_i res mailbox st1 hr
        have hva := visit_all_new_round (visitor sys self ctx max_throughput) max_throughput
          (fun _ _ _ hv => visitor_resume hv) self.mailbox_ 3 st hlt hr
        have hfl := mailbox_type.new_round_flags _ self.mailbox_ 3 st hr
        split at h
        · rename_i hc
          simp only [outcome.ok.injEq, Prod.mk.injEq] at h
          obtain ⟨_, h2, h3⟩ := h
          subst h2 h3
          have he := mailbox_type.elements_of_try_block hc.2
          have ht := mailbox_type.try_block_elements mailbox
          refine ⟨?_, rfl, rfl, rfl, rfl, ?_⟩
          · rw [hva]
            show _ = (st1, mailbox.try_block.2.elements)
            rw [ht.1, he]
            rfl
          · show mailbox.try_block.2.closed = _
            rw [ht.2.1, hfl.2.1]
        · split at h
          · rename_i hb
            simp only [outcome.ok.injEq, Prod.mk.injEq] at h
            obtain ⟨_, h2, h3⟩ := h
            subst h2 h3
            refine ⟨?_, rfl, rfl, rfl, rfl, hfl.2.1⟩
            rw [hva]
            exact visit_all_of_no_broker sys ctx max_throughput _ _ hb
          · have := ih { self with mailbox_ := mailbox } st1 h
            obtain ⟨g1, g2, g3, g4, g5, g6⟩ := this
            refine ⟨?_, g2, g3, g4, g5, ?_⟩
            · rw [hva]
              exact g1
            · rw [g6]
              exact hfl.2.1
    · rename_i hge
      simp only [outcome.ok.injEq, Prod.mk.injEq] at h
      obtain ⟨_, h2, h3⟩ := h
      subst h2 h3
      have ht := mailbox_type.try_block_elements self.mailbox_
      refine ⟨?_, rfl, rfl, rfl, rfl, ht.2.1⟩
      rw [visit_all_of_handled _ _ hge]
      show _ = (st, self.mailbox_.try_block.2.elements)
      rw [ht.1]

/-- With the broker present and the mailbox neither blocked nor closed, the
loop returns once it is given more iterations than the mailbox holds records:
`awaiting_message` if it leaves the mailbox empty, which is blocked then, and
`resume_later` if not. -/
theorem resume_loop_returns (sys : home_system) (ctx : Option Nat) (max_throughput : Nat)
    (fuel : Nat) (self : basp_proxy) (st : resume_state) (hb : self.broker_ ≠ none)
    (hblocked : self.mailbox_.blocked = false) (hclosed : self.mailbox_.closed = false)
    (hfuel : self.mailbox_.elements.length < fuel) :
    ∃ self' st',
      resume_loop sys ctx max_throughput fuel self st =
        outcome.ok (if self'.mailbox_.elements = [] then resume_result.awaiting_message
          else resume_result.resume_later, self', st') ∧
      (self'.mailbox_.elements = [] → self'.mailbox_.blocked = true) := by
  induction fuel generalizing self st with
  | zero => exact absurd hfuel (Nat.not_lt_zero _)
  | succ fuel ih =>
    unfold resume_loop
    by_cases hlt : st.handled_msgs < max_throughput
    · rw [if_pos hlt]
      obtain ⟨res, mb, st1, hr, hshrink⟩ := mailbox_type.new_round_returns
        (visitor sys self ctx max_throughput)
        (visitor_returns sys ctx max_throughput hb) self.mailbox_ 3 (by decide) st
      have hfl := mailbox_type.new_round_flags _ self.mailbox_ 3 st hr
      rw [hr]
      simp only
      by_cases he : self.mailbox_.elements = []
      · have hmb : mb.elements = [] := by
          have := hfl.2.2
          rw [he] at this
          simp only [List.length_nil] at this
          exact List.length_eq_zero.1 (by omega)
        have hres : res.consumed_items = 0 := by
          have := hfl.2.2
          rw [he] at this
          simp only [List.length_nil] at this
          omega
        have ht := mailbox_type.try_block_of_open hmb (by rw [hfl.1]; exact hblocked)
          (by rw [hfl.2.1]; exact hclosed)
        have hte := mailbox_type.try_block_elements mb
        rw [if_pos ⟨hres, ht.1⟩]
        refine ⟨{ self with mailbox_ := mb.try_block.2 }, st1, ?_, fun _ => ht.2⟩
        have : mb.try_block.2.elements = [] := by rw [hte.1]; exact hmb
        simp [this]
      · have hlen := hshrink he
        have hres : ¬ (res.consumed_items = 0 ∧ mb.try_block.1 = true) := by
          rintro ⟨h0, _⟩
          have := hfl.2.2
          omega
        rw [if_neg hres, if_neg hb]
        exact ih { self with mailbox_ := mb } st1 hb (by rw [← hblocked]; exact hfl.1)
          (by rw [← hclosed]; exact hfl.2.1) (by show mb.elements.length < fuel; omega)
    · rw [if_neg hlt]
      have hte := mailbox_type.try_block_elements self.mailbox_
      by_cases he : self.mailbox_.elements = []
      · have ht := mailbox_type.try_block_of_open he hblocked hclosed
        refine ⟨{ self with mailbox_ := self.mailbox_.try_block.2 }, st, ?_, fun _ => ht.2⟩
        have : self.mailbox_.try_block.2.elements = [] := by rw [hte.1]; exact he
        simp [this, ht.1]
      · have ht := mailbox_type.try_block_of_nonempty he
        refine ⟨{ self with mailbox_ := self.mailbox_.try_block.2 }, st, ?_, ?_⟩
        · have : ¬ self.mailbox_.try_block.2.elements = [] := by rw [hte.1]; exact he
          rw [if_neg this, ht]
          simp
        · intro h
          rw [hte.1] at h
          exact absurd h he

/-- One call of `resume` on a proxy with a broker whose mailbox is neither
blocked nor closed: it returns, having applied the visitor to the records in
order for as long as fewer than `max_throughput` were handled. -/
theorem resume_eq_visit_all (sys : home_system) (self : basp_proxy) (ctx : Option Nat)
    (max_throughput : Nat) (hb : self.broker_ ≠ none)
    (hblocked : self.mailbox_.blocked = false) (hclosed : self.mailbox_.closed = false) :
    ∃ self' st',
      resume sys self ctx max_throughput =
        outcome.ok (if self'.mailbox_.elements = [] then resume_result.awaiting_message
          else resume_result.resume_later, self', st') ∧
      visit_all (visitor sys self ctx max_throughput) max_throughput self.mailbox_.elements
        { handled_msgs := 0, broker_inbox := [] } = (st', self'.mailbox_.elements) ∧
      self'.broker_ = self.broker_ ∧ self'.ctrl_ = self.ctrl_ ∧ self'.node_ = self.node_ ∧
      self'.id_ = self.id_ ∧ self'.mailbox_.closed = false ∧
      (self'.mailbox_.elements = [] → self'.mailbox_.blocked = true) := by
  obtain ⟨self', st', hr, hbl⟩ := resume_loop_returns sys ctx max_throughput
    (self.mailbox_.elements.length + 1) self { handled_msgs := 0, broker_inbox := [] }
    hb hblocked hclosed (Nat.lt_succ_self _)
  obtain ⟨g1, g2, g3, g4, g5, g6⟩ := resume_loop_visit_all sys ctx max_throughput _ _ _ hr
  exact ⟨self', st', hr, g1, g2, g3, g4, g5, by rw [g6]; exact hclosed, hbl⟩

end basp_proxy

end io

end caf

namespace caf

namespace io

namespace basp_proxy

/-! ## What reaches the broker -/

theorem visitor_inbox {sys : home_system} {self : basp_proxy} {ctx : Option Nat}
    {max_throughput : Nat} {x : mailbox_element} {st : resume_state}
    {t : intrusive.task_result} {st' : resume_state}
    (h : visitor sys self ctx max_throughput x st = outcome.ok (t, st')) :
    st'.broker_inbox = st.broker_inbox ∨
      ∃ out, forwards sys self ctx x out ∧ st'.broker_inbox = st.broker_inbox ++ [out] := by
  have hb := broker_of_visitor_ok h
  rcases visitor_cases sys ctx max_throughput x st hb with
    ⟨_, _, _, hv⟩ | ⟨_, _, _, hv⟩ | ⟨payload, buf, hx, hs, hv⟩
  · rw [hv] at h
    have := outcome.ok.inj h
    simp only [count_handled, Prod.mk.injEq] at this
    rw [← this.2]
    exact Or.inl rfl
  · rw [hv] at h
    have := outcome.ok.inj h
    simp only [Prod.mk.injEq] at this
    rw [← this.2]
    exact Or.inl rfl
  · rw [hv] at h
    have := outcome.ok.inj h
    simp only [count_handled, Prod.mk.injEq] at this
    rw [← this.2]
    exact Or.inr ⟨_, ⟨payload, buf, hx, hs, rfl⟩, rfl⟩

/-- Every record in the broker's inbox after `visit_all` was there before or
is what the visitor enqueues for a record of the mailbox. -/
theorem visit_all_inbox (sys : home_system) (self : basp_proxy) (ctx : Option Nat)
    (max_throughput : Nat) (q : List mailbox_element) (st : resume_state) :
    ∀ out ∈ (visit_all (visitor sys self ctx max_throughput) max_throughput q
        st).1.broker_inbox,
      out ∈ st.broker_inbox ∨ ∃ x ∈ q, forwards sys self ctx x out := by
  induction q generalizing st with
  | nil => intro out h; exact Or.inl h
  | cons x rest ih =>
    intro out h
    simp only [visit_all] at h
    split at h
    · split at h
      · rename_i t st1 hv
        cases ih st1 out h with
        | inr h' =>
          obtain ⟨y, hy, hf⟩ := h'
          exact Or.inr ⟨y, List.mem_cons_of_mem _ hy, hf⟩
        | inl h' =>
          cases visitor_inbox hv with
          | inl he => rw [he] at h'; exact Or.inl h'
          | inr he =>
            obtain ⟨o, hf, he⟩ := he
            rw [he, List.mem_append, List.mem_singleton] at h'
            cases h' with
            | inl h'' => exact Or.inl h''
            | inr h'' => rw [h'']; exact Or.inr ⟨x, List.mem_cons_self _ _, hf⟩
      · exact Or.inl h
    · exact Or.inl h

/-- Every record one call of `resume` enqueues to the broker is what the
visitor enqueues for a record of the mailbox. -/
theorem resume_inbox {sys : home_system} {self : basp_proxy} {ctx : Option Nat}
    {max_throughput : Nat} {r : resume_result} {self' : basp_proxy} {st' : resume_state}
    (h : resume sys self ctx max_throughput = outcome.ok (r, self', st')) :
    ∀ out ∈ st'.broker_inbox, ∃ x ∈ self.mailbox_.elements, forwards sys self ctx x out := by
  intro out hout
  have hva := (resume_loop_visit_all sys ctx max_throughput _ _ _ h).1
  have := visit_all_inbox sys self ctx max_throughput self.mailbox_.elements
    { handled_msgs := 0, broker_inbox := [] } out (by rw [hva]; exact hout)
  cases this with
  | inl h' => simp at h'
  | inr h' => exact h'

/-- C16: for every record that one call of `resume` enqueues to the broker
there is an ordinary (not serialized yet) record `x` of the mailbox whose
serialization it carries, and its header has `kind = dispatch_message`, the
message id of `x` as `operation_id`, the node and actor id of the proxy as
destination, and as source the node and id of the sender of `x` when `x` has
a sender, the local node and 0 when it has none. -/
theorem resume_dispatch_header (sys : home_system) (self : basp_proxy) (ctx : Option Nat)
    (max_throughput : Nat) (r : resume_result) (self' : basp_proxy) (st' : resume_state)
    (h : resume sys self ctx max_throughput = outcome.ok (r, self', st')) :
    ∀ out ∈ st'.broker_inbox, ∃ x ∈ self.mailbox_.elements, ∃ payload buf hdr,
      x.content = message.other payload ∧
      sys.serialize x.stages x.content = some buf ∧
      out.content = message.serialized hdr buf ∧
      hdr.kind = basp.message_type.dispatch_message ∧
      hdr.operation_id = x.mid.integer_value ∧
      hdr.dest_node = self.node_ ∧
      hdr.dest_actor_id = self.id_ ∧
      (∀ s, x.sender = some s →
        hdr.source_node = (sys.control_block s).nid ∧
        hdr.source_actor_id = (sys.control_block s).aid) ∧
      (x.sender = none → hdr.source_node = sys.node ∧ hdr.source_actor_id = 0) := by
  intro out hout
  obtain ⟨x, hx, payload, buf, hc, hs, ho⟩ := resume_inbox h out hout
  refine ⟨x, hx, payload, buf,
    { dispatch_header sys self x with payload_len := buf.length % 2 ^ 32 },
    hc, hs, ?_, rfl, rfl, rfl, rfl, ?_, ?_⟩
  · rw [ho]; rfl
  · intro s hsender
    simp [dispatch_header, hsender]
  · intro hsender
    simp [dispatch_header, hsender]

/-- C17, as the code has it: for every record that one call of `resume`
enqueues to the broker, the header's `payload_len` is the length in bytes of
the buffer delivered with it, reduced modulo 2^32 by the cast to `uint32_t`;
it equals the length whenever the buffer is shorter than 2^32 bytes. The
buffer is the serialization of a record of the mailbox. -/
theorem resume_payload_len (sys : home_system) (self : basp_proxy) (ctx : Option Nat)
    (max_throughput : Nat) (r : resume_result) (self' : basp_proxy) (st' : resume_state)
    (h : resume sys self ctx max_throughput = outcome.ok (r, self', st')) :
    ∀ out ∈ st'.broker_inbox, ∃ hdr buf,
      out.content = message.serialized hdr buf ∧
      hdr.payload_len = buf.length % 2 ^ 32 ∧
      (buf.length < 2 ^ 32 → hdr.payload_len = buf.length) ∧
      ∃ x ∈ self.mailbox_.elements, sys.serialize x.stages x.content = some buf := by
  intro out hout
  obtain ⟨x, hx, payload, buf, _, hs, ho⟩ := resume_inbox h out hout
  refine ⟨{ dispatch_header sys self x with payload_len := buf.length % 2 ^ 32 }, buf,
    ?_, rfl, ?_, x, hx, hs⟩
  · rw [ho]; rfl
  · intro hlt
    exact Nat.mod_eq_of_lt hlt

end basp_proxy

/-- Two records in the mailbox of `test_proxy`, the second without a
sender. -/
theorem resume_dispatch_header_witness :
    basp_proxy.resume test_home
        (test_proxy [test_record 11 [1], { test_record 12 [2, 2] with sender := none }])
        none 5 =
      outcome.ok (resume_result.awaiting_message, test_proxy_blocked,
        { handled_msgs := 2,
          broker_inbox := [test_delivery 11 [1],
            { test_delivery 12 [2, 2] with
              content := message.serialized
                { kind := basp.message_type.dispatch_message, flags := 0, payload_len := 3,
                  operation_id := 12, source_node := test_home.node, dest_node := mars,
                  source_actor_id := 0, dest_actor_id := 1 } [0, 2, 2] }] }) ∧
    ∀ out ∈ [test_delivery 11 [1],
        { test_delivery 12 [2, 2] with
          content := message.serialized
            { kind := basp.message_type.dispatch_message, flags := 0, payload_len := 3,
              operation_id := 12, source_node := test_home.node, dest_node := mars,
              source_actor_id := 0, dest_actor_id := 1 } [0, 2, 2] }],
      ∃ x ∈ [test_record 11 [1], { test_record 12 [2, 2] with sender := none }],
        ∃ payload buf hdr,
          x.content = message.other payload ∧
          test_home.serialize x.stages x.content = some buf ∧
          out.content = message.serialized hdr buf ∧
          hdr.kind = basp.message_type.dispatch_message ∧
          hdr.operation_id = x.mid.integer_value ∧
          hdr.dest_node = mars ∧
          hdr.dest_actor_id = 1 ∧
          (∀ s, x.sender = some s →
            hdr.source_node = (test_home.control_block s).nid ∧
            hdr.source_actor_id = (test_home.control_block s).aid) ∧
          (x.sender = none → hdr.source_node = test_home.node ∧ hdr.source_actor_id = 0) :=
  by
  have h : basp_proxy.resume test_home
        (test_proxy [test_record 11 [1], { test_record 12 [2, 2] with sender := none }])
        none 5 =
      outcome.ok (resume_result.awaiting_message, test_proxy_blocked,
        { handled_msgs := 2,
          broker_inbox := [test_delivery 11 [1],
            { test_delivery 12 [2, 2] with
              content := message.serialized
                { kind := basp.message_type.dispatch_message, flags := 0, payload_len := 3,
                  operation_id := 12, source_node := test_home.node, dest_node := mars,
                  source_actor_id := 0, dest_actor_id := 1 } [0, 2, 2] }] }) := by
    decide
  exact ⟨h, basp_proxy.resume_dispatch_header _ _ _ _ _ _ _ h⟩

/-- One record in the mailbox of `test_proxy`; its serialization has two
bytes. -/
theorem resume_payload_len_witness :
    basp_proxy.resume test_home (test_proxy [test_record 11 [1]]) none 5 =
      outcome.ok (resume_result.awaiting_message, test_proxy_blocked,
        { handled_msgs := 1, broker_inbox := [test_delivery 11 [1]] }) ∧
    ∀ out ∈ [test_delivery 11 [1]], ∃ hdr buf,
      out.content = message.serialized hdr buf ∧
      hdr.payload_len = buf.length % 2 ^ 32 ∧
      (buf.length < 2 ^ 32 → hdr.payload_len = buf.length) ∧
      ∃ x ∈ [test_record 11 [1]], test_home.serialize x.stages x.content = some buf :=
  by
  have h : basp_proxy.resume test_home (test_proxy [test_record 11 [1]]) none 5 =
      outcome.ok (resume_result.awaiting_message, test_proxy_blocked,
        { handled_msgs := 1, broker_inbox := [test_delivery 11 [1]] }) := by
    decide
  exact ⟨h, basp_proxy.resume_payload_len _ _ _ _ _ _ _ h⟩

end io

end caf

namespace caf

namespace io

/-- C17 fails as stated: when the serialization of a record has 2^32 bytes,
the header that `resume` delivers with it has `payload_len = 0`. -/
theorem payload_len_wraps_at_two_pow_32 :
    (List.replicate (2 ^ 32) 0).length = 2 ^ 32 ∧
    ∃ self' out hdr,
      basp_proxy.resume huge_home (test_proxy [test_record 11 [1]]) none 5 =
        outcome.ok (resume_result.awaiting_message, self',
          { handled_msgs := 1, broker_inbox := [out] }) ∧
      out.content = message.serialized hdr (List.replicate (2 ^ 32) 0) ∧
      hdr.payload_len = 0 := by
  have hlen : (List.replicate (2 ^ 32) 0).length = 2 ^ 32 := List.length_replicate _ _
  have hmod : (List.replicate (2 ^ 32) 0).length % 2 ^ 32 = 0 := by
    rw [hlen]
    exact Nat.mod_self _
  refine ⟨hlen, ?_⟩
  have hb : (test_proxy [test_record 11 [1]]).broker_ ≠ none := by
    simp [test_proxy]
  obtain ⟨self', st', hr, hva, _⟩ := basp_proxy.resume_eq_visit_all huge_home
    (test_proxy [test_record 11 [1]]) none 5 hb rfl rfl
  have hv := basp_proxy.visitor_of_buffer huge_home none 5
    { handled_msgs := 0, broker_inbox := [] } hb
    (show (test_record 11 [1]).content = message.other [1] from rfl)
    (show huge_home.serialize (test_record 11 [1]).stages (test_record 11 [1]).content =
      some (List.replicate (2 ^ 32) 0) from rfl)
  have hq : (test_proxy [test_record 11 [1]]).mailbox_.elements = [test_record 11 [1]] := rfl
  have h0 : ({ handled_msgs := 0, broker_inbox := [] } : resume_state).handled_msgs < 5 := by
    decide
  rw [hq, basp_proxy.visit_all_single h0 hv] at hva
  have hst := (Prod.mk.inj hva).1
  have hel := (Prod.mk.inj hva).2
  rw [← hel, if_pos rfl, ← hst] at hr
  refine ⟨self', _, { basp_proxy.dispatch_header huge_home (test_proxy [test_record 11 [1]])
    (test_record 11 [1]) with payload_len := 0 }, hr, ?_, rfl⟩
  show message.serialized
      { basp_proxy.dispatch_header huge_home (test_proxy [test_record 11 [1]])
          (test_record 11 [1]) with
        payload_len := (List.replicate (2 ^ 32) 0).length % 2 ^ 32 }
      (List.replicate (2 ^ 32) 0) = _
  rw [hmod]

/-- C18 fails on the code: the branch of the visitor for a record that is
serialized already is empty. Whenever the broker is present the visitor
counts such a record as handled and leaves the broker's inbox as it was; one
call of `resume` on a mailbox that holds one such record consumes it and
enqueues nothing to the broker. -/
theorem resume_drops_serialized_record :
    (∀ (sys : home_system) (self : basp_proxy) (ctx : Option Nat) (max_throughput : Nat)
        (x : mailbox_element) (st : resume_state) (hdr : basp.header) (buf : List Nat),
      self.broker_ ≠ none → x.content = message.serialized hdr buf →
      basp_proxy.visitor sys self ctx max_throughput x st =
        outcome.ok (basp_proxy.count_handled max_throughput st) ∧
      (basp_proxy.count_handled max_throughput st).2.broker_inbox = st.broker_inbox) ∧
    (test_proxy [test_serialized_record]).broker_ = some 7 ∧
    test_serialized_record.content =
      message.serialized
        { kind := basp.message_type.dispatch_message, flags := 0, payload_len := 2,
          operation_id := 3, source_node := mercury, dest_node := mars,
          source_actor_id := 4, dest_actor_id := 1 } [8, 9] ∧
    basp_proxy.resume test_home (test_proxy [test_serialized_record]) none 10 =
      outcome.ok (resume_result.awaiting_message, test_proxy_blocked,
        { handled_msgs := 1, broker_inbox := [] }) := by
  refine ⟨?_, by decide, by decide, by decide⟩
  intro sys self ctx max_throughput x st hdr buf hb hx
  exact ⟨basp_proxy.visitor_of_serialized sys ctx max_throughput st hb hx, rfl⟩

end io

end caf

namespace caf

namespace io

namespace basp_proxy

/-! ## Records that serialize, and one that does not -/

theorem visit_all_append
    (f : mailbox_element → resume_state → outcome (intrusive.task_result × resume_state))
    (max_throughput : Nat) (q1 q2 : List mailbox_element) (st : resume_state)
    {st1 : resume_state} (h : visit_all f max_throughput q1 st = (st1, [])) :
    visit_all f max_throughput (q1 ++ q2) st = visit_all f max_throughput q2 st1 := by
  induction q1 generalizing st with
  | nil =>
    simp only [visit_all, Prod.mk.injEq, and_true] at h
    rw [h]
    rfl
  | cons x rest ih =>
    simp only [visit_all] at h
    split at h
    · rename_i hlt
      split at h
      · rename_i t s1 hv
        simp only [List.cons_append, visit_all, hlt, if_true, hv]
        exact ih s1 h
      · simp at h
    · simp at h

/-- The visitor applied to records that all serialize, within the
throughput: each is handled, and the broker's inbox grows by what the visitor
enqueues for each, in the order of the records. -/
theorem visit_all_of_forwardable (sys : home_system) (self : basp_proxy) (ctx : Option Nat)
    (max_throughput : Nat) (hb : self.broker_ ≠ none) (q : List mailbox_element)
    (st : resume_state) (hgood : ∀ x ∈ q, ∃ out, forwards sys self ctx x out)
    (hlen : st.handled_msgs + q.length ≤ max_throughput) :
    ∃ outs, List.Forall₂ (forwards sys self ctx) q outs ∧
      visit_all (visitor sys self ctx max_throughput) max_throughput q st =
        ({ handled_msgs := st.handled_msgs + q.length,
           broker_inbox := st.broker_inbox ++ outs }, []) := by
  induction q generalizing st with
  | nil =>
    refine ⟨[], List.Forall₂.nil, ?_⟩
    simp [visit_all]
  | cons x rest ih =>
    obtain ⟨out, payload, buf, hx, hs, hout⟩ := hgood x (List.mem_cons_self _ _)
    have hlt : st.handled_msgs < max_throughput := by
      simp only [List.length_cons] at hlen
      omega
    have hv := visitor_of_buffer sys ctx max_throughput st hb hx hs
    rw [← hout] at hv
    obtain ⟨outs, hrel, hva⟩ := ih
      (count_handled max_throughput
        { st with broker_inbox := st.broker_inbox ++ [out] }).2
      (fun y hy => hgood y (List.mem_cons_of_mem _ hy))
      (by simp only [count_handled, List.length_cons] at hlen ⊢; omega)
    refine ⟨out :: outs, List.Forall₂.cons ⟨payload, buf, hx, hs, hout⟩ hrel, ?_⟩
    simp only [visit_all, hlt, if_true, hv]
    rw [hva]
    simp only [count_handled, List.length_cons, List.append_assoc, List.singleton_append,
      Prod.mk.injEq, and_true, resume_state.mk.injEq]
    omega

theorem new_round_of_failure (sys : home_system) {self : basp_proxy} (ctx : Option Nat)
    (max_throughput : Nat) {x : mailbox_element} (hb : self.broker_ ≠ none)
    {payload : List Nat} (hx : x.content = message.other payload)
    (hs : sys.serialize x.stages x.content = none) (mb : mailbox_type)
    (rest : List mailbox_element) (st : resume_state) (he : mb.elements = x :: rest) :
    mb.new_round 3 (visitor sys self ctx max_throughput) st =
      outcome.ok ({ consumed_items := 1, stop_all := true },
        { mb with elements := rest, deficit := if rest.isEmpty then 0 else mb.deficit + 2 },
        st) := by
  have hv := visitor_of_failure sys ctx max_throughput st hb hx hs
  unfold mailbox_type.new_round
  rw [he]
  simp only [List.isEmpty_cons, Bool.false_eq_true, if_false]
  have hd : mb.deficit + 3 = (mb.deficit + 2) + 1 := rfl
  rw [hd]
  simp only [mailbox_type.consume, hv]

/-- C19: let the serialization of the ordinary record `x` fail. Then the
visitor of `resume` returns `stop_all` for `x` and leaves its state as it
was: nothing is enqueued to the broker and `x` is not counted as handled. A
round that starts at `x` ends there with `stop_all`, having consumed `x`
alone. And the proxy stays alive: when the records before and behind `x` in
the mailbox all serialize and are fewer than `max_throughput`, one call of
`resume` enqueues to the broker what the visitor enqueues for each of them, in
order and nothing else, and returns `awaiting_message` with the mailbox empty
and not closed and the broker still in its slot. -/
theorem resume_survives_serialization_failure (sys : home_system) (self : basp_proxy)
    (ctx : Option Nat) (max_throughput : Nat) (x : mailbox_element) (payload : List Nat)
    (hb : self.broker_ ≠ none) (hx : x.content = message.other payload)
    (hs : sys.serialize x.stages x.content = none) :
    (∀ st, visitor sys self ctx max_throughput x st =
      outcome.ok (intrusive.task_result.stop_all, st)) ∧
    (∀ (mb : mailbox_type) (rest : List mailbox_element) (st : resume_state),
      mb.elements = x :: rest →
      ∃ mb', mb.new_round 3 (visitor sys self ctx max_throughput) st =
          outcome.ok ({ consumed_items := 1, stop_all := true }, mb', st) ∧
        mb'.elements = rest) ∧
    (∀ pre post : List mailbox_element,
      self.mailbox_.elements = pre ++ x :: post →
      self.mailbox_.blocked = false → self.mailbox_.closed = false →
      (∀ y ∈ pre ++ post, ∃ out, forwards sys self ctx y out) →
      pre.length + post.length < max_throughput →
      ∃ self' inbox,
        resume sys self ctx max_throughput =
          outcome.ok (resume_result.awaiting_message, self',
            { handled_msgs := pre.length + post.length, broker_inbox := inbox }) ∧
        List.Forall₂ (forwards sys self ctx) (pre ++ post) inbox ∧
        self'.broker_ = self.broker_ ∧ self'.mailbox_.closed = false ∧
        self'.mailbox_.elements = []) := by
  refine ⟨fun st => visitor_of_failure sys ctx max_throughput st hb hx hs, ?_, ?_⟩
  · intro mb rest st he
    exact ⟨_, new_round_of_failure sys ctx max_throughput hb hx hs mb rest st he, rfl⟩
  · intro pre post he hblocked hclosed hgood hlen
    obtain ⟨self', st', hr, hva, hbr, _, _, _, hcl, _⟩ :=
      resume_eq_visit_all sys self ctx max_throughput hb hblocked hclosed
    obtain ⟨outs1, hrel1, h1⟩ := visit_all_of_forwardable sys self ctx max_throughput hb pre
      { handled_msgs := 0, broker_inbox := [] }
      (fun y hy => hgood y (List.mem_append_left _ hy)) (by simp only; omega)
    obtain ⟨outs2, hrel2, h2⟩ := visit_all_of_forwardable sys self ctx max_throughput hb post
      { handled_msgs := 0 + pre.length, broker_inbox := [] ++ outs1 }
      (fun y hy => hgood y (List.mem_append_right _ hy)) (by simp only; omega)
    have hlt : 0 + pre.length < max_throughput := by omega
    have hv := visitor_of_failure sys ctx max_throughput
      { handled_msgs := 0 + pre.length, broker_inbox := [] ++ outs1 } hb hx hs
    have hall : visit_all (visitor sys self ctx max_throughput) max_throughput
        (pre ++ x :: post) { handled_msgs := 0, broker_inbox := [] } =
        ({ handled_msgs := 0 + pre.length + post.length,
           broker_inbox := [] ++ outs1 ++ outs2 }, []) := by
      rw [visit_all_append _ _ _ _ _ h1]
      simp only [visit_all, hlt, if_true, hv]
      exact h2
    rw [he, hall] at hva
    have hst := (Prod.mk.inj hva).1
    have hel := (Prod.mk.inj hva).2
    rw [← hel, if_pos rfl, ← hst] at hr
    refine ⟨self', outs1 ++ outs2, ?_, List.rel_append hrel1 hrel2, hbr, hcl, hel.symm⟩
    rw [hr]
    simp

/-- C20: for a proxy with a present broker whose mailbox is neither blocked
nor closed and holds `k` records that are ordinary and serialize, with
`k ≤ max_throughput`, and no record arriving meanwhile, one call of `resume`
returns and has enqueued exactly `k` records to the broker, one for each
record of the mailbox and in the order of the mailbox, each what the visitor
enqueues for that record and each with the proxy as the sender; the mailbox
is empty afterwards. -/
theorem resume_forwards_all_in_order (sys : home_system) (self : basp_proxy)
    (ctx : Option Nat) (max_throughput : Nat) (hb : self.broker_ ≠ none)
    (hblocked : self.mailbox_.blocked = false) (hclosed : self.mailbox_.closed = false)
    (hgood : ∀ x ∈ self.mailbox_.elements, ∃ out, forwards sys self ctx x out)
    (hk : self.mailbox_.elements.length ≤ max_throughput) :
    ∃ self' inbox,
      resume sys self ctx max_throughput =
        outcome.ok (resume_result.awaiting_message, self',
          { handled_msgs := self.mailbox_.elements.length, broker_inbox := inbox }) ∧
      List.Forall₂ (forwards sys self ctx) self.mailbox_.elements inbox ∧
      inbox.length = self.mailbox_.elements.length ∧
      (∀ out ∈ inbox, out.sender = some self.ctrl_) ∧
      self'.mailbox_.elements = [] ∧ self'.broker_ = self.broker_ := by
  obtain ⟨self', st', hr, hva, hbr, _⟩ :=
    resume_eq_visit_all sys self ctx max_throughput hb hblocked hclosed
  obtain ⟨outs, hrel, h1⟩ := visit_all_of_forwardable sys self ctx max_throughput hb
    self.mailbox_.elements { handled_msgs := 0, broker_inbox := [] } hgood
    (by simp only; omega)
  rw [h1] at hva
  have hst := (Prod.mk.inj hva).1
  have hel := (Prod.mk.inj hva).2
  rw [← hel, if_pos rfl, ← hst] at hr
  refine ⟨self', outs, ?_, hrel, hrel.length_eq.symm, ?_, hel.symm, hbr⟩
  · rw [hr]
    simp
  · intro out hout
    obtain ⟨y, _, _, _, _, _, ho⟩ := resume_inbox hr out (by simpa using hout)
    rw [ho]
    rfl

end basp_proxy

end io

end caf

namespace caf

namespace io

/-- Three records in the mailbox of `test_proxy`; the serialization of the
second fails. -/
theorem resume_survives_serialization_failure_witness :
    (test_proxy [test_record 11 [1], test_record 12 [0], test_record 13 [3, 3]]).broker_
      ≠ none ∧
    (test_record 12 [0]).content = message.other [0] ∧
    test_home.serialize (test_record 12 [0]).stages (test_record 12 [0]).content = none ∧
    basp_proxy.visitor test_home
        (test_proxy [test_record 11 [1], test_record 12 [0], test_record 13 [3, 3]]) none 10
        (test_record 12 [0]) { handled_msgs := 1, broker_inbox := [test_delivery 11 [1]] } =
      outcome.ok (intrusive.task_result.stop_all,
        { handled_msgs := 1, broker_inbox := [test_delivery 11 [1]] }) ∧
    basp_proxy.resume test_home
        (test_proxy [test_record 11 [1], test_record 12 [0], test_record 13 [3, 3]]) none 10 =
      outcome.ok (resume_result.awaiting_message, test_proxy_blocked,
        { handled_msgs := 2,
          broker_inbox := [test_delivery 11 [1], test_delivery 13 [3, 3]] }) :=
  ⟨by decide, rfl, rfl,
    (basp_proxy.resume_survives_serialization_failure test_home
      (test_proxy [test_record 11 [1], test_record 12 [0], test_record 13 [3, 3]]) none 10
      (test_record 12 [0]) [0] (by decide) rfl rfl).1
      { handled_msgs := 1, broker_inbox := [test_delivery 11 [1]] },
    by decide⟩

/-- Two records that serialize in the mailbox of `test_proxy`, and a
throughput of two. -/
theorem resume_forwards_all_in_order_witness :
    (test_proxy [test_record 11 [1], test_record 13 [3, 3]]).broker_ ≠ none ∧
    (test_proxy [test_record 11 [1], test_record 13 [3, 3]]).mailbox_.blocked = false ∧
    (test_proxy [test_record 11 [1], test_record 13 [3, 3]]).mailbox_.closed = false ∧
    (test_proxy [test_record 11 [1], test_record 13 [3, 3]]).mailbox_.elements.length ≤ 2 ∧
    basp_proxy.resume test_home (test_proxy [test_record 11 [1], test_record 13 [3, 3]])
        none 2 =
      outcome.ok (resume_result.awaiting_message, test_proxy_blocked,
        { handled_msgs := 2,
          broker_inbox := [test_delivery 11 [1], test_delivery 13 [3, 3]] }) ∧
    ∃ self' inbox,
      basp_proxy.resume test_home (test_proxy [test_record 11 [1], test_record 13 [3, 3]])
          none 2 =
        outcome.ok (resume_result.awaiting_message, self',
          { handled_msgs :=
              (test_proxy [test_record 11 [1],
                test_record 13 [3, 3]]).mailbox_.elements.length,
            broker_inbox := inbox }) ∧
      List.Forall₂
        (basp_proxy.forwards test_home
          (test_proxy [test_record 11 [1], test_record 13 [3, 3]]) none)
        (test_proxy [test_record 11 [1], test_record 13 [3, 3]]).mailbox_.elements inbox ∧
      inbox.length =
        (test_proxy [test_record 11 [1], test_record 13 [3, 3]]).mailbox_.elements.length ∧
      (∀ out ∈ inbox, out.sender =
        some (test_proxy [test_record 11 [1], test_record 13 [3, 3]]).ctrl_) ∧
      self'.mailbox_.elements = [] ∧
      self'.broker_ = (test_proxy [test_record 11 [1], test_record 13 [3, 3]]).broker_ := by
  have hgood : ∀ x ∈ (test_proxy [test_record 11 [1],
      test_record 13 [3, 3]]).mailbox_.elements,
      ∃ out, basp_proxy.forwards test_home
        (test_proxy [test_record 11 [1], test_record 13 [3, 3]]) none x out := by
    intro x hx
    have hx' : x = test_record 11 [1] ∨ x = test_record 13 [3, 3] := by
      simpa [test_proxy] using hx
    cases hx' with
    | inl h => rw [h]; exact ⟨_, [1], [0, 1], rfl, rfl, rfl⟩
    | inr h => rw [h]; exact ⟨_, [3, 3], [0, 3, 3], rfl, rfl, rfl⟩
  exact ⟨by decide, rfl, rfl, by decide, by decide,
    basp_proxy.resume_forwards_all_in_order test_home
      (test_proxy [test_record 11 [1], test_record 13 [3, 3]]) none 2 (by decide) rfl rfl
      hgood (by decide)⟩

end io

namespace proxy_registry

variable {S : Type}

/-! ## Node states without proxies -/

theorem nonempty_proxies_apply {r : proxy_registry S} (op : operation)
    (hop : op.is_claim = false) (h : ∀ e ∈ r.nodes_, e.2.proxies ≠ []) :
    ∀ e ∈ (r.apply op).nodes_, e.2.proxies ≠ [] := by
  cases op with
  | count_proxies node => exact h
  | get node aid => exact h
  | get_all nid => exact h
  | empty => exact h
  | claim nid endpoint => simp [operation.is_claim] at hop
  | clear =>
    simp only [apply]
    rw [clear_eq]
    intro e he
    simp at he
  | erase_node nid =>
    simp only [apply]
    rw [erase_node_eq]
    intro e he
    exact h e (unordered_map.mem_erase he)
  | erase nid aid rsn =>
    simp only [apply]
    cases hs : r.stored nid aid with
    | none => rw [erase_of_not_stored rsn hs]; exact h
    | some q =>
      obtain ⟨st, hn, ha⟩ := stored_eq_some_iff.1 hs
      rw [erase_of_stored rsn hn ha]
      split
      · intro e he
        exact h e (unordered_map.mem_erase he)
      · rename_i hne
        intro e he
        cases unordered_map.mem_assign he with
        | inl he => exact h e he
        | inr he =>
          rw [he]
          intro hnil
          apply hne
          show unordered_map.empty (unordered_map.erase st.proxies aid) = true
          rw [unordered_map.empty_eq_true_iff]
          exact hnil
  | get_or_put nid aid =>
    simp only [apply]
    cases hs : r.stored nid aid with
    | some q => rw [get_or_put_of_stored hs]; exact h
    | none =>
      cases hn : unordered_map.find r.nodes_ nid with
      | none =>
        rw [get_or_put_of_no_node aid hn]
        intro e he
        simp only [List.mem_append, List.mem_singleton] at he
        cases he with
        | inl he => exact h e he
        | inr he => rw [he]; simp
      | some st =>
        have ha : unordered_map.find st.proxies aid = none := by
          rw [← stored_of_find aid hn]; exact hs
        rw [get_or_put_of_no_proxy hn ha]
        intro e he
        cases unordered_map.mem_assign he with
        | inl he => exact h e he
        | inr he => rw [he]; simp

theorem nonempty_proxies_run {r : proxy_registry S} (ops : List operation)
    (hops : ∀ op ∈ ops, op.is_claim = false) (h : ∀ e ∈ r.nodes_, e.2.proxies ≠ []) :
    ∀ e ∈ (r.run ops).nodes_, e.2.proxies ≠ [] := by
  induction ops generalizing r with
  | nil => exact h
  | cons op ops ih =>
    simp only [run]
    apply ih
    · intro o ho; exact hops o (List.mem_cons_of_mem _ ho)
    · exact nonempty_proxies_apply op (hops op (List.mem_cons_self _ _)) h

theorem count_proxies_of_empty {r : proxy_registry S} (h : r.empty = true) (n : node_id) :
    r.count_proxies n = 0 := by
  have hn : r.nodes_ = [] := (unordered_map.empty_eq_true_iff _).1 h
  simp [count_proxies, hn, unordered_map.find]

theorem empty_of_count_proxies {r : proxy_registry S}
    (hne : ∀ e ∈ r.nodes_, e.2.proxies ≠ []) (h : ∀ n, r.count_proxies n = 0) :
    r.empty = true := by
  cases hn : r.nodes_ with
  | nil => simp [empty, unordered_map.empty, hn]
  | cons e rest =>
    obtain ⟨k, st⟩ := e
    exfalso
    have hf : unordered_map.find r.nodes_ k = some st := by
      rw [hn]; simp [unordered_map.find]
    have hc := h k
    rw [count_proxies_of_find hf] at hc
    have hst : st.proxies ≠ [] := hne (k, st) (by rw [hn]; exact List.mem_cons_self _ _)
    exact hst (List.length_eq_zero.1 hc)

/-- C27: in every registry state reached from a fresh, initialised registry
by member calls among which there is no `claim`, every node state holds at
least one proxy entry, and so `empty()` is true if and only if
`count_proxies(n)` is 0 for every node `n`. Whatever the calls were, `empty()`
being true implies that every count is 0. The converse needs the absence of
`claim`: after `claim(mars, e)` on a fresh registry every count is 0 and
`empty()` is false. -/
theorem node_states_hold_proxies_without_claim (sys : S) (f : factory S)
    (ops : List operation) :
    ((∀ op ∈ ops, op.is_claim = false) →
      (∀ e ∈ (started sys f ops).nodes_, e.2.proxies ≠ []) ∧
      ((started sys f ops).empty = true ↔ ∀ n, (started sys f ops).count_proxies n = 0)) ∧
    ((started sys f ops).empty = true → ∀ n, (started sys f ops).count_proxies n = 0) ∧
    (∀ e : actor,
      (started sys f [operation.claim mars e]).empty = false ∧
      ∀ n, (started sys f [operation.claim mars e]).count_proxies n = 0) := by
  refine ⟨?_, count_proxies_of_empty, ?_⟩
  · intro hops
    have hne : ∀ e ∈ (started sys f ops).nodes_, e.2.proxies ≠ [] := by
      apply nonempty_proxies_run ops hops
      intro e he
      simp [create, init] at he
    exact ⟨hne, count_proxies_of_empty, empty_of_count_proxies hne⟩
  · intro e
    have hn : unordered_map.find ((create sys).init f).nodes_ mars = none := rfl
    have hc : (started sys f [operation.claim mars e]) =
        (((create sys).init f).claim mars e).2 := rfl
    rw [hc, claim_of_no_node e hn]
    refine ⟨rfl, ?_⟩
    intro n
    by_cases hk : mars = n
    · subst hk
      simp [count_proxies, create, init, unordered_map.find, unordered_map.size]
    · simp [count_proxies, create, init, unordered_map.find, hk]

end proxy_registry

/-- The fixture through `get_or_put(mars, 1)`, `get_or_put(mercury, 2)`,
`erase(mars, 1)` and `erase(mercury)`. -/
theorem node_states_hold_proxies_without_claim_witness :
    (∀ op ∈ [operation.get_or_put mars 1, operation.get_or_put mercury 2,
        operation.erase mars 1 error.remote_link_unreachable,
        operation.erase_node mercury], op.is_claim = false) ∧
    (∀ e ∈ (proxy_registry.started ({ testees := [] } : test_system) test_factory
        [operation.get_or_put mars 1, operation.get_or_put mercury 2,
          operation.erase mars 1 error.remote_link_unreachable,
          operation.erase_node mercury]).nodes_, e.2.proxies ≠ []) ∧
    ((proxy_registry.started ({ testees := [] } : test_system) test_factory
        [operation.get_or_put mars 1, operation.get_or_put mercury 2,
          operation.erase mars 1 error.remote_link_unreachable,
          operation.erase_node mercury]).empty = true ↔
      ∀ n, (proxy_registry.started ({ testees := [] } : test_system) test_factory
        [operation.get_or_put mars 1, operation.get_or_put mercury 2,
          operation.erase mars 1 error.remote_link_unreachable,
          operation.erase_node mercury]).count_proxies n = 0) ∧
    (proxy_registry.started ({ testees := [] } : test_system) test_factory
        [operation.get_or_put mars 1, operation.get_or_put mercury 2,
          operation.erase mars 1 error.remote_link_unreachable,
          operation.erase_node mercury]).empty = true := by
  have h := (proxy_registry.node_states_hold_proxies_without_claim
    ({ testees := [] } : test_system) test_factory
    [operation.get_or_put mars 1, operation.get_or_put mercury 2,
      operation.erase mars 1 error.remote_link_unreachable,
      operation.erase_node mercury]).1 (by decide)
  exact ⟨by decide, h.1, h.2, by decide⟩

namespace io

namespace basp_proxy

/-! ## What `resume` returns, and how much it handles -/

theorem visitor_bounds {sys : home_system} {self : basp_proxy} {ctx : Option Nat}
    {max_throughput : Nat} {x : mailbox_element} {st : resume_state}
    {t : intrusive.task_result} {st' : resume_state}
    (h : visitor sys self ctx max_throughput x st = outcome.ok (t, st'))
    (hlt : st.handled_msgs < max_throughput) :
    st'.handled_msgs ≤ max_throughput ∧
      st'.broker_inbox.length + st.handled_msgs ≤ st.broker_inbox.length + st'.handled_msgs := by
  have hb := broker_of_visitor_ok h
  rcases visitor_cases sys ctx max_throughput x st hb with
    ⟨_, _, _, hv⟩ | ⟨_, _, _, hv⟩ | ⟨_, _, _, _, hv⟩
  · rw [hv] at h
    have := outcome.ok.inj h
    simp only [count_handled, Prod.mk.injEq] at this
    rw [← this.2]
    simp only
    omega
  · rw [hv] at h
    have := outcome.ok.inj h
    simp only [Prod.mk.injEq] at this
    rw [← this.2]
    omega
  · rw [hv] at h
    have := outcome.ok.inj h
    simp only [count_handled, Prod.mk.injEq] at this
    rw [← this.2]
    simp only [List.length_append, List.length_singleton]
    omega

theorem visit_all_bounds (sys : home_system) (self : basp_proxy) (ctx : Option Nat)
    (max_throughput : Nat) (q : List mailbox_element) (st : resume_state)
    (h : st.handled_msgs ≤ max_throughput) :
    (visit_all (visitor sys self ctx max_throughput) max_throughput q st).1.handled_msgs
      ≤ max_throughput ∧
    (visit_all (visitor sys self ctx max_throughput) max_throughput q
        st).1.broker_inbox.length + st.handled_msgs ≤
      st.broker_inbox.length +
        (visit_all (visitor sys self ctx max_throughput) max_throughput q
          st).1.handled_msgs := by
  induction q generalizing st with
  | nil => exact ⟨h, Nat.le_refl _⟩
  | cons x rest ih =>
    simp only [visit_all]
    split
    · rename_i hlt
      split
      · rename_i t st1 hv
        have hvb := visitor_bounds hv hlt
        have := ih st1 hvb.1
        omega
      · exact ⟨h, Nat.le_refl _⟩
    · exact ⟨h, Nat.le_refl _⟩

theorem resume_loop_of_handled (sys : home_system) (ctx : Option Nat) (max_throughput : Nat)
    (fuel : Nat) (self : basp_proxy) (st : resume_state)
    (h : ¬ st.handled_msgs < max_throughput) :
    resume_loop sys ctx max_throughput (fuel + 1) self st =
      outcome.ok
        (if self.mailbox_.try_block.1 then resume_result.awaiting_message
          else resume_result.resume_later,
          { self with mailbox_ := self.mailbox_.try_block.2 }, st) := by
  simp [resume_loop, h]

theorem resume_loop_of_round (sys : home_system) (ctx : Option Nat) (max_throughput : Nat)
    (fuel : Nat) (self : basp_proxy) (st : resume_state)
    (h : st.handled_msgs < max_throughput) {res : intrusive.new_round_result}
    {mb : mailbox_type} {st' : resume_state}
    (hr : self.mailbox_.new_round 3 (visitor sys self ctx max_throughput) st =
      outcome.ok (res, mb, st')) :
    resume_loop sys ctx max_throughput (fuel + 1) self st =
      if res.consumed_items = 0 ∧ mb.try_block.1 = true then
        outcome.ok (resume_result.awaiting_message,
          { self with mailbox_ := mb.try_block.2 }, st')
      else if self.broker_ = none then
        outcome.ok (resume_result.done, { self with mailbox_ := mb }, st')
      else
        resume_loop sys ctx max_throughput fuel { self with mailbox_ := mb } st' := by
  simp only [resume_loop, h, if_true, hr]

/-- With records that all serialize and are more than `max_throughput`, the
visitor gets to the first `max_throughput` of them. -/
theorem visit_all_of_forwardable_beyond (sys : home_system) (self : basp_proxy)
    (ctx : Option Nat) (max_throughput : Nat) (hb : self.broker_ ≠ none)
    (q1 q2 : List mailbox_element) (hgood : ∀ x ∈ q1, ∃ out, forwards sys self ctx x out)
    (hlen : q1.length = max_throughput) :
    ∃ outs, List.Forall₂ (forwards sys self ctx) q1 outs ∧
      visit_all (visitor sys self ctx max_throughput) max_throughput (q1 ++ q2)
          { handled_msgs := 0, broker_inbox := [] } =
        ({ handled_msgs := max_throughput, broker_inbox := outs }, q2) := by
  obtain ⟨outs, hrel, h1⟩ := visit_all_of_forwardable sys self ctx max_throughput hb q1
    { handled_msgs := 0, broker_inbox := [] } hgood (by simp only; omega)
  refine ⟨outs, hrel, ?_⟩
  rw [visit_all_append _ _ _ _ _ h1, visit_all_of_handled _ _ (by simp only; omega)]
  simp [hlen]

/-- C21: what `resume(ctx, max_throughput)` returns. In an iteration of its
loop (fewer than `max_throughput` records handled) the round of quantum 3 is
run; if it consumed no record and the mailbox could be blocked the result is
`awaiting_message`; failing that, if the broker slot is empty the result is
`done`; else the loop goes on. Once `max_throughput` records are handled the
result is `awaiting_message` if `try_block` succeeds and `resume_later`
otherwise. For one call this gives: `awaiting_message` on an empty mailbox
that is neither blocked nor closed; `done` on an empty mailbox that cannot be
blocked when the broker slot is empty; and `resume_later`, with
`max_throughput` records handled, when the mailbox of a proxy with a broker
holds more than `max_throughput` records that serialize. -/
theorem resume_results (sys : home_system) (ctx : Option Nat) (max_throughput : Nat)
    (self : basp_proxy) :
    (∀ (fuel : Nat) (st : resume_state) (res : intrusive.new_round_result)
        (mb : mailbox_type) (st' : resume_state),
      st.handled_msgs < max_throughput →
      self.mailbox_.new_round 3 (visitor sys self ctx max_throughput) st =
        outcome.ok (res, mb, st') →
      (res.consumed_items = 0 → mb.try_block.1 = true →
        resume_loop sys ctx max_throughput (fuel + 1) self st =
          outcome.ok (resume_result.awaiting_message,
            { self with mailbox_ := mb.try_block.2 }, st')) ∧
      (¬ (res.consumed_items = 0 ∧ mb.try_block.1 = true) → self.broker_ = none →
        resume_loop sys ctx max_throughput (fuel + 1) self st =
          outcome.ok (resume_result.done, { self with mailbox_ := mb }, st')) ∧
      (¬ (res.consumed_items = 0 ∧ mb.try_block.1 = true) → self.broker_ ≠ none →
        resume_loop sys ctx max_throughput (fuel + 1) self st =
          resume_loop sys ctx max_throughput fuel { self with mailbox_ := mb } st')) ∧
    (∀ (fuel : Nat) (st : resume_state), ¬ st.handled_msgs < max_throughput →
      resume_loop sys ctx max_throughput (fuel + 1) self st =
        outcome.ok
          (if self.mailbox_.try_block.1 then resume_result.awaiting_message
            else resume_result.resume_later,
            { self with mailbox_ := self.mailbox_.try_block.2 }, st)) ∧
    (0 < max_throughput → self.mailbox_.elements = [] →
      self.mailbox_.blocked = false → self.mailbox_.closed = false →
      resume sys self ctx max_throughput =
        outcome.ok (resume_result.awaiting_message,
          { self with mailbox_ := { self.mailbox_ with blocked := true } },
          { handled_msgs := 0, broker_inbox := [] })) ∧
    (0 < max_throughput → self.mailbox_.elements = [] →
      (self.mailbox_.blocked = true ∨ self.mailbox_.closed = true) → self.broker_ = none →
      resume sys self ctx max_throughput =
        outcome.ok (resume_result.done, self, { handled_msgs := 0, broker_inbox := [] })) ∧
    (∀ q1 q2 : List mailbox_element, self.broker_ ≠ none →
      self.mailbox_.blocked = false → self.mailbox_.closed = false →
      self.mailbox_.elements = q1 ++ q2 → q1.length = max_throughput → q2 ≠ [] →
      (∀ x ∈ q1, ∃ out, forwards sys self ctx x out) →
      ∃ self' outs,
        resume sys self ctx max_throughput =
          outcome.ok (resume_result.resume_later, self',
            { handled_msgs := max_throughput, broker_inbox := outs }) ∧
        List.Forall₂ (forwards sys self ctx) q1 outs ∧
        self'.mailbox_.elements = q2) := by
  refine ⟨?_, ?_, ?_, ?_, ?_⟩
  · intro fuel st res mb st' hlt hr
    have h := resume_loop_of_round sys ctx max_throughput fuel self st hlt hr
    refine ⟨?_, ?_, ?_⟩
    · intro h0 ht
      rw [h, if_pos ⟨h0, ht⟩]
    · intro hn hb
      rw [h, if_neg hn, if_pos hb]
    · intro hn hb
      rw [h, if_neg hn, if_neg hb]
  · intro fuel st h
    exact resume_loop_of_handled sys ctx max_throughput fuel self st h
  · intro hmax he hblocked hclosed
    have hr : self.mailbox_.new_round 3 (visitor sys self ctx max_throughput)
        { handled_msgs := 0, broker_inbox := [] } =
        outcome.ok ({ consumed_items := 0, stop_all := false }, self.mailbox_,
          { handled_msgs := 0, broker_inbox := [] }) := by
      simp [mailbox_type.new_round, he]
    have ht : self.mailbox_.try_block = (true, { self.mailbox_ with blocked := true }) := by
      simp [mailbox_type.try_block, he, hblocked, hclosed]
    unfold resume
    rw [resume_loop_of_round sys ctx max_throughput _ self _ hmax hr, ht]
    simp
  · intro hmax he hflag hb
    have hr : self.mailbox_.new_round 3 (visitor sys self ctx max_throughput)
        { handled_msgs := 0, broker_inbox := [] } =
        outcome.ok ({ consumed_items := 0, stop_all := false }, self.mailbox_,
          { handled_msgs := 0, broker_inbox := [] }) := by
      simp [mailbox_type.new_round, he]
    have ht : self.mailbox_.try_block = (false, self.mailbox_) := by
      cases hflag with
      | inl h => simp [mailbox_type.try_block, h]
      | inr h => simp [mailbox_type.try_block, h]
    unfold resume
    rw [resume_loop_of_round sys ctx max_throughput _ self _ hmax hr, ht]
    rw [if_neg (by simp), if_pos hb]
  · intro q1 q2 hb hblocked hclosed he hlen hq2 hgood
    obtain ⟨self', st', hr, hva, _⟩ :=
      resume_eq_visit_all sys self ctx max_throughput hb hblocked hclosed
    obtain ⟨outs, hrel, h1⟩ := visit_all_of_forwardable_beyond sys self ctx max_throughput hb
      q1 q2 hgood hlen
    rw [he, h1] at hva
    have hst := (Prod.mk.inj hva).1
    have hel := (Prod.mk.inj hva).2
    rw [← hel, if_neg hq2, ← hst] at hr
    exact ⟨self', outs, hr, hrel, hel.symm⟩

/-- C26: in one call of `resume(ctx, max_throughput)` that returns, at most
`max_throughput` records are counted as handled and no more records are
enqueued to the broker than were handled. For `max_throughput = 0` the call
returns at once: no record leaves the mailbox, nothing is enqueued to the
broker, and the result is `awaiting_message` if the mailbox can be blocked
and `resume_later` otherwise. -/
theorem resume_handles_at_most_max_throughput (sys : home_system) (self : basp_proxy)
    (ctx : Option Nat) (max_throughput : Nat) :
    (∀ (r : resume_result) (self' : basp_proxy) (st' : resume_state),
      resume sys self ctx max_throughput = outcome.ok (r, self', st') →
      st'.handled_msgs ≤ max_throughput ∧
      st'.broker_inbox.length ≤ st'.handled_msgs ∧
      st'.broker_inbox.length ≤ max_throughput) ∧
    resume sys self ctx 0 =
      outcome.ok
        (if self.mailbox_.try_block.1 then resume_result.awaiting_message
          else resume_result.resume_later,
          { self with mailbox_ := self.mailbox_.try_block.2 },
          { handled_msgs := 0, broker_inbox := [] }) ∧
    self.mailbox_.try_block.2.elements = self.mailbox_.elements := by
  refine ⟨?_, ?_, (mailbox_type.try_block_elements self.mailbox_).1⟩
  · intro r self' st' h
    have hva := (resume_loop_visit_all sys ctx max_throughput _ _ _ h).1
    have hb := visit_all_bounds sys self ctx max_throughput self.mailbox_.elements
      { handled_msgs := 0, broker_inbox := [] } (Nat.zero_le _)
    rw [hva] at hb
    simp only [List.length_nil, Nat.add_zero, Nat.zero_add] at hb
    exact ⟨hb.1, hb.2, Nat.le_trans hb.2 hb.1⟩
  · unfold resume
    exact resume_loop_of_handled sys ctx 0 _ self _ (Nat.not_lt_zero _)

end basp_proxy

end io

end caf

namespace caf

namespace io

/-- The proxy of the examples with an empty mailbox and a throughput of five,
the killed proxy, and a mailbox of two records with a throughput of one. -/
theorem resume_results_witness :
    0 < 5 ∧
    basp_proxy.resume test_home (test_proxy []) none 5 =
      outcome.ok (resume_result.awaiting_message, test_proxy_blocked,
        { handled_msgs := 0, broker_inbox := [] }) ∧
    basp_proxy.resume test_home test_proxy_killed none 5 =
      outcome.ok (resume_result.done, test_proxy_killed,
        { handled_msgs := 0, broker_inbox := [] }) ∧
    ∃ self' outs,
      basp_proxy.resume test_home (test_proxy [test_record 11 [1], test_record 13 [3, 3]])
          none 1 =
        outcome.ok (resume_result.resume_later, self',
          { handled_msgs := 1, broker_inbox := outs }) ∧
      List.Forall₂
        (basp_proxy.forwards test_home
          (test_proxy [test_record 11 [1], test_record 13 [3, 3]]) none)
        [test_record 11 [1]] outs ∧
      self'.mailbox_.elements = [test_record 13 [3, 3]] := by
  have hgood : ∀ x ∈ [test_record 11 [1]],
      ∃ out, basp_proxy.forwards test_home
        (test_proxy [test_record 11 [1], test_record 13 [3, 3]]) none x out := by
    intro x hx
    have hx' : x = test_record 11 [1] := by simpa using hx
    rw [hx']
    exact ⟨_, [1], [0, 1], rfl, rfl, rfl⟩
  have h1 := (basp_proxy.resume_results test_home none 5 (test_proxy [])).2.2.1
    (by decide) rfl rfl rfl
  have h2 := (basp_proxy.resume_results test_home none 5 test_proxy_killed).2.2.2.1
    (by decide) rfl (Or.inr rfl) rfl
  have h3 := (basp_proxy.resume_results test_home none 1
    (test_proxy [test_record 11 [1], test_record 13 [3, 3]])).2.2.2.2
    [test_record 11 [1]] [test_record 13 [3, 3]] (by decide) rfl rfl rfl rfl (by decide) hgood
  exact ⟨by decide, h1, h2, h3⟩

/-- A mailbox of two records and a throughput of one: one record is handled
and one delivered. -/
theorem resume_handles_at_most_max_throughput_witness :
    basp_proxy.resume test_home (test_proxy [test_record 11 [1], test_record 13 [3, 3]])
        none 1 =
      outcome.ok (resume_result.resume_later,
        { test_proxy [test_record 13 [3, 3]] with
          mailbox_ :=
            { elements := [test_record 13 [3, 3]], deficit := 2, blocked := false,
              closed := false } },
        { handled_msgs := 1, broker_inbox := [test_delivery 11 [1]] }) ∧
    (1 : Nat) ≤ 1 ∧ [test_delivery 11 [1]].length ≤ 1 ∧ [test_delivery 11 [1]].length ≤ 1 := by
  have h : basp_proxy.resume test_home
      (test_proxy [test_record 11 [1], test_record 13 [3, 3]]) none 1 =
      outcome.ok (resume_result.resume_later,
        { test_proxy [test_record 13 [3, 3]] with
          mailbox_ :=
            { elements := [test_record 13 [3, 3]], deficit := 2, blocked := false,
              closed := false } },
        { handled_msgs := 1, broker_inbox := [test_delivery 11 [1]] }) := by
    decide
  exact ⟨h, (basp_proxy.resume_handles_at_most_max_throughput test_home
    (test_proxy [test_record 11 [1], test_record 13 [3, 3]]) none 1).1 _ _ _ h⟩

end io

end caf

/-! ## `enqueue` on a closed mailbox, and `kill_proxy` -/

namespace caf

namespace io

namespace mailbox_type

theorem push_back_of_closed {mb : mailbox_type} (h : mb.closed = true)
    (ptr : mailbox_element) :
    mb.push_back ptr = (intrusive.inbox_result.queue_closed, mb) := by
  simp [push_back, h]

theorem closed_of_push_back {mb : mailbox_type} {ptr : mailbox_element}
    (h : (mb.push_back ptr).1 = intrusive.inbox_result.queue_closed) : mb.closed = true := by
  unfold push_back at h
  split at h
  · assumption
  · split at h <;> cases h

theorem try_block_of_closed {mb : mailbox_type} (h : mb.closed = true) :
    mb.try_block = (false, mb) := by
  simp [try_block, h]

end mailbox_type

namespace basp_proxy

/-- A proxy with an empty closed mailbox and an empty broker slot: `resume`
handles nothing and leaves the proxy as it is. -/
theorem resume_of_killed (sys : home_system) (self : basp_proxy) (ctx : Option Nat)
    (max_throughput : Nat) (he : self.mailbox_.elements = [])
    (hc : self.mailbox_.closed = true) (hb : self.broker_ = none) :
    resume sys self ctx max_throughput =
      outcome.ok (if max_throughput = 0 then resume_result.resume_later else resume_result.done,
        self, { handled_msgs := 0, broker_inbox := [] }) := by
  unfold resume
  by_cases hm : max_throughput = 0
  · rw [resume_loop_of_handled sys ctx max_throughput _ self _ (by simp [hm]),
      mailbox_type.try_block_of_closed hc]
    simp [hm]
  · have hr : self.mailbox_.new_round 3 (visitor sys self ctx max_throughput)
        { handled_msgs := 0, broker_inbox := [] } =
        outcome.ok ({ consumed_items := 0, stop_all := false }, self.mailbox_,
          { handled_msgs := 0, broker_inbox := [] }) := by
      simp [mailbox_type.new_round, he]
    rw [resume_loop_of_round sys ctx max_throughput _ self _ (by simp; omega) hr,
      mailbox_type.try_block_of_closed hc]
    rw [if_neg (by simp), if_pos hb, if_neg hm]

end basp_proxy

namespace proxy_world

theorem enqueue_of_closed (rt : runtime) (self : proxy_world) (ptr : mailbox_element)
    (eu : Option Nat) (h : self.proxy.mailbox_.closed = true) :
    self.enqueue rt ptr eu =
      if rt.is_request ptr.mid then
        { self with
          bounced := self.bounced ++
            [{ reason := self.fail_state, sender := ptr.sender, mid := ptr.mid }] }
      else self := by
  unfold enqueue
  rw [mailbox_type.push_back_of_closed h]

theorem forward_msg_of_no_broker (rt : runtime) (self : proxy_world) (sender : strong_actor_ptr)
    (mid : message_id) (msg : control_message) (fwd : Option forwarding_stack)
    (h : self.proxy.broker_ = none) :
    (self.forward_msg rt sender mid msg fwd).broker_inbox = self.broker_inbox ∧
      (self.forward_msg rt sender mid msg fwd).proxy = self.proxy := by
  unfold forward_msg
  cases msg <;> simp [h]

theorem killed_kill_proxy (rt : runtime) (self : proxy_world) (ctx : Nat) (rsn : error) :
    ∃ w, self.kill_proxy rt (some ctx) rsn = outcome.ok w ∧ killed w ∧
      w = cleanup rt { self with proxy := { self.proxy with broker_ := none } } rsn (some ctx) ∧
      w.broker_inbox = self.broker_inbox ∧ w.scheduled = self.scheduled ∧
      w.fail_state = some rsn ∧ w.links = self.links ∧ w.ref_count = self.ref_count :=
  ⟨_, rfl, ⟨rfl, rfl, rfl, rfl, rsn, rfl⟩, rfl, rfl, rfl, rfl, rfl, rfl⟩

theorem proxy_kill_proxy_of_killed (rt : runtime) (self : proxy_world) (h : killed self)
    (rsn : error) (ctx : Option Nat) :
    (cleanup rt { self with proxy := { self.proxy with broker_ := none } } rsn ctx).proxy =
      self.proxy := by
  obtain ⟨hb, hcl, he, hbl, _⟩ := h
  cases self with
  | mk proxy links fail_state ref_count scheduled bounced broker_inbox =>
    cases proxy with
    | mk ctrl node id mailbox broker =>
      cases mailbox with
      | mk elements deficit blocked closed =>
        simp only at hb hcl he hbl
        subst hb hcl he hbl
        rfl

theorem killed_call (rt : runtime) (sys : home_system) (self : proxy_world)
    (h : killed self) (c : proxy_call) (hc : c.has_context = true) :
    ∃ w, self.call rt sys c = outcome.ok w ∧ killed w ∧ w.proxy = self.proxy ∧
      w.broker_inbox = self.broker_inbox ∧ w.scheduled = self.scheduled ∧
      w.links = self.links ∧ w.ref_count = self.ref_count := by
  have h0 := h
  obtain ⟨hb, hcl, he, hbl, reason, hr⟩ := h
  cases c with
  | enqueue ptr eu =>
    refine ⟨self.enqueue rt ptr eu, rfl, ?_⟩
    rw [enqueue_of_closed rt self ptr eu hcl]
    split
    · exact ⟨⟨hb, hcl, he, hbl, reason, hr⟩, rfl, rfl, rfl, rfl, rfl⟩
    · exact ⟨h0, rfl, rfl, rfl, rfl, rfl⟩
  | kill_proxy ctx rsn =>
    cases ctx with
    | none => cases hc
    | some ctx =>
      obtain ⟨w, hw, hk, hw', h5, h6, _, h7, h8⟩ := killed_kill_proxy rt self ctx rsn
      refine ⟨w, hw, hk, ?_, h5, h6, h7, h8⟩
      rw [hw']
      exact proxy_kill_proxy_of_killed rt self h0 rsn (some ctx)
  | resume ctx max_throughput =>
    refine ⟨self, ?_, h0, rfl, rfl, rfl, rfl, rfl⟩
    simp only [call, resume, basp_proxy.resume_of_killed sys self.proxy ctx max_throughput he hcl hb,
      hb, List.append_nil]

theorem killed_calls (rt : runtime) (sys : home_system) (cs : List proxy_call) :
    ∀ (self : proxy_world), killed self → (∀ c ∈ cs, c.has_context = true) →
    ∃ w, self.calls rt sys cs = outcome.ok w ∧ killed w ∧ w.proxy = self.proxy ∧
      w.broker_inbox = self.broker_inbox ∧ w.scheduled = self.scheduled ∧
      w.links = self.links ∧ w.ref_count = self.ref_count := by
  induction cs with
  | nil =>
    intro self h _
    exact ⟨self, rfl, h, rfl, rfl, rfl, rfl, rfl⟩
  | cons c cs ih =>
    intro self h hcs
    obtain ⟨w1, hw1, hk1, a1, a2, a3, a4, a5⟩ :=
      killed_call rt sys self h c (hcs c (List.mem_cons_self _ _))
    obtain ⟨w2, hw2, hk2, b1, b2, b3, b4, b5⟩ :=
      ih w1 hk1 (fun c' hc' => hcs c' (List.mem_cons_of_mem _ hc'))
    refine ⟨w2, ?_, hk2, b1.trans a1, b2.trans a2, b3.trans a3, b4.trans a4, b5.trans a5⟩
    simp only [calls, hw1, hw2]

theorem add_backlink_of_no_broker (rt : runtime) (self : proxy_world) (x : Nat)
    (h : self.proxy.broker_ = none) :
    (self.add_backlink rt x).2.broker_inbox = self.broker_inbox := by
  unfold add_backlink
  split
  · exact (forward_msg_of_no_broker rt
      { self with links := (rt.add_backlink self.links x).2 } _ _ _ _ h).1
  · rfl

theorem remove_backlink_of_no_broker (rt : runtime) (self : proxy_world) (x : Nat)
    (h : self.proxy.broker_ = none) :
    (self.remove_backlink rt x).2.broker_inbox = self.broker_inbox := by
  unfold remove_backlink
  split
  · exact (forward_msg_of_no_broker rt
      { self with links := (rt.remove_backlink self.links x).2 } _ _ _ _ h).1
  · rfl

theorem destroy_of_no_broker (self : proxy_world) (h : self.proxy.broker_ = none) :
    self.destroy = self := by
  unfold destroy
  rw [h]

end proxy_world

end io

end caf

/-! ## The claims about `enqueue` on a closed mailbox and about `kill_proxy` -/

namespace caf

namespace io

namespace proxy_world

/-- C22: when `enqueue` pushes a record and the mailbox reports
`queue_closed`, a request bouncer made with the exit reason of the proxy is
applied to the sender and the message id of the record exactly when the
message id is a request, and nothing else happens: the record is not stored,
the proxy is not scheduled, its reference count stays, and nothing is
delivered to a broker. -/
theorem enqueue_queue_closed_bounces_requests (rt : runtime) (self : proxy_world)
    (ptr : mailbox_element) (eu : Option Nat)
    (h : (self.proxy.mailbox_.push_back ptr).1 = intrusive.inbox_result.queue_closed) :
    self.enqueue rt ptr eu =
        (if rt.is_request ptr.mid then
          { self with
            bounced := self.bounced ++
              [{ reason := self.fail_state, sender := ptr.sender, mid := ptr.mid }] }
        else self) ∧
      (rt.is_request ptr.mid = true →
        (self.enqueue rt ptr eu).bounced = self.bounced ++
          [{ reason := self.fail_state, sender := ptr.sender, mid := ptr.mid }]) ∧
      (rt.is_request ptr.mid = false → self.enqueue rt ptr eu = self) ∧
      (self.enqueue rt ptr eu).proxy = self.proxy ∧
      (self.enqueue rt ptr eu).scheduled = self.scheduled ∧
      (self.enqueue rt ptr eu).ref_count = self.ref_count ∧
      (self.enqueue rt ptr eu).broker_inbox = self.broker_inbox := by
  have hc := mailbox_type.closed_of_push_back h
  rw [enqueue_of_closed rt self ptr eu hc]
  cases hq : rt.is_request ptr.mid
  · simp
  · simp

/-- C23: `kill_proxy(ctx, reason)` with a context returns and leaves the
broker slot empty, the mailbox drained and closed, its requests bounced with
the reason. After any later calls of `enqueue`, `kill_proxy` (with a context)
and `resume`, the calls all return, the proxy is as `kill_proxy` left it,
nothing was delivered to a broker and the proxy was not scheduled; every
further `enqueue` gets `queue_closed` from the mailbox and only bounces a
request, `resume` handles no record and delivers none, and neither a link
notice nor the destructor reaches a broker. -/
theorem kill_proxy_cancels (rt : runtime) (sys : home_system) (self : proxy_world)
    (ctx : Nat) (rsn : error) :
    ∃ dead, self.kill_proxy rt (some ctx) rsn = outcome.ok dead ∧
      dead.proxy.broker_ = none ∧
      dead.proxy.mailbox_.elements = [] ∧
      dead.proxy.mailbox_.closed = true ∧
      dead.fail_state = some rsn ∧
      dead.bounced = self.bounced ++
        (self.proxy.mailbox_.elements.filter (fun el => rt.is_request el.mid)).map
          (fun el => { reason := some rsn, sender := el.sender, mid := el.mid }) ∧
      dead.broker_inbox = self.broker_inbox ∧
      ∀ cs : List proxy_call, (∀ c ∈ cs, c.has_context = true) →
        ∃ later, dead.calls rt sys cs = outcome.ok later ∧
          later.proxy = dead.proxy ∧
          later.proxy.broker_ = none ∧
          later.broker_inbox = self.broker_inbox ∧
          later.scheduled = self.scheduled ∧
          (∃ reason, later.fail_state = some reason) ∧
          (∀ ptr eu,
            (later.proxy.mailbox_.push_back ptr).1 = intrusive.inbox_result.queue_closed ∧
            later.enqueue rt ptr eu =
              (if rt.is_request ptr.mid then
                { later with
                  bounced := later.bounced ++
                    [{ reason := later.fail_state, sender := ptr.sender, mid := ptr.mid }] }
              else later)) ∧
          (∀ c max_throughput,
            basp_proxy.resume sys later.proxy c max_throughput =
              outcome.ok
                (if max_throughput = 0 then resume_result.resume_later
                  else resume_result.done,
                  later.proxy, { handled_msgs := 0, broker_inbox := [] })) ∧
          (∀ x, (later.add_backlink rt x).2.broker_inbox = self.broker_inbox) ∧
          (∀ x, (later.remove_backlink rt x).2.broker_inbox = self.broker_inbox) ∧
          later.destroy = later := by
  obtain ⟨dead, hd, hk, hd', d1, _, d3, _, _⟩ := killed_kill_proxy rt self ctx rsn
  refine ⟨dead, hd, hk.1, hk.2.2.1, hk.2.1, d3, ?_, d1, ?_⟩
  · rw [hd']
    rfl
  · intro cs hcs
    obtain ⟨later, hl, hkl, l1, l2, l3, _, _⟩ := killed_calls rt sys cs dead hk hcs
    have hkl0 := hkl
    obtain ⟨lb, lc, le, _, lr⟩ := hkl
    refine ⟨later, hl, l1, lb, l2.trans d1, ?_, lr, ?_, ?_, ?_, ?_,
      destroy_of_no_broker later lb⟩
    · rw [l3, hd']
      rfl
    · intro ptr eu
      exact ⟨by rw [mailbox_type.push_back_of_closed lc], enqueue_of_closed rt later ptr eu lc⟩
    · intro c max_throughput
      exact basp_proxy.resume_of_killed sys later.proxy c max_throughput le lc lb
    · intro x
      rw [add_backlink_of_no_broker rt later x lb, l2, d1]
    · intro x
      rw [remove_backlink_of_no_broker rt later x lb, l2, d1]

end proxy_world

end io

end caf

namespace caf

namespace io

/-- The killed proxy of the examples and a record that is a request. -/
theorem enqueue_queue_closed_bounces_requests_witness :
    (test_world_killed.proxy.mailbox_.push_back (test_record 11 [1])).1 =
        intrusive.inbox_result.queue_closed ∧
      test_runtime.is_request (test_record 11 [1]).mid = true ∧
      (test_world_killed.enqueue test_runtime (test_record 11 [1]) none).bounced =
        test_world_killed.bounced ++
          [{ reason := test_world_killed.fail_state, sender := (test_record 11 [1]).sender,
             mid := (test_record 11 [1]).mid }] ∧
      (test_world_killed.enqueue test_runtime (test_record 11 [1]) none).scheduled =
        test_world_killed.scheduled := by
  have h : (test_world_killed.proxy.mailbox_.push_back (test_record 11 [1])).1 =
      intrusive.inbox_result.queue_closed := by decide
  have hq : test_runtime.is_request (test_record 11 [1]).mid = true := by decide
  have hthm := proxy_world.enqueue_queue_closed_bounces_requests test_runtime
    test_world_killed (test_record 11 [1]) none h
  exact ⟨h, hq, hthm.2.1 hq, hthm.2.2.2.2.1⟩

/-- The proxy of the examples with a request and another record in its
mailbox is killed; then a request is enqueued and the proxy resumed. -/
theorem kill_proxy_cancels_witness :
    ∃ dead,
      (test_world [test_record 11 [1], test_record 0 [2]]).kill_proxy test_runtime (some 3)
          error.remote_link_unreachable = outcome.ok dead ∧
        dead.proxy.broker_ = none ∧
        dead.bounced =
          [{ reason := some error.remote_link_unreachable, sender := some 5,
             mid := { integer_value := 11 } }] ∧
        ∃ later,
          dead.calls test_runtime test_home
              [proxy_call.enqueue (test_record 12 [1]) none, proxy_call.resume none 5] =
            outcome.ok later ∧
          later.broker_inbox = [] ∧ later.scheduled = [] := by
  obtain ⟨dead, h1, h2, _, _, _, h3, _, h⟩ :=
    proxy_world.kill_proxy_cancels test_runtime test_home
      (test_world [test_record 11 [1], test_record 0 [2]]) 3 error.remote_link_unreachable
  have hcs : ∀ c ∈ [proxy_call.enqueue (test_record 12 [1]) none, proxy_call.resume none 5],
      c.has_context = true := by
    intro c hc
    have hc' : c = proxy_call.enqueue (test_record 12 [1]) none ∨
        c = proxy_call.resume none 5 := by simpa using hc
    cases hc' with
    | inl e => rw [e]; rfl
    | inr e => rw [e]; rfl
  obtain ⟨later, h4, _, _, h5, h6, _⟩ := h _ hcs
  exact ⟨dead, h1, h2, h3, later, h4, h5, h6⟩

end io

end caf

/-! ## Links, the destructor, and the assertion of the visitor -/

namespace caf

namespace io

namespace proxy_world

theorem forward_msg_link (rt : runtime) (self : proxy_world) (sender : strong_actor_ptr)
    (mid : message_id) (x : strong_actor_ptr) :
    self.forward_msg rt sender mid (control_message.link x) none =
      match self.proxy.broker_ with
      | some broker =>
        { self with
          broker_inbox := self.broker_inbox ++
            [(broker, broker_input.forward sender [] (some self.proxy.ctrl_) mid
              (control_message.link x))] }
      | none => self := rfl

theorem forward_msg_unlink (rt : runtime) (self : proxy_world) (sender : strong_actor_ptr)
    (mid : message_id) (x : strong_actor_ptr) :
    self.forward_msg rt sender mid (control_message.unlink x) none =
      match self.proxy.broker_ with
      | some broker =>
        { self with
          broker_inbox := self.broker_inbox ++
            [(broker, broker_input.forward sender [] (some self.proxy.ctrl_) mid
              (control_message.unlink x))] }
      | none => self := rfl

/-- A call other than `kill_proxy` that returns leaves the broker slot and
the identity of the proxy as they are. -/
theorem slot_call (rt : runtime) (sys : home_system) (self : proxy_world) (c : proxy_call)
    (hc : c.is_kill_proxy = false) {w : proxy_world} (h : self.call rt sys c = outcome.ok w) :
    w.proxy.broker_ = self.proxy.broker_ ∧ w.proxy.node_ = self.proxy.node_ ∧
      w.proxy.id_ = self.proxy.id_ := by
  cases c with
  | enqueue ptr eu =>
    have hw : w = self.enqueue rt ptr eu := (outcome.ok.inj h).symm
    rw [hw]
    unfold enqueue
    split
    · exact ⟨rfl, rfl, rfl⟩
    · split <;> exact ⟨rfl, rfl, rfl⟩
    · exact ⟨rfl, rfl, rfl⟩
  | kill_proxy ctx rsn => cases hc
  | resume ctx max_throughput =>
    simp only [call, resume] at h
    split at h
    · rename_i result w1 hr
      split at hr
      · rename_i r p st hp
        have hv := basp_proxy.resume_loop_visit_all sys ctx max_throughput _ self.proxy _ hp
        simp only [outcome.ok.injEq, Prod.mk.injEq] at hr
        have hw : w = w1 := (outcome.ok.inj h).symm
        rw [hw, ← hr.2]
        exact ⟨hv.2.1, hv.2.2.2.1, hv.2.2.2.2.1⟩
      · cases hr
      · cases hr
    · cases h
    · cases h

theorem slot_calls (rt : runtime) (sys : home_system) (cs : List proxy_call) :
    ∀ (self : proxy_world), (∀ c ∈ cs, c.is_kill_proxy = false) → ∀ w,
      self.calls rt sys cs = outcome.ok w →
      w.proxy.broker_ = self.proxy.broker_ ∧ w.proxy.node_ = self.proxy.node_ ∧
        w.proxy.id_ = self.proxy.id_ := by
  induction cs with
  | nil =>
    intro self _ w h
    have hw : w = self := (outcome.ok.inj h).symm
    rw [hw]
    exact ⟨rfl, rfl, rfl⟩
  | cons c cs ih =>
    intro self hcs w h
    simp only [calls] at h
    split at h
    · rename_i w1 h1
      obtain ⟨a1, a2, a3⟩ := slot_call rt sys self c (hcs c (List.mem_cons_self _ _)) h1
      obtain ⟨b1, b2, b3⟩ := ih w1 (fun c' hc' => hcs c' (List.mem_cons_of_mem _ hc')) w h
      exact ⟨b1.trans a1, b2.trans a2, b3.trans a3⟩
    · cases h
    · cases h

end proxy_world

/-- C24, the claim as stated fails: a proxy built without a broker gets a
backlink, the supervision primitive reports a change and `add_backlink`
returns true, and no link message is forwarded to anyone; likewise for a
proxy after `kill_proxy`, and for `remove_backlink`. -/
theorem backlink_changes_without_forwarding :
    (test_runtime.add_backlink (proxy_world.create 100 mars 1 none).links 9).1 = true ∧
    ((proxy_world.create 100 mars 1 none).add_backlink test_runtime 9).1 = true ∧
    ((proxy_world.create 100 mars 1 none).add_backlink test_runtime 9).2.broker_inbox = [] ∧
    (test_world_killed.add_backlink test_runtime 9).1 = true ∧
    (test_world_killed.add_backlink test_runtime 9).2.broker_inbox = [] ∧
    (((proxy_world.create 100 mars 1 none).add_backlink test_runtime 9).2.remove_backlink
      test_runtime 9).1 = true ∧
    (((proxy_world.create 100 mars 1 none).add_backlink test_runtime 9).2.remove_backlink
      test_runtime 9).2.broker_inbox = [] := by
  decide

namespace proxy_world

/-- C24 (amended): `add_backlink(x)` returns what the supervision primitive
reports, and the links are what the primitive leaves. When it reports a
change and the broker slot is present, exactly one envelope
`(forward_atom, sender, empty stages, proxy, mid, msg)` is enqueued to that
broker, with the proxy as sender, the default message id and the link message
naming `x`; when it reports a change and the slot is empty, nothing is
forwarded; when it reports no change, nothing is forwarded. The proxy itself
stays as it is. `remove_backlink(x)` does the same with the unlink message. -/
theorem backlink_forwards_to_present_broker (rt : runtime) (self : proxy_world) (x : Nat) :
    ((self.add_backlink rt x).1 = (rt.add_backlink self.links x).1 ∧
      (self.add_backlink rt x).2.links = (rt.add_backlink self.links x).2 ∧
      (self.add_backlink rt x).2.proxy = self.proxy ∧
      ((rt.add_backlink self.links x).1 = true → ∀ broker, self.proxy.broker_ = some broker →
        (self.add_backlink rt x).2.broker_inbox = self.broker_inbox ++
          [(broker, broker_input.forward (some self.proxy.ctrl_) [] (some self.proxy.ctrl_)
            make_message_id (control_message.link (some x)))]) ∧
      ((rt.add_backlink self.links x).1 = true → self.proxy.broker_ = none →
        (self.add_backlink rt x).2.broker_inbox = self.broker_inbox) ∧
      ((rt.add_backlink self.links x).1 = false →
        (self.add_backlink rt x).2.broker_inbox = self.broker_inbox)) ∧
    ((self.remove_backlink rt x).1 = (rt.remove_backlink self.links x).1 ∧
      (self.remove_backlink rt x).2.links = (rt.remove_backlink self.links x).2 ∧
      (self.remove_backlink rt x).2.proxy = self.proxy ∧
      ((rt.remove_backlink self.links x).1 = true → ∀ broker, self.proxy.broker_ = some broker →
        (self.remove_backlink rt x).2.broker_inbox = self.broker_inbox ++
          [(broker, broker_input.forward (some self.proxy.ctrl_) [] (some self.proxy.ctrl_)
            make_message_id (control_message.unlink (some x)))]) ∧
      ((rt.remove_backlink self.links x).1 = true → self.proxy.broker_ = none →
        (self.remove_backlink rt x).2.broker_inbox = self.broker_inbox) ∧
      ((rt.remove_backlink self.links x).1 = false →
        (self.remove_backlink rt x).2.broker_inbox = self.broker_inbox)) := by
  constructor
  · unfold add_backlink
    rw [forward_msg_link]
    cases hp : (rt.add_backlink self.links x).1 <;> cases hb : self.proxy.broker_ <;> simp [hb]
  · unfold remove_backlink
    rw [forward_msg_unlink]
    cases hp : (rt.remove_backlink self.links x).1 <;> cases hb : self.proxy.broker_ <;>
      simp [hb]

end proxy_world

/-- The proxy of the examples, whose broker is actor 7, gets the backlink 9
and loses it again. -/
theorem backlink_forwards_to_present_broker_witness :
    (test_runtime.add_backlink (test_world []).links 9).1 = true ∧
    (test_world []).proxy.broker_ = some 7 ∧
    ((test_world []).add_backlink test_runtime 9).2.broker_inbox =
      (test_world []).broker_inbox ++
        [(7, broker_input.forward (some (test_world []).proxy.ctrl_) []
          (some (test_world []).proxy.ctrl_) make_message_id
          (control_message.link (some 9)))] := by
  have h1 : (test_runtime.add_backlink (test_world []).links 9).1 = true := by decide
  have h2 : (test_world []).proxy.broker_ = some 7 := rfl
  exact ⟨h1, h2,
    (proxy_world.backlink_forwards_to_present_broker test_runtime (test_world []) 9).1.2.2.2.1
      h1 7 h2⟩

/-- C25, the claim as stated fails: a proxy built with the broker 7 is
killed and destroyed; the destructor finds the slot empty and sends nothing,
to the broker 7 or to anyone. -/
theorem destructor_silent_after_kill_proxy :
    (proxy_world.create 100 mars 1 (some 7)).proxy.broker_ = some 7 ∧
    ∃ dead,
      (proxy_world.create 100 mars 1 (some 7)).kill_proxy test_runtime (some 3)
          error.remote_link_unreachable = outcome.ok dead ∧
        dead.destroy.broker_inbox = [] :=
  ⟨rfl, _, rfl, rfl⟩

namespace proxy_world

/-- C25 (amended): the destructor of a proxy whose broker slot is present
sends exactly one notice `(delete_atom, node, id)`, without a sender and with
the node and the actor id of the proxy, to the broker in the slot, and does
nothing else; with an empty slot it sends nothing. The slot and the identity
are those of the constructor for as long as no `kill_proxy` was called. -/
theorem destructor_notifies_broker_in_slot (rt : runtime) (sys : home_system)
    (self : proxy_world) :
    (∀ broker, self.proxy.broker_ = some broker →
      self.destroy =
        { self with
          broker_inbox := self.broker_inbox ++
            [(broker, broker_input.delete self.proxy.node_ self.proxy.id_)] }) ∧
    (self.proxy.broker_ = none → self.destroy = self) ∧
    (∀ ctrl node id broker,
      (create ctrl node id (some broker)).destroy.broker_inbox =
        [(broker, broker_input.delete node id)]) ∧
    (∀ ctrl node id broker (cs : List proxy_call) (w : proxy_world),
      (∀ c ∈ cs, c.is_kill_proxy = false) →
      (create ctrl node id (some broker)).calls rt sys cs = outcome.ok w →
      w.destroy.broker_inbox = w.broker_inbox ++ [(broker, broker_input.delete node id)]) := by
  refine ⟨?_, destroy_of_no_broker self, fun _ _ _ _ => rfl, ?_⟩
  · intro broker h
    unfold destroy
    rw [h]
  · intro ctrl node id broker cs w hcs hw
    obtain ⟨h1, h2, h3⟩ := slot_calls rt sys cs _ hcs w hw
    have h1' : w.proxy.broker_ = some broker := h1
    have h2' : w.proxy.node_ = node := h2
    have h3' : w.proxy.id_ = id := h3
    unfold destroy
    rw [h1', h2', h3']

end proxy_world

/-- The proxy of the examples, whose broker is actor 7, is destroyed after
a record was enqueued and the proxy resumed. -/
theorem destructor_notifies_broker_in_slot_witness :
    (test_world []).proxy.broker_ = some 7 ∧
    (test_world []).destroy =
      { test_world [] with broker_inbox := [(7, broker_input.delete mars 1)] } ∧
    ∃ w,
      (proxy_world.create 100 mars 1 (some 7)).calls test_runtime test_home
          [proxy_call.enqueue (test_record 11 [1]) none, proxy_call.resume none 5] =
        outcome.ok w ∧
      w.destroy.broker_inbox = w.broker_inbox ++ [(7, broker_input.delete mars 1)] := by
  have h : (test_world []).proxy.broker_ = some 7 := rfl
  have hw : (proxy_world.create 100 mars 1 (some 7)).calls test_runtime test_home
      [proxy_call.enqueue (test_record 11 [1]) none, proxy_call.resume none 5] =
      outcome.ok
        { test_world [] with
          proxy := test_proxy_blocked
          broker_inbox := [(7, broker_input.record (test_delivery 11 [1]))] } := by
    decide
  have hcs : ∀ c ∈ [proxy_call.enqueue (test_record 11 [1]) none, proxy_call.resume none 5],
      c.is_kill_proxy = false := by
    intro c hc
    have hc' : c = proxy_call.enqueue (test_record 11 [1]) none ∨
        c = proxy_call.resume none 5 := by simpa using hc
    cases hc' with
    | inl e => rw [e]; rfl
    | inr e => rw [e]; rfl
  exact ⟨h,
    (proxy_world.destructor_notifies_broker_in_slot test_runtime test_home (test_world [])).1
      7 h,
    _, hw,
    (proxy_world.destructor_notifies_broker_in_slot test_runtime test_home
      (test_world [])).2.2.2 100 mars 1 7 _ _ hcs hw⟩

/-- C28, the code against its own assertion: a proxy is built without a
broker, as the constructor allows, a record is enqueued and the proxy
resumed with a throughput of one. The visitor is applied to the record with
an empty broker slot, and `CAF_ASSERT(broker_ != nullptr)` fails. The visitor
fails so for any record whenever the slot is empty. -/
theorem resume_asserts_on_proxy_without_broker :
    ((proxy_world.create 100 mars 1 none).enqueue test_runtime
      (test_record 11 [1]) none).proxy.broker_ = none ∧
    ((proxy_world.create 100 mars 1 none).enqueue test_runtime
      (test_record 11 [1]) none).proxy.mailbox_.elements = [test_record 11 [1]] ∧
    basp_proxy.resume test_home
      ((proxy_world.create 100 mars 1 none).enqueue test_runtime
        (test_record 11 [1]) none).proxy none 1 = outcome.assertion_failed ∧
    (proxy_world.create 100 mars 1 none).calls test_runtime test_home
      [proxy_call.enqueue (test_record 11 [1]) none, proxy_call.resume none 1] =
      outcome.assertion_failed ∧
    ∀ (sys : home_system) (ctrl : Nat) (node : node_id) (id : actor_id) (ctx : Option Nat)
      (max_throughput : Nat) (x : mailbox_element) (st : resume_state),
      basp_proxy.visitor sys (basp_proxy.create ctrl node id none) ctx max_throughput x st =
        outcome.assertion_failed :=
  ⟨rfl, rfl, by decide, by decide,
    fun sys _ _ _ ctx max_throughput x st =>
      basp_proxy.visitor_of_no_broker sys ctx max_throughput x st rfl⟩

end io

end caf
